import Mathlib

/-!
# Bond trading pipeline: a shallow embedding of the services

Each C++ service is embedded as a structure holding its private members and
each member function as a function from the state before the call to the
state after it, together with the calls it makes on its listeners.

Conventions of the embedding

* `double` is embedded as `ℚ` (exact arithmetic), `long`, `int` and `size_t`
  as `Int` or `Nat` without wrap-around: signed overflow is undefined in
  the source, so no behaviour is modelled for it.  Where a price or a text
  is turned into an `int` (`static_cast<int>` and `++whole` in
  `ConvertToFrac`, `std::stoi` in the parsers) the range of `int` is part of
  the embedding: outside it the conversion has no result.  On the prices the
  fractional notation can express, multiples of 1/256 below 2^31, every
  `double` operation of the source is exact, so that `ℚ` computes the same
  values there; elsewhere the properties hold up to the rounding of `double`.
* `std::map` and `std::unordered_map` keyed on strings are association lists
  with at most one entry per key; `emplace` keeps an existing entry, as in
  the standard library.
* the vector of listener pointers is embedded as the number of registered
  listeners; listener `i` is the `i`-th one registered.  A `CallLog` records,
  in the order of the calls, which listener was called with what.
* an exception is embedded as `Except.error`.
-/

namespace BondTrading

/-! ## Standard-library containers -/

/-- Exceptions thrown by the embedded code, together with the exhaustion of
the recursion budget of a re-entrant call. -/
inductive Error where
  | out_of_range
  | invalid_argument
  | runtime_error
  | out_of_fuel
  deriving DecidableEq, Repr

/-- Association-list embedding of `std::map<string, V>` and
`std::unordered_map<string, V>`. -/
abbrev StrMap (V : Type) := List (String × V)

namespace StrMap

/-- Embedding of `m.find(key)`: `none` stands for `m.end()`. -/
def find {V : Type} (m : StrMap V) (key : String) : Option V :=
  match m with
  | [] => none
  | (k, v) :: rest => if k = key then some v else find rest key

/-- Embedding of `m.emplace(key, value)` (and of `m.insert(make_pair(key, value))`):
nothing happens when the key is already present. -/
def emplace {V : Type} (m : StrMap V) (key : String) (value : V) : StrMap V :=
  match find m key with
  | some _ => m
  | none => m ++ [(key, value)]

/-- Embedding of `m.erase(it)` for the iterator of `key`. -/
def erase {V : Type} (m : StrMap V) (key : String) : StrMap V :=
  m.filter (fun kv => decide (kv.1 ≠ key))

/-- Embedding of `m.at(key)`, which throws `std::out_of_range` on an absent key. -/
def «at» {V : Type} (m : StrMap V) (key : String) : Except Error V :=
  match find m key with
  | some v => .ok v
  | none => .error .out_of_range

/-- Embedding of the assignment `m[key] = f(m[key])` where an absent key is
first value-initialised to `dflt`. -/
def modify {V : Type} (m : StrMap V) (key : String) (dflt : V) (f : V → V) : StrMap V :=
  match m with
  | [] => [(key, f dflt)]
  | (k, v) :: rest => if k = key then (k, f v) :: rest else (k, v) :: modify rest key dflt f

end StrMap

/-! ## Listener calls -/

/-- One call on a `ServiceListener<V>`. -/
inductive ListenerCall (V : Type) where
  | ProcessAdd (data : V)
  | ProcessUpdate (data : V)
  | ProcessRemove (data : V)
  deriving DecidableEq, Repr

/-- Calls made on listeners, oldest first: `(i, c)` is the call `c` on the
`i`-th registered listener. -/
abbrev CallLog (V : Type) := List (Nat × ListenerCall V)

/-- Embedding of `for (auto listener : listeners) listener->call(data)`. -/
def notifyAll {V : Type} (listeners : Nat) (call : ListenerCall V) : CallLog V :=
  (List.range listeners).map (fun i => (i, call))

/-- The calls received by listener `i`, in order. -/
def received {V : Type} (i : Nat) (log : CallLog V) : List (ListenerCall V) :=
  (log.filter (fun e => decide (e.1 = i))).map Prod.snd

/-! ## Products (products.hpp) -/

/-- Modelled from the spec: `products.hpp`, which declares `Bond`, is not among
the sources.  The spec gives a Bond the key `ProductId` and the attributes
cusip, ticker, coupon and maturity; the services only ever read
`GetProductId()`. -/
structure Bond where
  productId : String
  ticker : String
  coupon : ℚ
  maturity : Nat × Nat × Nat
  deriving DecidableEq, Repr

/-- Embedding of `Bond::GetProductId`. -/
def Bond.GetProductId (b : Bond) : String := b.productId

/-! ## Trade sides (tradingbookservice.hpp) and pricing sides (marketdataservice.hpp) -/

/-- Embedding of `enum Side { BUY, SELL }`. -/
inductive Side where
  | BUY
  | SELL
  deriving DecidableEq, Repr

/-- Embedding of `enum PricingSide { BID, OFFER }`. -/
inductive PricingSide where
  | BID
  | OFFER
  deriving DecidableEq, Repr

/-! ## Inquiries (inquiryservice.hpp) -/

/-- Embedding of `enum InquiryState`. -/
inductive InquiryState where
  | RECEIVED
  | QUOTED
  | DONE
  | REJECTED
  | CUSTOMER_REJECTED
  deriving DecidableEq, Repr

/-- Embedding of `Inquiry<Bond>`. -/
structure Inquiry where
  inquiryId : String
  product : Bond
  side : Side
  quantity : Int
  price : ℚ
  state : InquiryState
  deriving DecidableEq, Repr

/-- Embedding of the private members of `BondInquiryService`. -/
structure BondInquiryService where
  inquiryMap : StrMap Inquiry
  listeners : Nat
  deriving DecidableEq, Repr

namespace BondInquiryService

/-- Embedding of `BondInquiryService::SendQuote`, with the re-entrant
`OnMessage` passed as `onMessage`.  The reference `inquiry` into the map is
read again after the first nested call. -/
def SendQuoteWith
    (onMessage : BondInquiryService → Inquiry → Except Error (BondInquiryService × CallLog Inquiry))
    (s : BondInquiryService) (inquiryId : String) (price : ℚ) :
    Except Error (BondInquiryService × CallLog Inquiry) := do
  let inquiry ← StrMap.at s.inquiryMap inquiryId
  let quotedInquiry : Inquiry :=
    ⟨inquiryId, inquiry.product, inquiry.side, inquiry.quantity, price, .QUOTED⟩
  let (s1, log1) ← onMessage s quotedInquiry
  let inquiry ← StrMap.at s1.inquiryMap inquiryId
  let doneInquiry : Inquiry :=
    ⟨inquiryId, inquiry.product, inquiry.side, inquiry.quantity, price, .DONE⟩
  let (s2, log2) ← onMessage s1 doneInquiry
  return (s2, log1 ++ log2)

/-- Embedding of `BondInquiryService::OnMessage`.  The call is re-entrant
through `SendQuote`; `fuel` bounds the nesting depth. -/
def OnMessage : Nat → BondInquiryService → Inquiry →
    Except Error (BondInquiryService × CallLog Inquiry)
  | 0, _, _ => .error .out_of_fuel
  | fuel + 1, s, data => do
    let inquiryId := data.inquiryId
    let isNew := (StrMap.find s.inquiryMap inquiryId).isNone
    let s1 : BondInquiryService := { s with inquiryMap := StrMap.emplace s.inquiryMap inquiryId data }
    let (s2, nested, data) ←
      (if data.state = .RECEIVED then do
        let (s2, nested) ← SendQuoteWith (OnMessage fuel) s1 inquiryId 100
        pure (s2, nested, data)
      else if data.state = .QUOTED then
        pure (s1, [], { data with state := .DONE })
      else
        pure (s1, [], data) : Except Error (BondInquiryService × CallLog Inquiry × Inquiry))
    let call : ListenerCall Inquiry := if isNew then .ProcessAdd data else .ProcessUpdate data
    return (s2, nested ++ notifyAll s.listeners call)

/-- Embedding of `BondInquiryService::SendQuote`. -/
def SendQuote (fuel : Nat) (s : BondInquiryService) (inquiryId : String) (price : ℚ) :
    Except Error (BondInquiryService × CallLog Inquiry) :=
  SendQuoteWith (OnMessage fuel) s inquiryId price

end BondInquiryService

/-! ## Numeric conversions and strings of the standard library -/

/-- Embedding of the conversion of a `double` to `int` or `long`: the value is
truncated toward zero. -/
def truncate (x : ℚ) : Int := if 0 ≤ x then ⌊x⌋ else ⌈x⌉

/-- Embedding of `static_cast<int>(x)` for a `double`: the value is truncated
toward zero; when the truncated value is outside the range of `int` the
conversion is undefined in the source and is `none` here. -/
def toInt (x : ℚ) : Option Int :=
  if -2147483648 ≤ truncate x ∧ truncate x ≤ 2147483647 then some (truncate x) else none

/-- Embedding of `round` from `<cmath>`: the nearest integer, halfway cases
away from zero. -/
def cround (x : ℚ) : ℚ := if 0 ≤ x then (⌊x + 1 / 2⌋ : Int) else (⌈x - 1 / 2⌉ : Int)

/-- Embedding of `isspace` in the C locale. -/
def isspace (c : Char) : Bool :=
  c = ' ' || c = '\t' || c = '\n' || c = '\x0b' || c = '\x0c' || c = '\r'

/-- Value of the leading decimal digits of a text, most significant first. -/
def digitsValue (ds : List Char) : Nat :=
  ds.foldl (fun acc c => 10 * acc + (c.toNat - 48)) 0

/-- Embedding of `std::stoi`. -/
def stoi (str : String) : Except Error Int :=
  let s := str.data.dropWhile isspace
  let signed : Bool × List Char :=
    match s with
    | '-' :: r => (true, r)
    | '+' :: r => (false, r)
    | _ => (false, s)
  let ds := signed.2.takeWhile Char.isDigit
  if ds = [] then .error .invalid_argument
  else
    let v : Int := if signed.1 then -(digitsValue ds : Int) else (digitsValue ds : Int)
    if v < -2147483648 ∨ 2147483647 < v then .error .out_of_range else .ok v

/-- Embedding of `str.find(c)` for a one-character pattern: the length of the
text stands for `npos`. -/
def findChar (str : String) (c : Char) : Nat := str.data.findIdx (fun d => d = c)

/-- Embedding of `str.substr(pos, len)`. -/
def substr (str : String) (pos len : Nat) : String := ⟨(str.data.drop pos).take len⟩

/-- Embedding of `str.substr(pos)`. -/
def substrFrom (str : String) (pos : Nat) : String := ⟨str.data.drop pos⟩

/-! ## Fractional prices (guiservice.hpp, pricingservice.hpp) -/

namespace GUIService

/-- Embedding of `GUIService::ConvertToFrac`.  `whole` and `ticks256` are of
type `int`: the two conversions and the increment `++whole` are undefined in
the source when the value leaves the range of `int`, and the result is `none`
then. -/
def ConvertToFrac (price : ℚ) : Option String := do
  let whole ← toInt price
  let frac : ℚ := price - (whole : ℚ)
  let totalTicks : ℚ := cround (frac * 256)
  let ticks256 ← toInt totalTicks
  let carried : Int × Int ←
    (if ticks256 = 256 then
      (if whole + 1 ≤ 2147483647 then some (0, whole + 1) else none)
    else some (ticks256, whole) : Option (Int × Int))
  let ticks256 := carried.1
  let whole := carried.2
  let ticks32 : Int := Int.tdiv ticks256 8
  let subTicks : Int := Int.tmod ticks256 8
  let oss : String := toString whole ++ "-"
  let oss := if ticks32 < 10 then oss ++ "0" else oss
  let oss := oss ++ toString ticks32
  let oss :=
    if subTicks = 4 then oss ++ "+"
    else if subTicks ≠ 0 then oss ++ toString subTicks
    else oss
  pure oss

end GUIService

namespace BondPricingConnector

/-- Embedding of `BondPricingConnector::ConvertToDouble`.  The branch for a text
without a dash calls `std::stod`, which is taken as the parameter `stod`. -/
def ConvertToDouble (stod : String → Except Error ℚ) (fraction : String) : Except Error ℚ :=
  let dashPos := findChar fraction '-'
  if dashPos = fraction.data.length then stod fraction
  else do
    let intPart := substr fraction 0 dashPos
    let fracPart := substrFrom fraction (dashPos + 1)
    let integerPart ← stoi intPart
    let xyz : Int × Int ←
      (if fracPart.data.length = 2 then do
        let z ← stoi fracPart
        pure (0, z)
      else if fracPart.data.length > 2 then do
        let xyStr := substr fracPart 0 2
        let xy ← stoi xyStr
        let thirdChar := fracPart.data.getD 2 ' '
        let z : Int :=
          if thirdChar = '+' then 4
          else if thirdChar.isDigit then (thirdChar.toNat : Int) - 48
          else 0
        pure (xy, z)
      else .error .runtime_error : Except Error (Int × Int))
    let total256 : ℚ := 8 * (xyz.1 : ℚ) + (xyz.2 : ℚ)
    let fractionDecimal : ℚ := total256 / 256
    let result : ℚ := (integerPart : ℚ) + fractionDecimal
    pure result

end BondPricingConnector

namespace StrMap

/-- Embedding of a write through the iterator or reference of `key`: the entry
of `key`, if any, is replaced by its image under `f`. -/
def update {V : Type} (m : StrMap V) (key : String) (f : V → V) : StrMap V :=
  m.map (fun kv => if kv.1 = key then (kv.1, f kv.2) else kv)

end StrMap

/-! ## Trades (tradingbookservice.hpp) and positions (positionservice.hpp) -/

/-- Embedding of `Trade<Bond>`. -/
structure Trade where
  product : Bond
  tradeId : String
  price : ℚ
  book : String
  quantity : Int
  side : Side
  deriving DecidableEq, Repr

/-- Embedding of `Position<Bond>`. -/
structure Position where
  product : Bond
  positions : StrMap Int
  deriving DecidableEq, Repr

namespace Position

/-- Embedding of the read of `Position::GetPosition(book)`: `positions[book]`
is zero for a book without an entry. -/
def GetPosition (p : Position) (book : String) : Int :=
  (StrMap.find p.positions book).getD 0

/-- Embedding of `Position::GetAggregatePosition`: the loop adds every
`kv.second` to `aggregate`. -/
def GetAggregatePosition (p : Position) : Int :=
  p.positions.foldl (fun aggregate kv => aggregate + kv.2) 0

end Position

/-- Embedding of the private members of `BondPositionService`. -/
structure BondPositionService where
  positionMap : StrMap Position
  listeners : Nat
  deriving DecidableEq, Repr

namespace BondPositionService

/-- Embedding of `BondPositionService::AddTrade`. -/
def AddTrade (s : BondPositionService) (trade : Trade) :
    BondPositionService × CallLog Position :=
  let productId := trade.product.GetProductId
  let isNew := (StrMap.find s.positionMap productId).isNone
  let positionMap :=
    if isNew then StrMap.emplace s.positionMap productId ⟨trade.product, []⟩
    else s.positionMap
  let quantity : Int := if trade.side = .SELL then -trade.quantity else trade.quantity
  let book := trade.book
  let addToBook : Position → Position := fun pos =>
    { pos with positions := StrMap.modify pos.positions book 0 (fun q => q + quantity) }
  let positionMap := StrMap.update positionMap productId addToBook
  match StrMap.find positionMap productId with
  | none => ({ s with positionMap := positionMap }, [])
  | some pos =>
    let call : ListenerCall Position := if isNew then .ProcessAdd pos else .ProcessUpdate pos
    ({ s with positionMap := positionMap }, notifyAll s.listeners call)

/-- Embedding of `BondPositionService::ProcessAdd`. -/
def ProcessAdd (s : BondPositionService) (data : Trade) :
    BondPositionService × CallLog Position :=
  AddTrade s data

/-- Embedding of `BondPositionService::ProcessUpdate`. -/
def ProcessUpdate (s : BondPositionService) (data : Trade) :
    BondPositionService × CallLog Position :=
  AddTrade s data

/-- Embedding of `BondPositionService::ProcessRemove`. -/
def ProcessRemove (s : BondPositionService) (data : Trade) :
    BondPositionService × CallLog Position :=
  let productId := data.product.GetProductId
  match StrMap.find s.positionMap productId with
  | none => (s, [])
  | some _ =>
    let quantity : Int := if data.side = .BUY then -data.quantity else data.quantity
    let book := data.book
    let addToBook : Position → Position := fun pos =>
      { pos with positions := StrMap.modify pos.positions book 0 (fun q => q + quantity) }
    let positionMap := StrMap.update s.positionMap productId addToBook
    match StrMap.find positionMap productId with
    | none => ({ s with positionMap := positionMap }, [])
    | some pos => ({ s with positionMap := positionMap }, notifyAll s.listeners (.ProcessUpdate pos))

/-- The service as a listener of trades: one call received from a trade
booking service. -/
def handle (s : BondPositionService) (call : ListenerCall Trade) :
    BondPositionService × CallLog Position :=
  match call with
  | .ProcessAdd data => ProcessAdd s data
  | .ProcessUpdate data => ProcessUpdate s data
  | .ProcessRemove data => ProcessRemove s data

/-- A sequence of trades applied in turn through `AddTrade`. -/
def addTrades (s : BondPositionService) : List Trade → BondPositionService
  | [] => s
  | t :: rest => addTrades (AddTrade s t).1 rest

end BondPositionService

/-- The signed quantity of a trade: `+quantity` for BUY, `-quantity` for SELL. -/
def Trade.signedQuantity (t : Trade) : Int :=
  match t.side with
  | .BUY => t.quantity
  | .SELL => -t.quantity

/-- Sum of the signed quantities of the trades of `trades` whose product has
the identifier `productId`. -/
def signedQuantityOf (productId : String) (trades : List Trade) : Int :=
  ((trades.filter (fun t => decide (t.product.GetProductId = productId))).map
    Trade.signedQuantity).sum

/-! ## Order books and market data (marketdataservice.hpp) -/

/-- Embedding of `Order`. -/
structure Order where
  price : ℚ
  quantity : Int
  side : PricingSide
  deriving DecidableEq, Repr

/-- Embedding of `BidOffer`. -/
structure BidOffer where
  bidOrder : Order
  offerOrder : Order
  deriving DecidableEq, Repr

/-- Embedding of `OrderBook<Bond>`. -/
structure OrderBook where
  product : Bond
  bidStack : List Order
  offerStack : List Order
  deriving DecidableEq, Repr

/-- Embedding of `std::map<double, long, Compare>`: the entries are kept in the
order of the comparison `lt`, which is the order of iteration. -/
abbrev PriceMap := List (ℚ × Int)

/-- Embedding of `m[key] += quantity` on a `std::map<double, long, Compare>`:
an absent key is first value-initialised to zero; two keys are the same when
neither is `lt` the other. -/
def PriceMap.add (lt : ℚ → ℚ → Bool) (m : PriceMap) (key : ℚ) (quantity : Int) : PriceMap :=
  match m with
  | [] => [(key, 0 + quantity)]
  | (k, v) :: rest =>
    if lt key k then (key, 0 + quantity) :: (k, v) :: rest
    else if lt k key then (k, v) :: PriceMap.add lt rest key quantity
    else (k, v + quantity) :: rest

/-- Embedding of `std::sort(first, last, comp)` as an insertion sort.  The
standard leaves the relative order of equivalent elements unspecified; the
sort embedded here keeps it. -/
def sort (comp : Order → Order → Bool) (stack : List Order) : List Order :=
  stack.insertionSort (fun a b => comp b a = false)

/-- Embedding of the private members of `BondMarketDataService`. -/
structure BondMarketDataService where
  orderBookMap : StrMap OrderBook
  aggregatedOrderBookMap : StrMap OrderBook
  listeners : Nat
  deriving DecidableEq, Repr

namespace BondMarketDataService

/-- Embedding of `BondMarketDataService::GetData`. -/
def GetData (s : BondMarketDataService) (key : String) : Except Error OrderBook :=
  match StrMap.find s.orderBookMap key with
  | some book => .ok book
  | none => .error .runtime_error

/-- Embedding of `BondMarketDataService::AggregateDepth`, which returns the
entry of the aggregated map and may add one to it. -/
def AggregateDepth (s : BondMarketDataService) (productId : String) :
    Except Error (BondMarketDataService × OrderBook) :=
  match StrMap.find s.orderBookMap productId with
  | none => .error .runtime_error
  | some orderBook => do
    let aggregatedBids : PriceMap :=
      orderBook.bidStack.foldl
        (fun m order => PriceMap.add (fun a b => decide (a > b)) m order.price order.quantity) []
    let aggregatedOffers : PriceMap :=
      orderBook.offerStack.foldl
        (fun m order => PriceMap.add (fun a b => decide (a < b)) m order.price order.quantity) []
    let newBidStack : List Order := aggregatedBids.map (fun entry => ⟨entry.1, entry.2, .BID⟩)
    let newOfferStack : List Order := aggregatedOffers.map (fun entry => ⟨entry.1, entry.2, .OFFER⟩)
    let aggregatedOrderBookMap :=
      StrMap.emplace s.aggregatedOrderBookMap productId
        ⟨orderBook.product, newBidStack, newOfferStack⟩
    let result ← StrMap.at aggregatedOrderBookMap productId
    pure ({ s with aggregatedOrderBookMap := aggregatedOrderBookMap }, result)

/-- Embedding of `BondMarketDataService::OnMessage`. -/
def OnMessage (s : BondMarketDataService) (data : OrderBook) :
    Except Error (BondMarketDataService × CallLog OrderBook) := do
  let productId := data.product.GetProductId
  let isNew := (StrMap.find s.orderBookMap productId).isNone
  let sortedBidStack := sort (fun a b => decide (a.price > b.price)) data.bidStack
  let sortedOfferStack := sort (fun a b => decide (a.price < b.price)) data.offerStack
  let sortedOrderBook : OrderBook := ⟨data.product, sortedBidStack, sortedOfferStack⟩
  let s1 : BondMarketDataService :=
    { s with orderBookMap := StrMap.emplace s.orderBookMap productId sortedOrderBook }
  let (s2, _) ← AggregateDepth s1 productId
  let call : ListenerCall OrderBook := if isNew then .ProcessAdd data else .ProcessUpdate data
  pure (s2, notifyAll s.listeners call)

/-- Embedding of `BondMarketDataService::GetBestBidOffer`.  `front()` of an
empty stack is undefined in the source and is an error here. -/
def GetBestBidOffer (s : BondMarketDataService) (productId : String) : Except Error BidOffer :=
  match StrMap.find s.orderBookMap productId with
  | some orderBook =>
    match orderBook.bidStack, orderBook.offerStack with
    | bid :: _, offer :: _ => .ok ⟨bid, offer⟩
    | _, _ => .error .out_of_range
  | none => .error .runtime_error

end BondMarketDataService

/-- Total quantity of a stack of orders. -/
def totalQuantity (stack : List Order) : Int := (stack.map (fun o => o.quantity)).sum

/-! ## Prices (pricingservice.hpp) and price streams (streamingservice.hpp) -/

/-- Embedding of `Price<Bond>`. -/
structure Price where
  product : Bond
  mid : ℚ
  bidOfferSpread : ℚ
  deriving DecidableEq, Repr

/-- Embedding of `PriceStreamOrder`. -/
structure PriceStreamOrder where
  price : ℚ
  visibleQuantity : Int
  hiddenQuantity : Int
  side : PricingSide
  deriving DecidableEq, Repr

/-- Embedding of `PriceStream<Bond>`. -/
structure PriceStream where
  product : Bond
  bidOrder : PriceStreamOrder
  offerOrder : PriceStreamOrder
  deriving DecidableEq, Repr

/-! ## Algo streaming (algostreamingservice.hpp) -/

/-- Embedding of `AlgoStream`. -/
structure AlgoStream where
  priceStream : PriceStream
  deriving DecidableEq, Repr

/-- Embedding of `BondAlgoStreamingService::SizeTracker`; its constructor
sets `toggle` to true. -/
structure SizeTracker where
  toggle : Bool := true
  deriving DecidableEq, Repr

/-- Embedding of the private members of `BondAlgoStreamingService`. -/
structure BondAlgoStreamingService where
  algoStreamMap : StrMap AlgoStream
  listeners : Nat
  sizeTrackers : StrMap SizeTracker
  deriving DecidableEq, Repr

namespace BondAlgoStreamingService

/-- Embedding of `BondAlgoStreamingService::ProcessPrice`.  `sizeTrackers[productId]`
value-initialises an absent tracker with the constructor, and the stream
of `productId` is assigned through the reference `algoStreamMap[productId]`. -/
def ProcessPrice (s : BondAlgoStreamingService) (price : Price) :
    BondAlgoStreamingService × CallLog PriceStream :=
  let productId := price.product.GetProductId
  let isNew := (StrMap.find s.algoStreamMap productId).isNone
  let bidOrder : PriceStreamOrder := ⟨price.mid - price.bidOfferSpread / 2, 1000000, 2000000, .BID⟩
  let offerOrder : PriceStreamOrder := ⟨price.mid + price.bidOfferSpread / 2, 1000000, 2000000, .OFFER⟩
  let algoStreamMap :=
    if isNew then StrMap.emplace s.algoStreamMap productId ⟨⟨price.product, bidOrder, offerOrder⟩⟩
    else s.algoStreamMap
  let sizeTrackers :=
    if isNew then StrMap.emplace s.sizeTrackers productId {}
    else s.sizeTrackers
  let tracker : SizeTracker := (StrMap.find sizeTrackers productId).getD {}
  let newVisibleSize : Int := if tracker.toggle then 1000000 else 2000000
  let sizeTrackers :=
    StrMap.modify sizeTrackers productId {} (fun t => { t with toggle := !tracker.toggle })
  let newHiddenSize : Int := newVisibleSize * 2
  let newBidOrder : PriceStreamOrder :=
    ⟨price.mid - price.bidOfferSpread / 2, newVisibleSize, newHiddenSize, .BID⟩
  let newOfferOrder : PriceStreamOrder :=
    ⟨price.mid + price.bidOfferSpread / 2, newVisibleSize, newHiddenSize, .OFFER⟩
  let algoStream : AlgoStream := ⟨⟨price.product, newBidOrder, newOfferOrder⟩⟩
  let algoStreamMap := StrMap.modify algoStreamMap productId algoStream (fun _ => algoStream)
  let priceStream := algoStream.priceStream
  let call : ListenerCall PriceStream :=
    if isNew then .ProcessAdd priceStream else .ProcessUpdate priceStream
  ({ s with algoStreamMap := algoStreamMap, sizeTrackers := sizeTrackers },
    notifyAll s.listeners call)

/-- Embedding of `BondAlgoStreamingService::ProcessAdd`. -/
def ProcessAdd (s : BondAlgoStreamingService) (price : Price) :
    BondAlgoStreamingService × CallLog PriceStream :=
  ProcessPrice s price

/-- Embedding of `BondAlgoStreamingService::ProcessRemove`, which does nothing. -/
def ProcessRemove (s : BondAlgoStreamingService) (_price : Price) :
    BondAlgoStreamingService × CallLog PriceStream :=
  (s, [])

/-- Embedding of `BondAlgoStreamingService::ProcessUpdate`. -/
def ProcessUpdate (s : BondAlgoStreamingService) (price : Price) :
    BondAlgoStreamingService × CallLog PriceStream :=
  ProcessPrice s price

/-- The service as a listener of prices: one call received from the pricing
service. -/
def handle (s : BondAlgoStreamingService) (call : ListenerCall Price) :
    BondAlgoStreamingService × CallLog PriceStream :=
  match call with
  | .ProcessAdd price => ProcessAdd s price
  | .ProcessUpdate price => ProcessUpdate s price
  | .ProcessRemove price => ProcessRemove s price

/-- A sequence of price events delivered in turn; the calls made on the
listeners are collected in order. -/
def deliver (s : BondAlgoStreamingService) :
    List (ListenerCall Price) → BondAlgoStreamingService × CallLog PriceStream
  | [] => (s, [])
  | call :: rest =>
    let r := handle s call
    let r2 := deliver r.1 rest
    (r2.1, r.2 ++ r2.2)

/-- The service as constructed: empty maps, `listeners` registered listeners. -/
def init (listeners : Nat) : BondAlgoStreamingService := ⟨[], listeners, []⟩

end BondAlgoStreamingService

/-- The record carried by a listener call. -/
def ListenerCall.data {V : Type} : ListenerCall V → V
  | .ProcessAdd d => d
  | .ProcessUpdate d => d
  | .ProcessRemove d => d

/-- The price streams received by listener `i` for the product `productId`,
in order. -/
def streamsFor (productId : String) (i : Nat) (log : CallLog PriceStream) : List PriceStream :=
  ((received i log).map ListenerCall.data).filter
    (fun p => decide (p.product.GetProductId = productId))

/-! ## Execution (executionservice.hpp) -/

/-- Embedding of `enum OrderType`. -/
inductive OrderType where
  | FOK
  | IOC
  | MARKET
  | LIMIT
  | STOP
  deriving DecidableEq, Repr

/-- Embedding of `enum Market`. -/
inductive Market where
  | BROKERTEC
  | ESPEED
  | CME
  deriving DecidableEq, Repr

/-- Embedding of `enum Execution::ExecutionState`. -/
inductive ExecutionState where
  | EXECUTED
  | CANCELLED
  | REJECTED
  deriving DecidableEq, Repr

/-- Embedding of `ExecutionOrder<Bond>`; the two quantities are stored as
`double`. -/
structure ExecutionOrder where
  product : Bond
  side : PricingSide
  orderId : String
  orderType : OrderType
  price : ℚ
  visibleQuantity : ℚ
  hiddenQuantity : ℚ
  parentOrderId : String
  isChildOrder : Bool
  deriving DecidableEq, Repr

namespace ExecutionOrder

/-- Embedding of `ExecutionOrder::GetVisibleQuantity`, which returns `long`. -/
def GetVisibleQuantity (o : ExecutionOrder) : Int := truncate o.visibleQuantity

/-- Embedding of `ExecutionOrder::GetHiddenQuantity`, which returns `long`. -/
def GetHiddenQuantity (o : ExecutionOrder) : Int := truncate o.hiddenQuantity

end ExecutionOrder

/-- Embedding of the private members of `BondExecutionService`. -/
structure BondExecutionService where
  executionMap : StrMap ExecutionOrder
  listeners : Nat
  tradeBooks : List String
  currentTradeBookIndex : Nat
  deriving DecidableEq, Repr

namespace BondExecutionService

/-- The service as constructed by the member initialisers. -/
def init (listeners : Nat) : BondExecutionService :=
  ⟨[], listeners, ["TRSY1", "TRSY2", "TRSY3"], 0⟩

/-- How the loop over the markets of `ExecuteOrder` is left: by `return` on a
cancelled order, or by `break` or exhaustion with the last state; `rejectedIn`
lists the markets for which a rejection was logged. -/
structure Routing where
  returned : Bool
  executionState : ExecutionState
  rejectedIn : List Market
  deriving DecidableEq, Repr

/-- Embedding of the loop `for (auto Currmarket : ...)` of `ExecuteOrder`, from
the state `executionState` over the markets still to try. -/
def routeMarkets (order : ExecutionOrder) (executionQuant : Int) :
    List Market → ExecutionState → Routing
  | [], executionState => ⟨false, executionState, []⟩
  | Currmarket :: rest, executionState =>
    let executionState : ExecutionState :=
      match order.orderType with
      | .FOK => if executionQuant ≥ order.GetVisibleQuantity then .EXECUTED else .CANCELLED
      | .IOC => if executionQuant > 0 then .EXECUTED else .CANCELLED
      | .MARKET => .EXECUTED
      | _ => executionState
    if executionState = .CANCELLED then ⟨true, executionState, []⟩
    else if executionState = .EXECUTED then ⟨false, executionState, []⟩
    else
      let r := routeMarkets order executionQuant rest executionState
      ⟨r.returned, r.executionState, Currmarket :: r.rejectedIn⟩

/-- Embedding of `BondExecutionService::ExecuteOrder`.  Indexing `tradeBooks`
out of bounds is undefined in the source and is an error here. -/
def ExecuteOrder (s : BondExecutionService) (order : ExecutionOrder) (_market : Market) :
    Except Error (BondExecutionService × CallLog Trade) :=
  let executionQuant : Int :=
    if order.GetVisibleQuantity > 0 then order.GetVisibleQuantity else order.GetHiddenQuantity
  if order.isChildOrder = true ∧ (StrMap.find s.executionMap order.parentOrderId).isNone then
    .ok (s, [])
  else
    let s1 : BondExecutionService :=
      if order.isChildOrder then s
      else { s with executionMap := StrMap.emplace s.executionMap order.orderId order }
    let routing := routeMarkets order executionQuant [.BROKERTEC, .ESPEED, .CME] .REJECTED
    if routing.returned then .ok (s1, [])
    else if routing.executionState = .EXECUTED then
      let orderId := order.orderId
      let isNew := (StrMap.find s1.executionMap orderId).isNone
      let executionMap := StrMap.emplace s1.executionMap orderId order
      match s1.tradeBooks.get? s1.currentTradeBookIndex with
      | none => .error .out_of_range
      | some tradeBook =>
        let currentTradeBookIndex := (s1.currentTradeBookIndex + 1) % s1.tradeBooks.length
        let tradeId := "TRADE_" ++ order.orderId
        let orderSide : Side := if order.side = .BID then .BUY else .SELL
        let trade : Trade :=
          ⟨order.product, tradeId, order.price, tradeBook, order.GetVisibleQuantity, orderSide⟩
        let call : ListenerCall Trade := if isNew then .ProcessAdd trade else .ProcessUpdate trade
        .ok ({ s1 with executionMap := executionMap, currentTradeBookIndex := currentTradeBookIndex },
          notifyAll s1.listeners call)
    else .ok (s1, [])

/-- Embedding of `BondExecutionService::ProcessAdd`. -/
def ProcessAdd (s : BondExecutionService) (data : ExecutionOrder) :
    Except Error (BondExecutionService × CallLog Trade) :=
  ExecuteOrder s data .BROKERTEC

/-- Embedding of `BondExecutionService::ProcessRemove`. -/
def ProcessRemove (s : BondExecutionService) (data : ExecutionOrder) :
    Except Error (BondExecutionService × CallLog Trade) :=
  let orderId := data.orderId
  match StrMap.find s.executionMap orderId with
  | some _ => .ok ({ s with executionMap := StrMap.erase s.executionMap orderId }, [])
  | none => .ok (s, [])

/-- Embedding of `BondExecutionService::ProcessUpdate`. -/
def ProcessUpdate (s : BondExecutionService) (data : ExecutionOrder) :
    Except Error (BondExecutionService × CallLog Trade) :=
  ExecuteOrder s data .BROKERTEC

/-- The service as a listener of execution orders. -/
def handle (s : BondExecutionService) (call : ListenerCall ExecutionOrder) :
    Except Error (BondExecutionService × CallLog Trade) :=
  match call with
  | .ProcessAdd data => ProcessAdd s data
  | .ProcessUpdate data => ProcessUpdate s data
  | .ProcessRemove data => ProcessRemove s data

/-- A sequence of calls delivered in turn; the calls made on the listeners are
collected in order. -/
def deliver (s : BondExecutionService) :
    List (ListenerCall ExecutionOrder) → Except Error (BondExecutionService × CallLog Trade)
  | [] => .ok (s, [])
  | call :: rest => do
    let r ← handle s call
    let r2 ← deliver r.1 rest
    pure (r2.1, r.2 ++ r2.2)

end BondExecutionService

/-- The books of the trades received by listener `i`, in order. -/
def booksOf (i : Nat) (log : CallLog Trade) : List String :=
  (received i log).map (fun c => c.data.book)

/-! ## Algo execution (algoexecutionservice.hpp) -/

/-- Embedding of the private members of `BondAlgoExecutionService`. -/
structure BondAlgoExecutionService where
  algoExecutionMap : StrMap ExecutionOrder
  listeners : Nat
  lastAggressBid : Bool
  deriving DecidableEq, Repr

namespace BondAlgoExecutionService

/-- The service as constructed: `lastAggressBid` is false. -/
def init (listeners : Nat) : BondAlgoExecutionService := ⟨[], listeners, false⟩

/-- Embedding of `BondAlgoExecutionService::AggressTopOfBook`. -/
def AggressTopOfBook (s : BondAlgoExecutionService) (orderBook : OrderBook) (productId : String) :
    BondAlgoExecutionService × CallLog ExecutionOrder :=
  let aggressSide : PricingSide := if s.lastAggressBid then .OFFER else .BID
  match orderBook.bidStack, orderBook.offerStack with
  | bidFront :: _, offerFront :: _ =>
    let executionPrice : ℚ := if aggressSide = .BID then bidFront.price else offerFront.price
    let quantity : ℚ :=
      if aggressSide = .BID then (bidFront.quantity : ℚ) else (offerFront.quantity : ℚ)
    let orderId := productId
    let hiddenQuantity : ℚ := 0
    let parentOrderId := ""
    let side : PricingSide := if aggressSide = .BID then .BID else .OFFER
    let executionOrder : ExecutionOrder :=
      ⟨orderBook.product, side, orderId, .MARKET, executionPrice, quantity, hiddenQuantity,
        parentOrderId, false⟩
    ({ s with
        algoExecutionMap := StrMap.emplace s.algoExecutionMap productId executionOrder,
        lastAggressBid := !s.lastAggressBid },
      notifyAll s.listeners (.ProcessAdd executionOrder))
  | _, _ => (s, [])

/-- Embedding of `BondAlgoExecutionService::Execute`. -/
def Execute (s : BondAlgoExecutionService) (data : OrderBook) :
    BondAlgoExecutionService × CallLog ExecutionOrder :=
  let productId := data.product.GetProductId
  match data.bidStack, data.offerStack with
  | bidFront :: _, offerFront :: _ =>
    let bestBidPrice := bidFront.price
    let bestOfferPrice := offerFront.price
    let spread := bestOfferPrice - bestBidPrice
    let minSpread : ℚ := 1 / 128
    if spread ≤ minSpread + 1 / 1000000000 then AggressTopOfBook s data productId
    else (s, [])
  | _, _ => (s, [])

/-- Embedding of `BondAlgoExecutionService::ProcessAdd`. -/
def ProcessAdd (s : BondAlgoExecutionService) (data : OrderBook) :
    BondAlgoExecutionService × CallLog ExecutionOrder :=
  Execute s data

/-- Embedding of `BondAlgoExecutionService::ProcessUpdate`. -/
def ProcessUpdate (s : BondAlgoExecutionService) (data : OrderBook) :
    BondAlgoExecutionService × CallLog ExecutionOrder :=
  Execute s data

/-- Embedding of `BondAlgoExecutionService::ProcessRemove`. -/
def ProcessRemove (s : BondAlgoExecutionService) (data : OrderBook) :
    BondAlgoExecutionService × CallLog ExecutionOrder :=
  ({ s with algoExecutionMap := StrMap.erase s.algoExecutionMap data.product.GetProductId }, [])

end BondAlgoExecutionService

/-- The inquiry that `SendQuote` builds from the stored inquiry `data` for the
price `price` and the state `st`. -/
def BondInquiryService.quoteOf (data : Inquiry) (price : ℚ) (st : InquiryState) : Inquiry :=
  ⟨data.inquiryId, data.product, data.side, data.quantity, price, st⟩

/-! ## Auxiliary definitions for the properties of positions -/

namespace BondPositionService

/-- The aggregate position stored for a product, zero when none is stored. -/
def aggregateOf (s : BondPositionService) (productId : String) : Int :=
  match StrMap.find s.positionMap productId with
  | some pos => pos.GetAggregatePosition
  | none => 0

/-- The position `pos` after the signed quantity of `trade` has been added to
the book of the trade. -/
def addToBook (trade : Trade) (pos : Position) : Position :=
  { pos with
    positions :=
      StrMap.modify pos.positions trade.book 0 (fun q =>
        q + (if trade.side = .SELL then -trade.quantity else trade.quantity)) }

/-- The position that `AddTrade` leaves stored for the product of the trade. -/
def positionAfter (s : BondPositionService) (trade : Trade) : Position :=
  let pos : Position := (StrMap.find s.positionMap trade.product.GetProductId).getD ⟨trade.product, []⟩
  addToBook trade pos

end BondPositionService

/-! ## Auxiliary definitions for the properties of algo streaming -/

/-- The toggle that `ProcessPrice` will read for a product: that of its
tracker, or that of a newly constructed tracker when it has none. -/
def BondAlgoStreamingService.toggleOf (s : BondAlgoStreamingService) (productId : String) : Bool :=
  ((StrMap.find s.sizeTrackers productId).getD {}).toggle

/-- Visible size of the stream number `k` (counted from zero) of a product whose
toggle was `toggle` before the first of them: 1,000,000 and 2,000,000 in turn. -/
def visibleSizeAt (toggle : Bool) (k : Nat) : Int :=
  if toggle = decide (k % 2 = 0) then 1000000 else 2000000

/-- The stream that `ProcessPrice` hands to the listeners. -/
def BondAlgoStreamingService.streamOf (s : BondAlgoStreamingService) (price : Price) : PriceStream :=
  let size : Int := if s.toggleOf price.product.GetProductId then 1000000 else 2000000
  ⟨price.product,
    ⟨price.mid - price.bidOfferSpread / 2, size, size * 2, .BID⟩,
    ⟨price.mid + price.bidOfferSpread / 2, size, size * 2, .OFFER⟩⟩

/-! ## Auxiliary definitions for the properties of execution -/

namespace BondExecutionService

/-- The effective quantity `executionQuant` of `ExecuteOrder`: the visible
quantity when it is positive, the hidden quantity otherwise. -/
def effectiveQuantity (order : ExecutionOrder) : Int :=
  if order.GetVisibleQuantity > 0 then order.GetVisibleQuantity else order.GetHiddenQuantity

/-- The order is of type MARKET, or IOC with a positive effective quantity, or
FOK with an effective quantity of at least the visible quantity. -/
def fills (order : ExecutionOrder) : Prop :=
  order.orderType = .MARKET ∨
  (order.orderType = .IOC ∧ effectiveQuantity order > 0) ∨
  (order.orderType = .FOK ∧ effectiveQuantity order ≥ order.GetVisibleQuantity)

instance (order : ExecutionOrder) : Decidable (fills order) := by
  unfold fills
  infer_instance

/-- The order is a child order whose parent is not a key of the store. -/
def dropped (s : BondExecutionService) (order : ExecutionOrder) : Prop :=
  order.isChildOrder = true ∧ (StrMap.find s.executionMap order.parentOrderId).isNone = true

instance (s : BondExecutionService) (order : ExecutionOrder) : Decidable (dropped s order) := by
  unfold dropped
  infer_instance

/-- The store after the first part of `ExecuteOrder`: a non-child order has
been emplaced under its order id. -/
def stored (s : BondExecutionService) (order : ExecutionOrder) : BondExecutionService :=
  if order.isChildOrder then s
  else { s with executionMap := StrMap.emplace s.executionMap order.orderId order }

/-- The trade that `ExecuteOrder` builds for an executed order when the cursor
points at the book `tradeBook`. -/
def tradeOf (order : ExecutionOrder) (tradeBook : String) : Trade :=
  ⟨order.product, "TRADE_" ++ order.orderId, order.price, tradeBook, order.GetVisibleQuantity,
    if order.side = .BID then .BUY else .SELL⟩

/-- The cursor points into the three books the service is constructed with. -/
def cursorValid (s : BondExecutionService) : Prop :=
  s.tradeBooks = ["TRSY1", "TRSY2", "TRSY3"] ∧ s.currentTradeBookIndex < 3

/-- Name of the book number `k` of the rotation. -/
def bookAt (k : Nat) : String :=
  match k % 3 with
  | 0 => "TRSY1"
  | 1 => "TRSY2"
  | _ => "TRSY3"

/-- The order reaches `executionState == EXECUTED` in `ExecuteOrder` called in
the state `s`: it passes the check of the parent order, the loop over the
markets is not left by `return`, and the state the loop leaves is EXECUTED.
The expressions are those of `ExecuteOrder`. -/
def reachesExecuted (s : BondExecutionService) (order : ExecutionOrder) : Bool :=
  let executionQuant : Int :=
    if order.GetVisibleQuantity > 0 then order.GetVisibleQuantity else order.GetHiddenQuantity
  if order.isChildOrder = true ∧ (StrMap.find s.executionMap order.parentOrderId).isNone then
    false
  else
    let routing := routeMarkets order executionQuant [.BROKERTEC, .ESPEED, .CME] .REJECTED
    if routing.returned then false
    else decide (routing.executionState = .EXECUTED)

/-- The order that a call brings to EXECUTED in the state `s`, if any:
ProcessAdd and ProcessUpdate call `ExecuteOrder`, ProcessRemove does not. -/
def executedBy (s : BondExecutionService) : ListenerCall ExecutionOrder → Option ExecutionOrder
  | .ProcessAdd data => if reachesExecuted s data then some data else none
  | .ProcessUpdate data => if reachesExecuted s data then some data else none
  | .ProcessRemove _ => none

/-- The orders that reach EXECUTED, in order, when the calls are delivered in
turn from the state `s`: each call is judged in the state left by the calls
before it. -/
def executedOrders (s : BondExecutionService) :
    List (ListenerCall ExecutionOrder) → List ExecutionOrder
  | [] => []
  | call :: rest =>
    match handle s call with
    | .ok r => (executedBy s call).toList ++ executedOrders r.1 rest
    | .error _ => (executedBy s call).toList

/-- The trades of a list of executed orders when the first is booked in the
book number `k` of the rotation and each further one in the next book. -/
def tradesFrom (k : Nat) : List ExecutionOrder → List Trade
  | [] => []
  | order :: rest => tradeOf order (bookAt k) :: tradesFrom (k + 1) rest

end BondExecutionService

/-! ## Auxiliary definitions for the properties of algo execution -/

/-- Both stacks of the book are non-empty and the price of the front offer
minus the price of the front bid is at most 1/128 + 1e-9. -/
def BondAlgoExecutionService.aggresses (data : OrderBook) : Prop :=
  match data.bidStack, data.offerStack with
  | bidFront :: _, offerFront :: _ => offerFront.price - bidFront.price ≤ 1 / 128 + 1 / 1000000000
  | _, _ => False

/-- The execution order that `AggressTopOfBook` builds from the fronts of the
two stacks. -/
def BondAlgoExecutionService.orderOf (s : BondAlgoExecutionService) (product : Bond)
    (bidFront offerFront : Order) : ExecutionOrder :=
  if s.lastAggressBid then
    ⟨product, .OFFER, product.GetProductId, .MARKET, offerFront.price, (offerFront.quantity : ℚ), 0,
      "", false⟩
  else
    ⟨product, .BID, product.GetProductId, .MARKET, bidFront.price, (bidFront.quantity : ℚ), 0,
      "", false⟩

/-! ## Auxiliary definitions for the properties of fractional prices -/

/-- The text that `GUIService::ConvertToFrac` builds when its conversions to
`int` are defined: the same steps with the truncations taken as they come. -/
def GUIService.fracText (price : ℚ) : String :=
  let whole : Int := truncate price
  let frac : ℚ := price - (whole : ℚ)
  let totalTicks : ℚ := cround (frac * 256)
  let ticks256 : Int := truncate totalTicks
  let carried : Int × Int := if ticks256 = 256 then (0, whole + 1) else (ticks256, whole)
  let ticks256 := carried.1
  let whole := carried.2
  let ticks32 : Int := Int.tdiv ticks256 8
  let subTicks : Int := Int.tmod ticks256 8
  let oss : String := toString whole ++ "-"
  let oss := if ticks32 < 10 then oss ++ "0" else oss
  let oss := oss ++ toString ticks32
  let oss :=
    if subTicks = 4 then oss ++ "+"
    else if subTicks ≠ 0 then oss ++ toString subTicks
    else oss
  oss

/-- The ten decimal digit characters. -/
def decimalDigits : List Char := ['0', '1', '2', '3', '4', '5', '6', '7', '8', '9']

/-- The text that `ConvertToFrac` writes after the dash for `ticks32` 32nds and
`subTicks` 256ths. -/
def fracChars (ticks32 subTicks : Nat) : List Char :=
  (if ticks32 < 10 then ['0'] else []) ++ Nat.toDigits 10 ticks32 ++
    (if subTicks = 4 then ['+'] else if subTicks ≠ 0 then Nat.toDigits 10 subTicks else [])

/-- The branch of `ConvertToDouble` that reads the text after the dash into the
pair `(xy, z)`. -/
def parseFrac (fracPart : String) : Except Error (Int × Int) :=
  if fracPart.data.length = 2 then do
    let z ← stoi fracPart
    pure (0, z)
  else if fracPart.data.length > 2 then do
    let xyStr := substr fracPart 0 2
    let xy ← stoi xyStr
    let thirdChar := fracPart.data.getD 2 ' '
    let z : Int :=
      if thirdChar = '+' then 4
      else if thirdChar.isDigit then (thirdChar.toNat : Int) - 48
      else 0
    pure (xy, z)
  else .error .runtime_error

/-! ## Auxiliary definitions for the properties of market data -/

namespace BondMarketDataService

/-- The book that `OnMessage` builds from the incoming one: the bids sorted by
descending and the offers by ascending price. -/
def sortedBook (data : OrderBook) : OrderBook :=
  ⟨data.product, sort (fun a b => decide (a.price > b.price)) data.bidStack,
    sort (fun a b => decide (a.price < b.price)) data.offerStack⟩

/-- The aggregated book that `AggregateDepth` builds from a stored book. -/
def viewOf (orderBook : OrderBook) : OrderBook :=
  ⟨orderBook.product,
    (orderBook.bidStack.foldl
      (fun m order => PriceMap.add (fun a b => decide (a > b)) m order.price order.quantity)
      []).map (fun entry => ⟨entry.1, entry.2, .BID⟩),
    (orderBook.offerStack.foldl
      (fun m order => PriceMap.add (fun a b => decide (a < b)) m order.price order.quantity)
      []).map (fun entry => ⟨entry.1, entry.2, .OFFER⟩)⟩

end BondMarketDataService

/-! ## Pricing (pricingservice.hpp) -/

/-- Embedding of the private members of `BondPricingService`. -/
structure BondPricingService where
  bondPriceMap : StrMap Price
  listeners : Nat
  deriving DecidableEq, Repr

namespace BondPricingService

/-- The service as constructed: an empty map, `listeners` registered listeners. -/
def init (listeners : Nat) : BondPricingService := ⟨[], listeners⟩

/-- Embedding of `BondPricingService::GetData`. -/
def GetData (s : BondPricingService) (key : String) : Except Error Price :=
  match StrMap.find s.bondPriceMap key with
  | some price => .ok price
  | none => .error .runtime_error

/-- Embedding of `BondPricingService::OnMessage`: an existing entry is erased
before the new one is inserted. -/
def OnMessage (s : BondPricingService) (data : Price) : BondPricingService × CallLog Price :=
  let productId := data.product.GetProductId
  match StrMap.find s.bondPriceMap productId with
  | none =>
    ({ s with bondPriceMap := StrMap.emplace s.bondPriceMap productId data },
      notifyAll s.listeners (.ProcessAdd data))
  | some _ =>
    ({ s with bondPriceMap := StrMap.emplace (StrMap.erase s.bondPriceMap productId) productId data },
      notifyAll s.listeners (.ProcessUpdate data))

/-- A sequence of prices fed in turn to `OnMessage`; the calls made on the
listeners are collected in order. -/
def feed (s : BondPricingService) : List Price → BondPricingService × CallLog Price
  | [] => (s, [])
  | data :: rest =>
    let r := OnMessage s data
    let r2 := feed r.1 rest
    (r2.1, r.2 ++ r2.2)

end BondPricingService

/-! ## Trade booking (tradingbookservice.hpp) -/

/-- Embedding of the private members of `BondTradeBookingService`. -/
structure BondTradeBookingService where
  tradeMap : StrMap Trade
  listeners : Nat
  deriving DecidableEq, Repr

namespace BondTradeBookingService

/-- Embedding of `BondTradeBookingService::GetData`. -/
def GetData (s : BondTradeBookingService) (key : String) : Except Error Trade :=
  match StrMap.find s.tradeMap key with
  | some trade => .ok trade
  | none => .error .runtime_error

/-- Embedding of `BondTradeBookingService::OnMessage`. -/
def OnMessage (s : BondTradeBookingService) (data : Trade) :
    BondTradeBookingService × CallLog Trade :=
  let tradeID := data.tradeId
  let isNew := (StrMap.find s.tradeMap tradeID).isNone
  let s1 : BondTradeBookingService := { s with tradeMap := StrMap.emplace s.tradeMap tradeID data }
  if isNew then (s1, notifyAll s.listeners (.ProcessAdd data))
  else (s1, notifyAll s.listeners (.ProcessUpdate data))

/-- Embedding of `BondTradeBookingService::BookTrade`, which passes a copy of the
trade to `OnMessage`. -/
def BookTrade (s : BondTradeBookingService) (trade : Trade) :
    BondTradeBookingService × CallLog Trade :=
  let t : Trade := ⟨trade.product, trade.tradeId, trade.price, trade.book, trade.quantity, trade.side⟩
  OnMessage s t

/-- Embedding of `BondTradeBookingService::ProcessAdd`. -/
def ProcessAdd (s : BondTradeBookingService) (data : Trade) :
    BondTradeBookingService × CallLog Trade :=
  BookTrade s data

/-- Embedding of `BondTradeBookingService::ProcessRemove`. -/
def ProcessRemove (s : BondTradeBookingService) (data : Trade) :
    BondTradeBookingService × CallLog Trade :=
  match StrMap.find s.tradeMap data.tradeId with
  | some _ =>
    ({ s with tradeMap := StrMap.erase s.tradeMap data.tradeId },
      notifyAll s.listeners (.ProcessRemove data))
  | none => (s, [])

/-- Embedding of `BondTradeBookingService::ProcessUpdate`. -/
def ProcessUpdate (s : BondTradeBookingService) (data : Trade) :
    BondTradeBookingService × CallLog Trade :=
  BookTrade s data

end BondTradeBookingService

/-! ## Risk (riskservice.hpp) -/

/-- Embedding of `PV01<T>`. -/
structure PV01 (T : Type) where
  product : T
  pv01 : ℚ
  quantity : Int
  deriving DecidableEq, Repr

/-- Embedding of `BucketedSector<Bond>`. -/
structure BucketedSector where
  products : List Bond
  name : String
  deriving DecidableEq, Repr

/-- Modelled from the spec: `products.hpp`, which defines `Bond::ComputeYield`,
`Bond::CalculateDuration` and `Bond::GetFaceValue`, is not among the sources.
The spec treats the yield and the modified duration as a numerical dependency
whose definition it does not give; the three functions are taken as they
come, the receiver first. -/
structure BondAnalytics where
  ComputeYield : Bond → ℚ → Nat → ℚ
  CalculateDuration : Bond → ℚ → ℚ → Nat → ℚ
  GetFaceValue : Bond → ℚ

/-- Embedding of the private members of `BondRiskService`; the reference
`pricingService` is passed to the member functions that read it. -/
structure BondRiskService where
  riskMap : StrMap (PV01 Bond)
  listeners : Nat
  deriving DecidableEq, Repr

namespace BondRiskService

/-- Embedding of `BondRiskService::GetData`. -/
def GetData (s : BondRiskService) (key : String) : Except Error (PV01 Bond) :=
  match StrMap.find s.riskMap key with
  | some pv01 => .ok pv01
  | none => .error .runtime_error

/-- Embedding of `BondRiskService::AddPosition`; the literal `0.0001` is the
rational 1/10000. -/
def AddPosition (analytics : BondAnalytics) (pricingService : BondPricingService)
    (s : BondRiskService) (position : Position) :
    Except Error (BondRiskService × CallLog (PV01 Bond)) := do
  let productId := position.product.GetProductId
  let bondPrice ← pricingService.GetData productId
  let midPrice := bondPrice.mid
  let yield := analytics.ComputeYield position.product midPrice 2
  let modifiedDuration :=
    analytics.CalculateDuration position.product yield (analytics.GetFaceValue position.product) 2
  let pv01PerUnit : ℚ := modifiedDuration * midPrice * (1 / 10000)
  let pv01Risk : ℚ := pv01PerUnit * (position.GetAggregatePosition : ℚ)
  let isNew := (StrMap.find s.riskMap productId).isNone
  let pv01 : PV01 Bond := ⟨position.product, pv01Risk, position.GetAggregatePosition⟩
  let riskMap :=
    if isNew then StrMap.emplace s.riskMap productId pv01
    else StrMap.emplace (StrMap.update s.riskMap productId (fun _ => pv01)) productId pv01
  match StrMap.find riskMap productId with
  | none => pure ({ s with riskMap := riskMap }, [])
  | some stored =>
    let call : ListenerCall (PV01 Bond) :=
      if isNew then .ProcessAdd stored else .ProcessUpdate stored
    pure ({ s with riskMap := riskMap }, notifyAll s.listeners call)

/-- Embedding of `BondRiskService::GetBucketedRisk`, a `const` member function:
there is no state after the call other than the state before it. -/
def GetBucketedRisk (s : BondRiskService) (sector : BucketedSector) : PV01 BucketedSector :=
  let totals : ℚ × Int :=
    sector.products.foldl
      (fun totals bond =>
        match StrMap.find s.riskMap bond.GetProductId with
        | some entry => (totals.1 + entry.pv01, totals.2 + entry.quantity)
        | none => totals)
      (0, 0)
  ⟨sector, totals.1, totals.2⟩

/-- Embedding of `BondRiskService::ProcessAdd`. -/
def ProcessAdd (analytics : BondAnalytics) (pricingService : BondPricingService)
    (s : BondRiskService) (data : Position) :
    Except Error (BondRiskService × CallLog (PV01 Bond)) :=
  AddPosition analytics pricingService s data

/-- Embedding of `BondRiskService::ProcessUpdate`. -/
def ProcessUpdate (analytics : BondAnalytics) (pricingService : BondPricingService)
    (s : BondRiskService) (data : Position) :
    Except Error (BondRiskService × CallLog (PV01 Bond)) :=
  AddPosition analytics pricingService s data

/-- Embedding of `BondRiskService::ProcessRemove`; the duration is computed for
the literal face value 1000. -/
def ProcessRemove (analytics : BondAnalytics) (pricingService : BondPricingService)
    (s : BondRiskService) (data : Position) :
    Except Error (BondRiskService × CallLog (PV01 Bond)) :=
  let productId := data.product.GetProductId
  match StrMap.find s.riskMap productId with
  | none => pure (s, [])
  | some entry => do
    let bondPrice ← pricingService.GetData productId
    let midPrice := bondPrice.mid
    let yield := analytics.ComputeYield data.product midPrice 2
    let modifiedDuration := analytics.CalculateDuration data.product yield 1000 2
    let pv01PerUnit : ℚ := modifiedDuration * midPrice * (1 / 10000)
    let pv01Risk : ℚ := pv01PerUnit * ((-data.GetAggregatePosition : Int) : ℚ)
    let updatedPV01 : ℚ := entry.pv01 + pv01Risk
    let updatedQuant : Int := entry.quantity + (-data.GetAggregatePosition)
    if updatedQuant = 0 then
      pure ({ s with riskMap := StrMap.erase s.riskMap productId }, [])
    else
      let stored : PV01 Bond := ⟨data.product, updatedPV01, updatedQuant⟩
      pure ({ s with riskMap := StrMap.update s.riskMap productId (fun _ => stored) },
        notifyAll s.listeners (.ProcessUpdate stored))

end BondRiskService

/-! ## Auxiliary definitions for the properties of the keyed stores -/

/-- The calls received by listener `i` that carry a price of the product
`productId`, in order. -/
def priceCallsFor (productId : String) (i : Nat) (log : CallLog Price) :
    List (ListenerCall Price) :=
  (received i log).filter (fun c => decide (c.data.product.GetProductId = productId))

/-- The calls expected for the prices `prices` of one product, fed in this
order: ProcessAdd for the first when the product is not `known` yet,
ProcessUpdate for every other. -/
def expectedPriceCalls (known : Bool) (prices : List Price) : List (ListenerCall Price) :=
  match known, prices with
  | false, first :: rest => .ProcessAdd first :: rest.map .ProcessUpdate
  | _, prices => prices.map .ProcessUpdate

/-- The prices of `prices` whose product has the identifier `productId`. -/
def pricesOf (productId : String) (prices : List Price) : List Price :=
  prices.filter (fun p => decide (p.product.GetProductId = productId))

namespace BondPositionService

/-- The quantity stored for a product in a book, zero when the product has no
Position or the Position no entry for the book. -/
def quantityOf (s : BondPositionService) (productId book : String) : Int :=
  match StrMap.find s.positionMap productId with
  | some pos => pos.GetPosition book
  | none => 0

/-- The position `pos` after the signed quantity of `trade` has been taken back
from the book of the trade, as `ProcessRemove` does. -/
def removeFromBook (trade : Trade) (pos : Position) : Position :=
  { pos with
    positions :=
      StrMap.modify pos.positions trade.book 0 (fun q =>
        q + (if trade.side = .BUY then -trade.quantity else trade.quantity)) }

end BondPositionService

namespace BondAlgoExecutionService

/-- The service as a listener of order books. -/
def handle (s : BondAlgoExecutionService) (call : ListenerCall OrderBook) :
    BondAlgoExecutionService × CallLog ExecutionOrder :=
  match call with
  | .ProcessAdd data => ProcessAdd s data
  | .ProcessUpdate data => ProcessUpdate s data
  | .ProcessRemove data => ProcessRemove s data

/-- A sequence of calls delivered in turn; the calls made on the listeners are
collected in order. -/
def deliver (s : BondAlgoExecutionService) :
    List (ListenerCall OrderBook) → BondAlgoExecutionService × CallLog ExecutionOrder
  | [] => (s, [])
  | call :: rest =>
    let r := handle s call
    let r2 := deliver r.1 rest
    (r2.1, r.2 ++ r2.2)

end BondAlgoExecutionService

/-- The sides of the execution orders received by listener `i`, in order. -/
def sidesOf (i : Nat) (log : CallLog ExecutionOrder) : List PricingSide :=
  (received i log).map (fun c => c.data.side)

/-- The side that the emission number `k` (counted from zero) aggresses when the
flag `lastAggressBid` had the value `last` before the first of them. -/
def aggressSideAt (last : Bool) (k : Nat) : PricingSide :=
  if last = decide (k % 2 = 0) then .OFFER else .BID

/-! ## Auxiliary definitions for the properties of risk -/

namespace BondRiskService

/-- The modified duration that `AddPosition` computes for a product at the mid
price `mid`: the duration at the yield at (`mid`, frequency 2), for the face
value of the product and frequency 2. -/
def durationAt (analytics : BondAnalytics) (product : Bond) (mid : ℚ) : ℚ :=
  analytics.CalculateDuration product (analytics.ComputeYield product mid 2)
    (analytics.GetFaceValue product) 2

/-- The record that `AddPosition` builds for a position at the mid price `mid`. -/
def entryFor (analytics : BondAnalytics) (position : Position) (mid : ℚ) : PV01 Bond :=
  ⟨position.product,
    durationAt analytics position.product mid * mid * (1 / 10000) *
      (position.GetAggregatePosition : ℚ),
    position.GetAggregatePosition⟩

/-- The entries of the risk store for the products of a sector, in the order of
the sector, products without an entry left out. -/
def entriesOf (s : BondRiskService) (sector : BucketedSector) : List (PV01 Bond) :=
  sector.products.filterMap (fun bond => StrMap.find s.riskMap bond.GetProductId)

end BondRiskService

/-! ## Inquiries: lookup and rejection (inquiryservice.hpp) -/

namespace BondInquiryService

/-- Embedding of `BondInquiryService::GetData`, which is `inquiryMap.at(key)`. -/
def GetData (s : BondInquiryService) (key : String) : Except Error Inquiry :=
  StrMap.at s.inquiryMap key

/-- Embedding of `BondInquiryService::RejectInquiry`.  The store is only read. -/
def RejectInquiry (s : BondInquiryService) (inquiryId : String) :
    Except Error (BondInquiryService × CallLog Inquiry) := do
  let inquiry ← StrMap.at s.inquiryMap inquiryId
  let rejectedInquiry : Inquiry :=
    ⟨inquiryId, inquiry.product, inquiry.side, inquiry.quantity, inquiry.price, .REJECTED⟩
  return (s, notifyAll s.listeners (.ProcessUpdate rejectedInquiry))

end BondInquiryService

/-! ## Positions: lookup (positionservice.hpp) -/

/-- Embedding of `BondPositionService::GetData`. -/
def BondPositionService.GetData (s : BondPositionService) (key : String) :
    Except Error Position :=
  match StrMap.find s.positionMap key with
  | some position => .ok position
  | none => .error .runtime_error

/-! ## Product reference data (productservice.hpp) -/

/-- Embedding of the private members of `BondProductService`. -/
structure BondProductService where
  bondMap : StrMap Bond
  deriving DecidableEq, Repr

namespace BondProductService

/-- Embedding of `BondProductService::GetData`, which is `bondMap[productId]`:
for an absent key `operator[]` inserts a value-initialised Bond and returns it.
The default-constructed Bond is declared in `products.hpp` and is the
parameter `dflt`. -/
def GetData (dflt : Bond) (s : BondProductService) (productId : String) :
    BondProductService × Bond :=
  match StrMap.find s.bondMap productId with
  | some bond => (s, bond)
  | none => (⟨StrMap.emplace s.bondMap productId dflt⟩, dflt)

/-- Embedding of `BondProductService::Add`: `insert` keeps an existing entry. -/
def Add (s : BondProductService) (bond : Bond) : BondProductService :=
  ⟨StrMap.emplace s.bondMap bond.GetProductId bond⟩

end BondProductService

/-! ## GUI throttling (guiservice.hpp) -/

/-- Embedding of the private members of `GUIService`.  `fileOpen` is
`file.is_open()`, `file` holds the lines written so far, and
`lastUpdateTime` is a reading of the steady clock, in milliseconds.  A line
is `none` when its text comes from a `ConvertToFrac` that the source leaves
undefined. -/
structure GUIService where
  priceMap : StrMap Price
  fileOpen : Bool
  file : List (Option String)
  lastUpdateTime : ℚ
  printCount : Int
  latestPriceID : String
  deriving DecidableEq

namespace GUIService

/-- The service as constructed at the steady-clock reading `start`; `fileOpen`
tells whether the output file could be opened. -/
def init (fileOpen : Bool) (start : ℚ) : GUIService := ⟨[], fileOpen, [], start, 0, ""⟩

/-- Embedding of `GUIService::PriceUpdate`.  The two clocks are inputs: `now`
is the reading of the steady clock, in milliseconds, and `currentTime` is the
text returned by `GetCurrentTime()`.  `duration_cast<milliseconds>` truncates
toward zero.  When one of the two calls of `ConvertToFrac` has no defined
result the line has no defined text and is `none`; the counter and the time of
the throttle do not read the text. -/
def PriceUpdate (now : ℚ) (currentTime : String) (s : GUIService) (price : Price) : GUIService :=
  let productId := price.product.GetProductId
  let priceMap := StrMap.emplace s.priceMap productId price
  let latestPriceID := productId
  let msSinceLast : Int := truncate (now - s.lastUpdateTime)
  if s.printCount < 100 ∧ msSinceLast ≥ 300 then
    let fracMid := ConvertToFrac price.mid
    let fracSpread := ConvertToFrac price.bidOfferSpread
    let line : Option String := do
      let fracMid ← fracMid
      let fracSpread ← fracSpread
      pure (currentTime ++ " " ++ productId ++ " " ++ fracMid ++ " " ++ fracSpread)
    let file := if s.fileOpen then s.file ++ [line] else s.file
    ⟨priceMap, s.fileOpen, file, now, s.printCount + 1, latestPriceID⟩
  else ⟨priceMap, s.fileOpen, s.file, s.lastUpdateTime, s.printCount, latestPriceID⟩

/-- Embedding of `GUIService::ProcessAdd`. -/
def ProcessAdd (now : ℚ) (currentTime : String) (s : GUIService) (price : Price) : GUIService :=
  PriceUpdate now currentTime s price

/-- Embedding of `GUIService::ProcessUpdate`. -/
def ProcessUpdate (now : ℚ) (currentTime : String) (s : GUIService) (price : Price) :
    GUIService :=
  PriceUpdate now currentTime s price

end GUIService

/-- One price event at the GUI: the two clock readings and the price. -/
structure PriceEvent where
  now : ℚ
  currentTime : String
  price : Price

namespace GUIService

/-- The line that `PriceUpdate` writes for an event. -/
def lineOf (e : PriceEvent) : Option String := do
  let fracMid ← ConvertToFrac e.price.mid
  let fracSpread ← ConvertToFrac e.price.bidOfferSpread
  pure (e.currentTime ++ " " ++ e.price.product.GetProductId ++ " " ++ fracMid ++ " " ++ fracSpread)

/-- A sequence of price events handed in turn to `PriceUpdate`. -/
def run (s : GUIService) : List PriceEvent → GUIService
  | [] => s
  | e :: rest => run (PriceUpdate e.now e.currentTime s e.price) rest

/-- The steady-clock readings of the events of a run at which the file grew,
in order. -/
def writeTimes (s : GUIService) : List PriceEvent → List ℚ
  | [] => []
  | e :: rest =>
    (if (PriceUpdate e.now e.currentTime s e.price).file.length = s.file.length then []
      else [e.now]) ++
      writeTimes (PriceUpdate e.now e.currentTime s e.price) rest

/-- The throttle of `PriceUpdate` lets the event through. -/
def due (s : GUIService) (now : ℚ) : Prop := s.printCount < 100 ∧ 300 ≤ now - s.lastUpdateTime

instance (s : GUIService) (now : ℚ) : Decidable (due s now) := by
  unfold due
  infer_instance

end GUIService

/-! ## The fractional format in the words of the specification -/

namespace Spec

/-- Following the spec: `xy` rendered as two digits, zero-padded. -/
def twoDigits (xy : Int) : String :=
  ⟨List.replicate (2 - (toString xy).length) '0' ++ (toString xy).data⟩

/-- Following the spec: given price x, w = floor(x) and t = round((x - w) * 256);
if t = 256 then t = 0 and w is increased by one; xy = t / 8 and z = t % 8; the
text is w, a dash, xy as two digits, and the suffix `+` if z = 4, the digit z
if z is not 0, nothing otherwise. -/
def fractionalFormat (x : ℚ) : String :=
  let w : Int := ⌊x⌋
  let t : Int := round ((x - (w : ℚ)) * 256)
  let wt : Int × Int := if t = 256 then (w + 1, 0) else (w, t)
  let xy : Int := wt.2 / 8
  let z : Int := wt.2 % 8
  toString wt.1 ++ "-" ++ twoDigits xy ++
    (if z = 4 then "+" else if z ≠ 0 then toString z else "")

end Spec

/-! ## Market-data connector (marketdataservice.hpp) -/

namespace MarketDataConnector

/-- Embedding of `MarketDataConnector::ConvertToDouble`.  The branch for a text
without a dash calls `std::stod`, which is taken as the parameter `stod`. -/
def ConvertToDouble (stod : String → Except Error ℚ) (fraction : String) : Except Error ℚ :=
  let dashPos := findChar fraction '-'
  if dashPos = fraction.data.length then stod fraction
  else do
    let intPart := substr fraction 0 dashPos
    let fracPart := substrFrom fraction (dashPos + 1)
    let integerPart ← stoi intPart
    let xyz : Int × Int ←
      (if fracPart.data.length = 2 then do
        let z ← stoi fracPart
        pure (0, z)
      else if fracPart.data.length > 2 then do
        let xyStr := substr fracPart 0 2
        let xy ← stoi xyStr
        let thirdChar := fracPart.data.getD 2 ' '
        let z : Int :=
          if thirdChar = '+' then 4
          else if thirdChar.isDigit then (thirdChar.toNat : Int) - 48
          else 0
        pure (xy, z)
      else .error .runtime_error : Except Error (Int × Int))
    let total256 : ℚ := 8 * (xyz.1 : ℚ) + (xyz.2 : ℚ)
    let fractionDecimal : ℚ := total256 / 256
    let result : ℚ := (integerPart : ℚ) + fractionDecimal
    pure result

end MarketDataConnector

/-- The value of the third character of the fractional part: 4 for `+`, the
digit otherwise. -/
def eighthsOf (Z : Char) : Nat := if Z = '+' then 4 else Z.toNat - 48

/-! ## Streaming (streamingservice.hpp) -/

/-- Embedding of the private members of `BondStreamingService`.  `connector`
tells whether the connector pointer is non-null, and `published` holds the
streams handed to `connector->Publish` so far. -/
structure BondStreamingService where
  priceStreamMap : StrMap PriceStream
  listeners : Nat
  connector : Bool
  published : List PriceStream
  deriving DecidableEq, Repr

namespace BondStreamingService

/-- The service as constructed: an empty map, `listeners` registered listeners. -/
def init (listeners : Nat) (connector : Bool) : BondStreamingService :=
  ⟨[], listeners, connector, []⟩

/-- Embedding of `BondStreamingService::PublishPrice`. -/
def PublishPrice (s : BondStreamingService) (priceStream : PriceStream) :
    BondStreamingService × CallLog PriceStream :=
  let productId := priceStream.product.GetProductId
  let isNew := (StrMap.find s.priceStreamMap productId).isNone
  let priceStreamMap := StrMap.emplace s.priceStreamMap productId priceStream
  let call : ListenerCall PriceStream :=
    if isNew then .ProcessAdd priceStream else .ProcessUpdate priceStream
  let published := if s.connector then s.published ++ [priceStream] else s.published
  (⟨priceStreamMap, s.listeners, s.connector, published⟩, notifyAll s.listeners call)

/-- Embedding of `BondStreamingService::ProcessAdd`. -/
def ProcessAdd (s : BondStreamingService) (price : PriceStream) :
    BondStreamingService × CallLog PriceStream :=
  PublishPrice s price

/-- Embedding of `BondStreamingService::ProcessRemove`, which does nothing. -/
def ProcessRemove (s : BondStreamingService) (_price : PriceStream) :
    BondStreamingService × CallLog PriceStream :=
  (s, [])

/-- Embedding of `BondStreamingService::ProcessUpdate`. -/
def ProcessUpdate (s : BondStreamingService) (price : PriceStream) :
    BondStreamingService × CallLog PriceStream :=
  PublishPrice s price

/-- The service as a listener of price streams. -/
def handle (s : BondStreamingService) (call : ListenerCall PriceStream) :
    BondStreamingService × CallLog PriceStream :=
  match call with
  | .ProcessAdd price => ProcessAdd s price
  | .ProcessUpdate price => ProcessUpdate s price
  | .ProcessRemove price => ProcessRemove s price

/-- A sequence of calls delivered in turn; the calls made on the listeners
are collected in order. -/
def deliver (s : BondStreamingService) :
    List (ListenerCall PriceStream) → BondStreamingService × CallLog PriceStream
  | [] => (s, [])
  | call :: rest =>
    let r := handle s call
    let r2 := deliver r.1 rest
    (r2.1, r.2 ++ r2.2)

end BondStreamingService

/-- The calls that reach the listeners of a `BondStreamingService` registered
as listener number `j` of a `BondAlgoStreamingService`, itself listener number
`i` of a `BondPricingService`, when the prices are fed in turn to
`BondPricingService::OnMessage`; together with the calls the algo streaming
service made on its own listeners. -/
def streamingPipeline (pricing : BondPricingService) (algo : BondAlgoStreamingService)
    (streaming : BondStreamingService) (i j : Nat) (prices : List Price) :
    CallLog PriceStream × CallLog PriceStream :=
  let fromPricing := (BondPricingService.feed pricing prices).2
  let fromAlgo := (BondAlgoStreamingService.deliver algo (received i fromPricing)).2
  let fromStreaming := (BondStreamingService.deliver streaming (received j fromAlgo)).2
  (fromAlgo, fromStreaming)

/-- The call is a ProcessAdd. -/
def ListenerCall.isAdd {V : Type} : ListenerCall V → Bool
  | .ProcessAdd _ => true
  | _ => false

/-- For a sequence of product ids, whether each is the first of its product
(true) or not, given the ids `seen` before. -/
def firstSeen (seen : List String) : List String → List Bool
  | [] => []
  | productId :: rest => decide (productId ∉ seen) :: firstSeen (productId :: seen) rest

/-! ## Market data into algo execution into execution -/

/-- The calls that a `BondAlgoExecutionService` registered as listener number `i`
of a `BondMarketDataService` makes on its own listeners when the order book is
fed to `BondMarketDataService::OnMessage`. -/
def aggressPipeline (marketData : BondMarketDataService) (algo : BondAlgoExecutionService)
    (i : Nat) (data : OrderBook) : Except Error (CallLog ExecutionOrder) := do
  let r ← BondMarketDataService.OnMessage marketData data
  pure (BondAlgoExecutionService.deliver algo (received i r.2)).2

/-- The trades that reach listener number `k` of a `BondExecutionService`
registered as listener number `j` of a `BondAlgoExecutionService`, when the
calls are made in turn on the algo execution service. -/
def executionPipeline (algo : BondAlgoExecutionService) (execution : BondExecutionService)
    (j k : Nat) (calls : List (ListenerCall OrderBook)) : Except Error (List Trade) := do
  let orders := (BondAlgoExecutionService.deliver algo calls).2
  let r ← BondExecutionService.deliver execution (received j orders)
  pure ((received k r.2).map ListenerCall.data)

/-! ## Trade booking into positions -/

/-- A sequence of calls delivered in turn to a `BondPositionService`. -/
def BondPositionService.deliver (s : BondPositionService) :
    List (ListenerCall Trade) → BondPositionService × CallLog Position
  | [] => (s, [])
  | call :: rest =>
    let r := BondPositionService.handle s call
    let r2 := BondPositionService.deliver r.1 rest
    (r2.1, r.2 ++ r2.2)

/-- The position service, registered as listener number `i` of the trade
booking service, after the trades are fed in turn to
`BondTradeBookingService::OnMessage`. -/
def bookingPipeline (booking : BondTradeBookingService) (position : BondPositionService)
    (i : Nat) : List Trade → BondTradeBookingService × BondPositionService
  | [] => (booking, position)
  | trade :: rest =>
    let r := BondTradeBookingService.OnMessage booking trade
    let p := BondPositionService.deliver position (received i r.2)
    bookingPipeline r.1 p.1 i rest

/-! ## Inquiry connector (inquiryservice.hpp) -/

namespace InquiryConnector

/-- Embedding of `ss >> str` for a `std::string`: leading whitespace is skipped
and the characters up to the next whitespace are read; the extraction fails
when there is none.  The remaining characters of the stream are returned. -/
def extractString (cs : List Char) : Option (String × List Char) :=
  let s := cs.dropWhile isspace
  let tok := s.takeWhile (fun c => !isspace c)
  if tok = [] then none else some (⟨tok⟩, s.dropWhile (fun c => !isspace c))

/-- Embedding of `ss >> quantity` for a `long`: leading whitespace is skipped, an
optional sign and the decimal digits that follow are read; the extraction
fails when there is no digit or when the value is outside the range of `long`. -/
def extractLong (cs : List Char) : Option (Int × List Char) :=
  let s := cs.dropWhile isspace
  let signed : Bool × List Char :=
    match s with
    | '-' :: r => (true, r)
    | '+' :: r => (false, r)
    | _ => (false, s)
  let ds := signed.2.takeWhile Char.isDigit
  if ds = [] then none
  else
    let v : Int := if signed.1 then -(digitsValue ds : Int) else (digitsValue ds : Int)
    if v < -9223372036854775808 ∨ 9223372036854775807 < v then none
    else some (v, signed.2.dropWhile Char.isDigit)

/-- Embedding of `ss >> inquiryId >> productId >> sideStr >> quantity`: `none`
when the stream has failed. -/
def extractFields (line : String) : Option (String × String × String × Int) := do
  let (inquiryId, r1) ← extractString line.data
  let (productId, r2) ← extractString r1
  let (sideStr, r3) ← extractString r2
  let (quantity, _) ← extractLong r3
  pure (inquiryId, productId, sideStr, quantity)

/-- Embedding of the body of the loop of `InquiryConnector::Subscribe` up to the
call of `OnMessage`: the product catalog after the lookup, the value of the
local `side` and the Inquiry that is fed to the service, or `none` for an empty
line and for a line of invalid format.  The local `side` is assigned from
`sideStr`; the constructor is called with the literal `BUY`. -/
def lineInquiry (dflt : Bond) (products : BondProductService) (line : String) :
    Option (BondProductService × Side × Inquiry) :=
  if line.data = [] then none
  else
    match extractFields line with
    | some (inquiryId, productId, sideStr, quantity) =>
      let side : Side := if sideStr = "BUY" then .BUY else .SELL
      let r := BondProductService.GetData dflt products productId
      let bond := r.2
      let inquiry : Inquiry := ⟨inquiryId, bond, .BUY, quantity, 0, .RECEIVED⟩
      some (r.1, side, inquiry)
    | none => none

/-- Embedding of one turn of the loop of `InquiryConnector::Subscribe`. -/
def SubscribeLine (dflt : Bond) (fuel : Nat) (products : BondProductService)
    (service : BondInquiryService) (line : String) :
    Except Error (BondProductService × BondInquiryService × CallLog Inquiry) :=
  match lineInquiry dflt products line with
  | some (products2, _, inquiry) => do
    let r ← BondInquiryService.OnMessage fuel service inquiry
    pure (products2, r.1, r.2)
  | none => pure (products, service, [])

/-- The text of a line made of the four fields separated by single blanks. -/
def lineOf (inquiryId productId sideStr : String) (quantity : Nat) : String :=
  ⟨inquiryId.data ++ ' ' :: (productId.data ++ ' ' :: (sideStr.data ++ ' ' ::
    Nat.toDigits 10 quantity))⟩

end InquiryConnector

/-! ## Auxiliary definitions for the properties of risk removal -/

/-- The per-unit pv01 that `BondRiskService::ProcessRemove` computes at the mid
`mid`: the duration is computed for the literal face value 1000. -/
def BondRiskService.removalUnit (analytics : BondAnalytics) (product : Bond) (mid : ℚ) : ℚ :=
  analytics.CalculateDuration product (analytics.ComputeYield product mid 2) 1000 2 * mid *
    (1 / 10000)

/-! # Properties -/

/-! ## Listener calls and maps -/

theorem received_append {V : Type} (i : Nat) (l1 l2 : CallLog V) :
    received i (l1 ++ l2) = received i l1 ++ received i l2 := by
  simp [received]

theorem received_nil {V : Type} (i : Nat) : received i ([] : CallLog V) = [] := rfl

theorem received_notifyAll {V : Type} (i n : Nat) (c : ListenerCall V) :
    received i (notifyAll n c) = if i < n then [c] else [] := by
  induction n with
  | zero => simp [received, notifyAll]
  | succ n ih =>
    have hsplit : notifyAll (n + 1) c = notifyAll n c ++ [(n, c)] := by
      simp [notifyAll, List.range_succ]
    rw [hsplit, received_append, ih]
    by_cases h1 : i < n
    · have h2 : ¬ n = i := by omega
      have h3 : i < n + 1 := by omega
      simp [received, h1, h2, h3]
    · by_cases h2 : n = i
      · subst h2
        simp [received]
      · have h3 : ¬ i < n + 1 := by omega
        simp [received, h1, h2, h3]

theorem received_notifyAll_of_lt {V : Type} (i n : Nat) (c : ListenerCall V) (h : i < n) :
    received i (notifyAll n c) = [c] := by
  rw [received_notifyAll, if_pos h]

namespace StrMap

theorem find_append_of_none {V : Type} (m m2 : StrMap V) (key : String)
    (h : find m key = none) : find (m ++ m2) key = find m2 key := by
  induction m with
  | nil => rfl
  | cons kv rest ih =>
    obtain ⟨k, v⟩ := kv
    simp only [find] at h
    by_cases hk : k = key
    · simp [hk] at h
    · simp only [hk, if_false] at h
      simp only [List.cons_append, find, hk, if_false]
      exact ih h

theorem find_append_of_some {V : Type} (m m2 : StrMap V) (key : String) (v : V)
    (h : find m key = some v) : find (m ++ m2) key = some v := by
  induction m with
  | nil => simp [find] at h
  | cons kv rest ih =>
    obtain ⟨k, w⟩ := kv
    by_cases hk : k = key
    · simpa [find, hk] using h
    · simp only [find, hk, if_false] at h
      simp only [List.cons_append, find, hk, if_false]
      exact ih h

theorem emplace_of_some {V : Type} (m : StrMap V) (key : String) (value v : V)
    (h : find m key = some v) : emplace m key value = m := by
  simp [emplace, h]

theorem emplace_of_none {V : Type} (m : StrMap V) (key : String) (value : V)
    (h : find m key = none) : emplace m key value = m ++ [(key, value)] := by
  simp [emplace, h]

theorem find_emplace_new {V : Type} (m : StrMap V) (key : String) (value : V)
    (h : find m key = none) : find (emplace m key value) key = some value := by
  rw [emplace_of_none m key value h, find_append_of_none m _ key h]
  simp [find]

theorem find_emplace_ne {V : Type} (m : StrMap V) (key key2 : String) (value : V)
    (hne : key ≠ key2) : find (emplace m key value) key2 = find m key2 := by
  cases h : find m key with
  | some v => rw [emplace_of_some m key value v h]
  | none =>
    rw [emplace_of_none m key value h]
    cases h2 : find m key2 with
    | some w => exact find_append_of_some m _ key2 w h2
    | none =>
      rw [find_append_of_none m _ key2 h2]
      simp [find, hne]

theorem update_cons_eq {V : Type} (k : String) (v : V) (rest : StrMap V) (f : V → V) :
    update ((k, v) :: rest) k f = (k, f v) :: update rest k f := by
  simp [update]

theorem update_cons_ne {V : Type} (k key : String) (v : V) (rest : StrMap V) (f : V → V)
    (h : ¬ k = key) : update ((k, v) :: rest) key f = (k, v) :: update rest key f := by
  simp [update, h]

theorem find_cons_eq {V : Type} (k : String) (v : V) (rest : StrMap V) :
    find ((k, v) :: rest) k = some v := by
  simp [find]

theorem find_cons_ne {V : Type} (k key : String) (v : V) (rest : StrMap V) (h : ¬ k = key) :
    find ((k, v) :: rest) key = find rest key := by
  simp [find, h]

theorem find_update_self {V : Type} (m : StrMap V) (key : String) (f : V → V) :
    find (update m key f) key = (find m key).map f := by
  induction m with
  | nil => rfl
  | cons kv rest ih =>
    obtain ⟨k, v⟩ := kv
    by_cases hk : k = key
    · subst hk
      rw [update_cons_eq, find_cons_eq, find_cons_eq]
      rfl
    · rw [update_cons_ne _ _ _ _ _ hk, find_cons_ne _ _ _ _ hk, find_cons_ne _ _ _ _ hk]
      exact ih

theorem find_update_ne {V : Type} (m : StrMap V) (key key2 : String) (f : V → V)
    (hne : key ≠ key2) : find (update m key f) key2 = find m key2 := by
  induction m with
  | nil => rfl
  | cons kv rest ih =>
    obtain ⟨k, v⟩ := kv
    by_cases hk : k = key
    · subst hk
      rw [update_cons_eq, find_cons_ne _ _ _ _ hne, find_cons_ne _ _ _ _ hne]
      exact ih
    · rw [update_cons_ne _ _ _ _ _ hk]
      by_cases hk2 : k = key2
      · subst hk2
        rw [find_cons_eq, find_cons_eq]
      · rw [find_cons_ne _ _ _ _ hk2, find_cons_ne _ _ _ _ hk2]
        exact ih

end StrMap

/-! ## Inquiries -/

namespace BondInquiryService

theorem OnMessage_received_new (fuel : Nat) (s : BondInquiryService) (data : Inquiry)
    (hstate : data.state = .RECEIVED)
    (hnew : StrMap.find s.inquiryMap data.inquiryId = none) :
    OnMessage (fuel + 2) s data =
      .ok ({ s with inquiryMap := s.inquiryMap ++ [(data.inquiryId, data)] },
        notifyAll s.listeners (.ProcessUpdate (quoteOf data 100 .DONE))
          ++ notifyAll s.listeners (.ProcessUpdate (quoteOf data 100 .DONE))
          ++ notifyAll s.listeners (.ProcessAdd data)) := by
  have hfind := StrMap.find_emplace_new s.inquiryMap data.inquiryId data hnew
  have hemp := StrMap.emplace_of_none s.inquiryMap data.inquiryId data hnew
  rw [hemp] at hfind
  simp [OnMessage, SendQuoteWith, StrMap.at, hstate, hnew, hemp, hfind, quoteOf, bind,
    Except.bind, pure, Except.pure, StrMap.emplace]

end BondInquiryService

/-- C1 (the code departs from the claim): for every inquiry in state RECEIVED
whose InquiryId is not yet in the store, `BondInquiryService::OnMessage`
returns, and each registered listener receives exactly three calls, in this
order: ProcessUpdate carrying state DONE with price 100, ProcessUpdate carrying
state DONE with price 100 once more, and then ProcessAdd carrying the inquiry in
state RECEIVED with the price it came with.  `OnMessage` computes `isNew` and
`SendQuote` builds a QUOTED and then a DONE inquiry, but the two nested calls
made through `SendQuote` notify before the outer call does, and the QUOTED
inquiry is set to DONE before it is handed to a listener. -/
theorem C1_inquiry_calls_nested_first (fuel : Nat) (s : BondInquiryService) (data : Inquiry)
    (hstate : data.state = .RECEIVED)
    (hnew : StrMap.find s.inquiryMap data.inquiryId = none) :
    ∃ s2 log, BondInquiryService.OnMessage (fuel + 2) s data = .ok (s2, log) ∧
      ∀ i, i < s.listeners →
        received i log =
          [.ProcessUpdate ⟨data.inquiryId, data.product, data.side, data.quantity, 100, .DONE⟩,
           .ProcessUpdate ⟨data.inquiryId, data.product, data.side, data.quantity, 100, .DONE⟩,
           .ProcessAdd data] := by
  refine ⟨_, _, BondInquiryService.OnMessage_received_new fuel s data hstate hnew, ?_⟩
  intro i hi
  simp [received_append, received_notifyAll_of_lt _ _ _ hi, BondInquiryService.quoteOf]

/-- C1 at the failing input: the inquiry `INQ1 T2Y BUY 5000` in state RECEIVED
is fed to a service with an empty store and one listener.  The listener
receives Update(DONE, 100), Update(DONE, 100), Add(RECEIVED, 0), which is not
the sequence Add(RECEIVED), Update(QUOTED, 100), Update(DONE, 100) of the
claim. -/
theorem C1_inquiry_calls_nested_first_witness :
    (∃ s2 log,
      BondInquiryService.OnMessage 2 ⟨[], 1⟩
          ⟨"INQ1", ⟨"T2Y", "TICKER1", 0, (2024, 12, 22)⟩, .BUY, 5000, 0, .RECEIVED⟩
        = .ok (s2, log) ∧
      ∀ i, i < 1 →
        received i log =
          [.ProcessUpdate ⟨"INQ1", ⟨"T2Y", "TICKER1", 0, (2024, 12, 22)⟩, .BUY, 5000, 100, .DONE⟩,
           .ProcessUpdate ⟨"INQ1", ⟨"T2Y", "TICKER1", 0, (2024, 12, 22)⟩, .BUY, 5000, 100, .DONE⟩,
           .ProcessAdd
            ⟨"INQ1", ⟨"T2Y", "TICKER1", 0, (2024, 12, 22)⟩, .BUY, 5000, 0, .RECEIVED⟩]) ∧
    ([.ProcessUpdate ⟨"INQ1", ⟨"T2Y", "TICKER1", 0, (2024, 12, 22)⟩, .BUY, 5000, 100, .DONE⟩,
      .ProcessUpdate ⟨"INQ1", ⟨"T2Y", "TICKER1", 0, (2024, 12, 22)⟩, .BUY, 5000, 100, .DONE⟩,
      .ProcessAdd ⟨"INQ1", ⟨"T2Y", "TICKER1", 0, (2024, 12, 22)⟩, .BUY, 5000, 0, .RECEIVED⟩]
        : List (ListenerCall Inquiry)) ≠
     [.ProcessAdd ⟨"INQ1", ⟨"T2Y", "TICKER1", 0, (2024, 12, 22)⟩, .BUY, 5000, 0, .RECEIVED⟩,
      .ProcessUpdate ⟨"INQ1", ⟨"T2Y", "TICKER1", 0, (2024, 12, 22)⟩, .BUY, 5000, 100, .QUOTED⟩,
      .ProcessUpdate ⟨"INQ1", ⟨"T2Y", "TICKER1", 0, (2024, 12, 22)⟩, .BUY, 5000, 100, .DONE⟩] :=
  ⟨C1_inquiry_calls_nested_first 0 ⟨[], 1⟩
    ⟨"INQ1", ⟨"T2Y", "TICKER1", 0, (2024, 12, 22)⟩, .BUY, 5000, 0, .RECEIVED⟩ rfl rfl,
   fun heq => ListenerCall.noConfusion (List.cons.inj heq).1⟩

/-! ## Positions -/

theorem foldl_add_snd (l : StrMap Int) (init : Int) :
    l.foldl (fun aggregate kv => aggregate + kv.2) init = init + (l.map Prod.snd).sum := by
  induction l generalizing init with
  | nil => simp
  | cons kv rest ih =>
    simp only [List.foldl_cons, List.map_cons, List.sum_cons]
    rw [ih]
    omega

theorem Position.GetAggregatePosition_eq_sum (p : Position) :
    p.GetAggregatePosition = (p.positions.map Prod.snd).sum := by
  simp [Position.GetAggregatePosition, foldl_add_snd]

theorem sum_modify_add (m : StrMap Int) (key : String) (q : Int) :
    ((StrMap.modify m key 0 (fun v => v + q)).map Prod.snd).sum = (m.map Prod.snd).sum + q := by
  induction m with
  | nil => simp [StrMap.modify]
  | cons kv rest ih =>
    obtain ⟨k, v⟩ := kv
    by_cases hk : k = key
    · simp only [StrMap.modify, hk, if_true, List.map_cons, List.sum_cons]
      omega
    · simp only [StrMap.modify, hk, if_false, List.map_cons, List.sum_cons]
      rw [ih]
      omega

namespace BondPositionService

theorem AddTrade_positionMap (s : BondPositionService) (trade : Trade) :
    (AddTrade s trade).1.positionMap =
      StrMap.update
        (if (StrMap.find s.positionMap trade.product.GetProductId).isNone
          then StrMap.emplace s.positionMap trade.product.GetProductId ⟨trade.product, []⟩
          else s.positionMap)
        trade.product.GetProductId (addToBook trade) := by
  simp only [AddTrade]
  split <;> rfl

theorem find_AddTrade_self (s : BondPositionService) (trade : Trade) :
    StrMap.find (AddTrade s trade).1.positionMap trade.product.GetProductId
      = some (positionAfter s trade) := by
  rw [AddTrade_positionMap, StrMap.find_update_self]
  cases h : StrMap.find s.positionMap trade.product.GetProductId with
  | none =>
    have h2 := StrMap.find_emplace_new s.positionMap trade.product.GetProductId
      ⟨trade.product, []⟩ h
    simp [h2, positionAfter, h]
  | some pos =>
    simp [positionAfter, h]

theorem find_AddTrade_ne (s : BondPositionService) (trade : Trade) (productId : String)
    (hne : trade.product.GetProductId ≠ productId) :
    StrMap.find (AddTrade s trade).1.positionMap productId = StrMap.find s.positionMap productId := by
  rw [AddTrade_positionMap, StrMap.find_update_ne _ _ _ _ hne]
  split
  · exact StrMap.find_emplace_ne _ _ _ _ hne
  · rfl

theorem aggregate_positionAfter (s : BondPositionService) (trade : Trade) :
    (positionAfter s trade).GetAggregatePosition
      = aggregateOf s trade.product.GetProductId + trade.signedQuantity := by
  rw [Position.GetAggregatePosition_eq_sum]
  simp only [positionAfter, addToBook, sum_modify_add, aggregateOf]
  cases h : StrMap.find s.positionMap trade.product.GetProductId with
  | none =>
    cases hs : trade.side <;> simp [Trade.signedQuantity, hs]
  | some pos =>
    simp only [Option.getD_some, Position.GetAggregatePosition_eq_sum]
    cases hs : trade.side <;> simp [Trade.signedQuantity, hs]

theorem aggregateOf_AddTrade (s : BondPositionService) (trade : Trade) (productId : String) :
    aggregateOf (AddTrade s trade).1 productId
      = aggregateOf s productId + signedQuantityOf productId [trade] := by
  by_cases hp : trade.product.GetProductId = productId
  · subst hp
    have h1 := find_AddTrade_self s trade
    have h2 := aggregate_positionAfter s trade
    simp only [aggregateOf] at h2 ⊢
    rw [h1]
    simp only [h2]
    simp [signedQuantityOf]
  · have h1 := find_AddTrade_ne s trade productId hp
    simp only [aggregateOf]
    rw [h1]
    simp [signedQuantityOf, hp]

theorem signedQuantityOf_cons (productId : String) (t : Trade) (rest : List Trade) :
    signedQuantityOf productId (t :: rest)
      = signedQuantityOf productId [t] + signedQuantityOf productId rest := by
  by_cases hp : t.product.GetProductId = productId <;> simp [signedQuantityOf, hp]

theorem aggregateOf_addTrades (s : BondPositionService) (trades : List Trade) (productId : String) :
    aggregateOf (addTrades s trades) productId
      = aggregateOf s productId + signedQuantityOf productId trades := by
  induction trades generalizing s with
  | nil => simp [addTrades, signedQuantityOf]
  | cons t rest ih =>
    rw [addTrades, ih, aggregateOf_AddTrade, signedQuantityOf_cons productId t rest]
    omega

theorem find_addTrades_isSome (s : BondPositionService) (trades : List Trade) (productId : String) :
    (StrMap.find (addTrades s trades).positionMap productId).isSome = true ↔
      ((StrMap.find s.positionMap productId).isSome = true ∨
        ∃ t ∈ trades, t.product.GetProductId = productId) := by
  induction trades generalizing s with
  | nil => simp [addTrades]
  | cons t rest ih =>
    rw [addTrades, ih]
    by_cases hp : t.product.GetProductId = productId
    · subst hp
      rw [find_AddTrade_self]
      simp
    · rw [find_AddTrade_ne s t productId hp]
      simp [hp]

end BondPositionService

/-- C3: after a freshly constructed `BondPositionService` (any number of
listeners) has applied any finite sequence of trades through `AddTrade`, for
every product identifier: a Position is stored exactly when the sequence has a
trade of that product, and the stored Position's `GetAggregatePosition` equals
the sum over the trades of the sequence for that product of +quantity for BUY
and -quantity for SELL, and equals the sum of the Position's per-book
quantities. -/
theorem C3_position_conservation (listeners : Nat) (trades : List Trade) (productId : String) :
    ((StrMap.find (BondPositionService.addTrades ⟨[], listeners⟩ trades).positionMap
        productId).isSome = true ↔ ∃ t ∈ trades, t.product.GetProductId = productId) ∧
    ∀ pos,
      StrMap.find (BondPositionService.addTrades ⟨[], listeners⟩ trades).positionMap productId
        = some pos →
      pos.GetAggregatePosition = signedQuantityOf productId trades ∧
      pos.GetAggregatePosition = (pos.positions.map Prod.snd).sum := by
  constructor
  · rw [BondPositionService.find_addTrades_isSome]
    simp [StrMap.find]
  · intro pos hpos
    refine ⟨?_, Position.GetAggregatePosition_eq_sum pos⟩
    have h := BondPositionService.aggregateOf_addTrades ⟨[], listeners⟩ trades productId
    simp only [BondPositionService.aggregateOf, hpos, StrMap.find] at h
    simpa using h

/-! ## Algo streaming -/

namespace StrMap

theorem find_emplace_self {V : Type} (m : StrMap V) (key : String) (value : V) :
    find (emplace m key value) key = some ((find m key).getD value) := by
  cases h : find m key with
  | none => simpa using find_emplace_new m key value h
  | some v => simp [emplace_of_some m key value v h, h]

theorem find_modify_self {V : Type} (m : StrMap V) (key : String) (dflt : V) (f : V → V) :
    find (modify m key dflt f) key = some (f ((find m key).getD dflt)) := by
  induction m with
  | nil => simp [modify, find]
  | cons kv rest ih =>
    obtain ⟨k, v⟩ := kv
    by_cases hk : k = key
    · subst hk
      simp [modify, find]
    · simp only [modify, hk, if_false, find]
      exact ih

theorem find_modify_ne {V : Type} (m : StrMap V) (key key2 : String) (dflt : V) (f : V → V)
    (hne : key ≠ key2) : find (modify m key dflt f) key2 = find m key2 := by
  induction m with
  | nil => simp [modify, find, hne]
  | cons kv rest ih =>
    obtain ⟨k, v⟩ := kv
    by_cases hk : k = key
    · subst hk
      simp [modify, find, hne]
    · by_cases hk2 : k = key2
      · subst hk2
        simp [modify, find, hk]
      · simp only [modify, hk, if_false, find, hk2]
        exact ih

end StrMap

namespace BondAlgoStreamingService

theorem ProcessPrice_log (s : BondAlgoStreamingService) (price : Price) :
    (ProcessPrice s price).2 =
      notifyAll s.listeners
        (if (StrMap.find s.algoStreamMap price.product.GetProductId).isNone
          then .ProcessAdd (streamOf s price) else .ProcessUpdate (streamOf s price)) := by
  have htog : ∀ m : StrMap SizeTracker,
      ((StrMap.find (StrMap.emplace m price.product.GetProductId {})
        price.product.GetProductId).getD {}).toggle
        = ((StrMap.find m price.product.GetProductId).getD {}).toggle := by
    intro m
    rw [StrMap.find_emplace_self]
    rfl
  simp only [ProcessPrice, streamOf, toggleOf]
  by_cases hnew : (StrMap.find s.algoStreamMap price.product.GetProductId).isNone = true
  · simp only [hnew, if_true, htog]
  · simp only [hnew]
    rfl

theorem ProcessPrice_sizeTrackers (s : BondAlgoStreamingService) (price : Price) :
    (ProcessPrice s price).1.sizeTrackers =
      StrMap.modify
        (if (StrMap.find s.algoStreamMap price.product.GetProductId).isNone
          then StrMap.emplace s.sizeTrackers price.product.GetProductId {} else s.sizeTrackers)
        price.product.GetProductId {}
        (fun t => { t with toggle := !(toggleOf s price.product.GetProductId) }) := by
  have htog : ∀ m : StrMap SizeTracker,
      ((StrMap.find (StrMap.emplace m price.product.GetProductId {})
        price.product.GetProductId).getD {}).toggle
        = ((StrMap.find m price.product.GetProductId).getD {}).toggle := by
    intro m
    rw [StrMap.find_emplace_self]
    rfl
  simp only [ProcessPrice, toggleOf]
  by_cases hnew : (StrMap.find s.algoStreamMap price.product.GetProductId).isNone = true
  · simp only [hnew, if_true, htog]
  · simp only [hnew]
    rfl

theorem toggleOf_ProcessPrice_self (s : BondAlgoStreamingService) (price : Price) :
    toggleOf (ProcessPrice s price).1 price.product.GetProductId
      = !(toggleOf s price.product.GetProductId) := by
  rw [toggleOf, ProcessPrice_sizeTrackers, StrMap.find_modify_self]
  rfl

theorem toggleOf_ProcessPrice_ne (s : BondAlgoStreamingService) (price : Price)
    (productId : String) (hne : price.product.GetProductId ≠ productId) :
    toggleOf (ProcessPrice s price).1 productId = toggleOf s productId := by
  rw [toggleOf, ProcessPrice_sizeTrackers, StrMap.find_modify_ne _ _ _ _ _ hne]
  split
  · rw [StrMap.find_emplace_ne _ _ _ _ hne]
    rfl
  · rfl

theorem ProcessPrice_listeners (s : BondAlgoStreamingService) (price : Price) :
    (ProcessPrice s price).1.listeners = s.listeners := rfl

end BondAlgoStreamingService

theorem ListenerCall.data_ite {V : Type} (c : Prop) [Decidable c] (x : V) :
    (if c then ListenerCall.ProcessAdd x else ListenerCall.ProcessUpdate x).data = x := by
  split <;> rfl

theorem visibleSizeAt_succ (toggle : Bool) (k : Nat) :
    visibleSizeAt (!toggle) k = visibleSizeAt toggle (k + 1) := by
  have h : (k + 1) % 2 = 0 ↔ ¬ k % 2 = 0 := by omega
  cases toggle <;> by_cases hk : k % 2 = 0 <;> simp [visibleSizeAt, hk, h]

theorem streamsFor_append (productId : String) (i : Nat) (l1 l2 : CallLog PriceStream) :
    streamsFor productId i (l1 ++ l2) = streamsFor productId i l1 ++ streamsFor productId i l2 := by
  simp [streamsFor, received_append]

namespace BondAlgoStreamingService

theorem streamsFor_ProcessPrice (s : BondAlgoStreamingService) (price : Price)
    (productId : String) (i : Nat) :
    streamsFor productId i (ProcessPrice s price).2 =
      if i < s.listeners ∧ price.product.GetProductId = productId then [streamOf s price]
      else [] := by
  rw [ProcessPrice_log]
  simp only [streamsFor, received_notifyAll]
  by_cases hi : i < s.listeners
  · by_cases hp : price.product.GetProductId = productId
    · simp [hi, hp, ListenerCall.data_ite, streamOf]
    · simp [hi, hp, ListenerCall.data_ite, streamOf]
  · simp [hi]

theorem deliver_listeners (s : BondAlgoStreamingService) (calls : List (ListenerCall Price)) :
    (deliver s calls).1.listeners = s.listeners := by
  induction calls generalizing s with
  | nil => rfl
  | cons call rest ih =>
    simp only [deliver]
    rw [ih]
    cases call <;> rfl

theorem streamsFor_deliver_of_not_lt (productId : String) (i : Nat)
    (calls : List (ListenerCall Price)) :
    ∀ s : BondAlgoStreamingService, ¬ i < s.listeners →
      streamsFor productId i (deliver s calls).2 = [] := by
  induction calls with
  | nil => intro s _; rfl
  | cons c cs ih =>
    intro s hs
    simp only [deliver, streamsFor_append]
    rw [ih]
    · cases c with
      | ProcessRemove p => rfl
      | ProcessAdd p =>
        simp only [handle, ProcessAdd, streamsFor_ProcessPrice]
        simp [hs]
      | ProcessUpdate p =>
        simp only [handle, ProcessUpdate, streamsFor_ProcessPrice]
        simp [hs]
    · cases c <;> exact hs

theorem streamsFor_step (s : BondAlgoStreamingService) (price : Price)
    (rest : List (ListenerCall Price)) (productId : String) (i k : Nat) (ps : PriceStream)
    (ih : ∀ (s : BondAlgoStreamingService) (productId : String) (i k : Nat) (ps : PriceStream),
      (streamsFor productId i (deliver s rest).2).get? k = some ps →
      ps.bidOrder.visibleQuantity = visibleSizeAt (toggleOf s productId) k ∧
      ps.offerOrder.visibleQuantity = visibleSizeAt (toggleOf s productId) k)
    (h : (streamsFor productId i (ProcessPrice s price).2 ++
      streamsFor productId i (deliver (ProcessPrice s price).1 rest).2).get? k = some ps) :
    ps.bidOrder.visibleQuantity = visibleSizeAt (toggleOf s productId) k ∧
      ps.offerOrder.visibleQuantity = visibleSizeAt (toggleOf s productId) k := by
  rw [streamsFor_ProcessPrice] at h
  by_cases hc : i < s.listeners ∧ price.product.GetProductId = productId
  · rw [if_pos hc] at h
    obtain ⟨_, hp⟩ := hc
    subst hp
    cases k with
    | zero =>
      simp only [List.singleton_append, List.get?_cons_zero, Option.some.injEq] at h
      subst h
      cases ht : toggleOf s price.product.GetProductId <;> simp [streamOf, visibleSizeAt, ht]
    | succ k =>
      simp only [List.singleton_append, List.get?_cons_succ] at h
      have h2 := ih _ _ i k ps h
      rw [toggleOf_ProcessPrice_self, visibleSizeAt_succ] at h2
      exact h2
  · rw [if_neg hc, List.nil_append] at h
    have h2 := ih _ _ i k ps h
    by_cases hp : price.product.GetProductId = productId
    · have hi : ¬ i < s.listeners := fun hi => hc ⟨hi, hp⟩
      have hi2 : ¬ i < (ProcessPrice s price).1.listeners := hi
      rw [streamsFor_deliver_of_not_lt productId i rest _ hi2] at h
      simp at h
    · rw [toggleOf_ProcessPrice_ne s price productId hp] at h2
      exact h2

/-- From any state, stream number `k` received by a listener for a product has
the visible size fixed by the toggle of the product in that state. -/
theorem streamsFor_deliver (calls : List (ListenerCall Price)) :
    ∀ (s : BondAlgoStreamingService) (productId : String) (i k : Nat) (ps : PriceStream),
      (streamsFor productId i (deliver s calls).2).get? k = some ps →
      ps.bidOrder.visibleQuantity = visibleSizeAt (toggleOf s productId) k ∧
      ps.offerOrder.visibleQuantity = visibleSizeAt (toggleOf s productId) k := by
  induction calls with
  | nil =>
    intro s productId i k ps h
    simp [deliver, streamsFor, received] at h
  | cons call rest ih =>
    intro s productId i k ps h
    simp only [deliver, streamsFor_append] at h
    cases call with
    | ProcessRemove price =>
      simp only [handle, ProcessRemove, streamsFor, received_nil, List.map_nil, List.filter_nil,
        List.nil_append] at h
      exact ih s productId i k ps h
    | ProcessAdd price => exact streamsFor_step s price rest productId i k ps ih h
    | ProcessUpdate price => exact streamsFor_step s price rest productId i k ps ih h

/-- Every stream handed to a listener has hidden sizes twice the visible ones. -/
theorem hidden_deliver (calls : List (ListenerCall Price)) :
    ∀ (s : BondAlgoStreamingService) (i : Nat) (c : ListenerCall PriceStream),
      c ∈ received i (deliver s calls).2 →
      c.data.bidOrder.hiddenQuantity = 2 * c.data.bidOrder.visibleQuantity ∧
      c.data.offerOrder.hiddenQuantity = 2 * c.data.offerOrder.visibleQuantity := by
  have hstep : ∀ (s : BondAlgoStreamingService) (price : Price) (i : Nat)
      (c : ListenerCall PriceStream), c ∈ received i (ProcessPrice s price).2 →
      c.data.bidOrder.hiddenQuantity = 2 * c.data.bidOrder.visibleQuantity ∧
      c.data.offerOrder.hiddenQuantity = 2 * c.data.offerOrder.visibleQuantity := by
    intro s price i c h
    rw [ProcessPrice_log, received_notifyAll] at h
    split at h
    · simp only [List.mem_singleton] at h
      subst h
      rw [ListenerCall.data_ite]
      simp [streamOf, mul_comm]
    · simp at h
  induction calls with
  | nil =>
    intro s i c h
    simp [deliver, received] at h
  | cons call rest ih =>
    intro s i c h
    simp only [deliver, received_append, List.mem_append] at h
    rcases h with h | h
    · cases call with
      | ProcessRemove price => simp [handle, ProcessRemove, received] at h
      | ProcessAdd price => exact hstep s price i c h
      | ProcessUpdate price => exact hstep s price i c h
    · exact ih _ i c h

end BondAlgoStreamingService

/-- C5: for every sequence of Price events delivered to a freshly constructed
`BondAlgoStreamingService`, every listener `i` and every product, the stream
number `k` (counted from zero) that the listener receives for that product has
visible quantity 1,000,000 when `k` is even, that is for the 1st, 3rd, ...
stream, and 2,000,000 when `k` is odd, on both the bid and the offer order,
however events of other products are interleaved; and every stream the
listener receives has on each order a hidden quantity of exactly twice the
visible quantity. -/
theorem C5_visible_size_toggle (listeners : Nat) (calls : List (ListenerCall Price))
    (productId : String) (i : Nat) :
    (∀ (k : Nat) (ps : PriceStream),
      (streamsFor productId i
        (BondAlgoStreamingService.deliver (BondAlgoStreamingService.init listeners) calls).2).get? k
          = some ps →
      ps.bidOrder.visibleQuantity = (if k % 2 = 0 then 1000000 else 2000000) ∧
      ps.offerOrder.visibleQuantity = (if k % 2 = 0 then 1000000 else 2000000)) ∧
    (∀ c : ListenerCall PriceStream,
      c ∈ received i
        (BondAlgoStreamingService.deliver (BondAlgoStreamingService.init listeners) calls).2 →
      c.data.bidOrder.hiddenQuantity = 2 * c.data.bidOrder.visibleQuantity ∧
      c.data.offerOrder.hiddenQuantity = 2 * c.data.offerOrder.visibleQuantity) := by
  constructor
  · intro k ps h
    have h2 := BondAlgoStreamingService.streamsFor_deliver calls _ productId i k ps h
    have ht : BondAlgoStreamingService.toggleOf (BondAlgoStreamingService.init listeners) productId
        = true := rfl
    rw [ht] at h2
    simpa [visibleSizeAt] using h2
  · exact BondAlgoStreamingService.hidden_deliver calls _ i

/-- C6: for every Price with mid `m` and spread `s` delivered to
`BondAlgoStreamingService` (ProcessAdd and ProcessUpdate both run
`ProcessPrice`), each listener receives exactly one PriceStream; its bid order
has side BID and price `m - s/2`, its offer order has side OFFER and price
`m + s/2`, so that bid price + offer price = 2m; for mid 99.515625 and spread
1/256 the bid is 99.513671875 = 50951/512 and the offer 99.517578125 =
50953/512. -/
theorem C6_stream_prices (s : BondAlgoStreamingService) (price : Price) (i : Nat)
    (hi : i < s.listeners) :
    ∃ ps : PriceStream,
      (received i (BondAlgoStreamingService.ProcessPrice s price).2).map ListenerCall.data = [ps] ∧
      ps.bidOrder.side = .BID ∧
      ps.bidOrder.price = price.mid - price.bidOfferSpread / 2 ∧
      ps.offerOrder.side = .OFFER ∧
      ps.offerOrder.price = price.mid + price.bidOfferSpread / 2 ∧
      ps.bidOrder.price + ps.offerOrder.price = 2 * price.mid ∧
      (price.mid = 99515625 / 1000000 → price.bidOfferSpread = 1 / 256 →
        ps.bidOrder.price = 99513671875 / 1000000000 ∧
        ps.offerOrder.price = 99517578125 / 1000000000) := by
  refine ⟨BondAlgoStreamingService.streamOf s price, ?_, rfl, rfl, rfl, rfl, ?_, ?_⟩
  · rw [BondAlgoStreamingService.ProcessPrice_log, received_notifyAll_of_lt _ _ _ hi]
    simp [ListenerCall.data_ite]
  · simp only [BondAlgoStreamingService.streamOf]
    ring
  · intro hm hs
    simp only [BondAlgoStreamingService.streamOf, hm, hs]
    constructor <;> norm_num

/-- C6 at the price `T2Y 99-16+ 0-01` (mid 99.515625, spread 1/256) delivered
to a freshly constructed service with one listener. -/
theorem C6_stream_prices_witness :
    ∃ ps : PriceStream,
      (received 0 (BondAlgoStreamingService.ProcessPrice (BondAlgoStreamingService.init 1)
        ⟨⟨"T2Y", "TICKER1", 0, (2024, 12, 22)⟩, 99515625 / 1000000, 1 / 256⟩).2).map
          ListenerCall.data = [ps] ∧
      ps.bidOrder.side = .BID ∧
      ps.bidOrder.price = (99515625 / 1000000 : ℚ) - (1 / 256 : ℚ) / 2 ∧
      ps.offerOrder.side = .OFFER ∧
      ps.offerOrder.price = (99515625 / 1000000 : ℚ) + (1 / 256 : ℚ) / 2 ∧
      ps.bidOrder.price + ps.offerOrder.price = 2 * (99515625 / 1000000 : ℚ) ∧
      ((99515625 / 1000000 : ℚ) = 99515625 / 1000000 → (1 / 256 : ℚ) = 1 / 256 →
        ps.bidOrder.price = 99513671875 / 1000000000 ∧
        ps.offerOrder.price = 99517578125 / 1000000000) :=
  C6_stream_prices (BondAlgoStreamingService.init 1)
    ⟨⟨"T2Y", "TICKER1", 0, (2024, 12, 22)⟩, 99515625 / 1000000, 1 / 256⟩ 0 (by decide)

/-! ## Execution -/

theorem truncate_intCast (n : Int) : truncate (n : ℚ) = n := by
  unfold truncate
  split <;> simp

namespace BondExecutionService

theorem routeMarkets_of_fills (order : ExecutionOrder) (h : fills order) :
    routeMarkets order (effectiveQuantity order) [.BROKERTEC, .ESPEED, .CME] .REJECTED
      = ⟨false, .EXECUTED, []⟩ := by
  rcases h with h | ⟨h, hq⟩ | ⟨h, hq⟩
  · simp [routeMarkets, h]
  · simp [routeMarkets, h, hq]
  · simp [routeMarkets, h, hq]

theorem routeMarkets_of_not_fills (order : ExecutionOrder) (h : ¬ fills order) :
    routeMarkets order (effectiveQuantity order) [.BROKERTEC, .ESPEED, .CME] .REJECTED
      = (if order.orderType = .FOK ∨ order.orderType = .IOC then ⟨true, .CANCELLED, []⟩
         else ⟨false, .REJECTED, [.BROKERTEC, .ESPEED, .CME]⟩) := by
  simp only [fills, not_or, not_and] at h
  obtain ⟨h1, h2, h3⟩ := h
  cases ht : order.orderType with
  | FOK =>
    have := h3 ht
    simp [routeMarkets, ht, this]
  | IOC =>
    have := h2 ht
    simp [routeMarkets, ht, this]
  | MARKET => exact absurd ht h1
  | LIMIT => simp [routeMarkets, ht]
  | STOP => simp [routeMarkets, ht]

theorem ExecuteOrder_dropped (s : BondExecutionService) (order : ExecutionOrder) (market : Market)
    (h : dropped s order) : ExecuteOrder s order market = .ok (s, []) := by
  obtain ⟨h1, h2⟩ := h
  simp [ExecuteOrder, h1, h2]

theorem ExecuteOrder_not_fills (s : BondExecutionService) (order : ExecutionOrder)
    (market : Market) (hd : ¬ dropped s order) (h : ¬ fills order) :
    ExecuteOrder s order market = .ok (stored s order, []) := by
  have hr := routeMarkets_of_not_fills order h
  simp only [effectiveQuantity] at hr
  simp only [dropped] at hd
  simp only [ExecuteOrder, hd, if_false, hr, stored]
  split <;> simp

theorem ExecuteOrder_fills (s : BondExecutionService) (order : ExecutionOrder)
    (market : Market) (hd : ¬ dropped s order) (h : fills order) (tradeBook : String)
    (hb : s.tradeBooks.get? s.currentTradeBookIndex = some tradeBook) :
    ExecuteOrder s order market =
      .ok ({ stored s order with
              executionMap := StrMap.emplace (stored s order).executionMap order.orderId order,
              currentTradeBookIndex := (s.currentTradeBookIndex + 1) % s.tradeBooks.length },
        notifyAll s.listeners
          (if (StrMap.find (stored s order).executionMap order.orderId).isNone
            then .ProcessAdd (tradeOf order tradeBook)
            else .ProcessUpdate (tradeOf order tradeBook))) := by
  have hr := routeMarkets_of_fills order h
  simp only [effectiveQuantity] at hr
  simp only [dropped] at hd
  have hs1 : (stored s order).tradeBooks = s.tradeBooks := by
    unfold stored; split <;> rfl
  have hs2 : (stored s order).currentTradeBookIndex = s.currentTradeBookIndex := by
    unfold stored; split <;> rfl
  have hs3 : (stored s order).listeners = s.listeners := by
    unfold stored; split <;> rfl
  rw [← hs1, ← hs2] at hb
  have key : ExecuteOrder s order market =
      (match (stored s order).tradeBooks.get? (stored s order).currentTradeBookIndex with
        | none => .error .out_of_range
        | some tradeBook =>
          .ok ({ stored s order with
              executionMap := StrMap.emplace (stored s order).executionMap order.orderId order,
              currentTradeBookIndex :=
                ((stored s order).currentTradeBookIndex + 1) % (stored s order).tradeBooks.length },
            notifyAll (stored s order).listeners
              (if (StrMap.find (stored s order).executionMap order.orderId).isNone
                then .ProcessAdd (tradeOf order tradeBook)
                else .ProcessUpdate (tradeOf order tradeBook)))) := by
    simp only [ExecuteOrder, hd, if_false, hr, stored, tradeOf]
    rfl
  rw [key, hb]
  simp only [hs1, hs2, hs3]

end BondExecutionService

namespace BondExecutionService

theorem not_dropped_of_not_child (s : BondExecutionService) (order : ExecutionOrder)
    (h : order.isChildOrder = false) : ¬ dropped s order := by
  intro hd
  rw [hd.1] at h
  exact Bool.noConfusion h

theorem get?_of_cursorValid (s : BondExecutionService) (h : cursorValid s) :
    s.tradeBooks.get? s.currentTradeBookIndex = some (bookAt s.currentTradeBookIndex) := by
  obtain ⟨hb, hi⟩ := h
  rw [hb]
  have : s.currentTradeBookIndex = 0 ∨ s.currentTradeBookIndex = 1 ∨ s.currentTradeBookIndex = 2 := by
    omega
  rcases this with h0 | h0 | h0 <;> rw [h0] <;> rfl

end BondExecutionService

/-- C8: for every non-child execution order, with effective quantity `e` = the
visible quantity if that is positive and the hidden quantity otherwise,
`BondExecutionService::ExecuteOrder` (in a state whose cursor points into the
books) hands each listener exactly one Trade if the order type is MARKET, or
IOC with `e > 0`, or FOK with `e >= visibleQty`, and hands nobody anything
otherwise; in that case a FOK or IOC order leaves the market loop cancelled, at
the first market, and a LIMIT or STOP order is rejected in each of BROKERTEC,
ESPEED and CME. -/
theorem C8_execution_outcome (s : BondExecutionService) (order : ExecutionOrder) (market : Market)
    (hchild : order.isChildOrder = false)
    (hcursor : s.currentTradeBookIndex < s.tradeBooks.length) :
    ∃ s2 log, BondExecutionService.ExecuteOrder s order market = .ok (s2, log) ∧
      ((order.orderType = .MARKET ∨
          (order.orderType = .IOC ∧ BondExecutionService.effectiveQuantity order > 0) ∨
          (order.orderType = .FOK ∧
            BondExecutionService.effectiveQuantity order ≥ order.GetVisibleQuantity)) →
        ∀ i, i < s.listeners → ∃ trade : Trade,
          (received i log).map ListenerCall.data = [trade]) ∧
      (¬ (order.orderType = .MARKET ∨
          (order.orderType = .IOC ∧ BondExecutionService.effectiveQuantity order > 0) ∨
          (order.orderType = .FOK ∧
            BondExecutionService.effectiveQuantity order ≥ order.GetVisibleQuantity)) →
        log = [] ∧
        BondExecutionService.routeMarkets order (BondExecutionService.effectiveQuantity order)
            [.BROKERTEC, .ESPEED, .CME] .REJECTED
          = (if order.orderType = .FOK ∨ order.orderType = .IOC then ⟨true, .CANCELLED, []⟩
             else ⟨false, .REJECTED, [.BROKERTEC, .ESPEED, .CME]⟩)) := by
  have hd := BondExecutionService.not_dropped_of_not_child s order hchild
  by_cases hf : BondExecutionService.fills order
  · obtain ⟨tradeBook, hb⟩ : ∃ b, s.tradeBooks.get? s.currentTradeBookIndex = some b := by
      rw [List.get?_eq_get hcursor]
      exact ⟨_, rfl⟩
    refine ⟨_, _, BondExecutionService.ExecuteOrder_fills s order market hd hf tradeBook hb, ?_, ?_⟩
    · intro _ i hi
      refine ⟨BondExecutionService.tradeOf order tradeBook, ?_⟩
      rw [received_notifyAll_of_lt _ _ _ hi]
      simp [ListenerCall.data_ite]
    · intro hn
      exact absurd hf hn
  · refine ⟨_, _, BondExecutionService.ExecuteOrder_not_fills s order market hd hf, ?_, ?_⟩
    · intro h
      exact absurd h hf
    · intro _
      exact ⟨rfl, BondExecutionService.routeMarkets_of_not_fills order hf⟩

/-- C8 at a LIMIT order with visible quantity 1,000,000 handed to a freshly
constructed service with one listener: no Trade, rejected in three markets. -/
theorem C8_execution_outcome_witness :
    ∃ s2 log,
      BondExecutionService.ExecuteOrder (BondExecutionService.init 1)
        ⟨⟨"T3Y", "TICKER2", 0, (2025, 6, 15)⟩, .BID, "T3Y", .LIMIT, 100, 1000000, 0, "", false⟩
        .BROKERTEC = .ok (s2, log) ∧
      (((OrderType.LIMIT = OrderType.MARKET) ∨
          (OrderType.LIMIT = OrderType.IOC ∧ BondExecutionService.effectiveQuantity
            ⟨⟨"T3Y", "TICKER2", 0, (2025, 6, 15)⟩, .BID, "T3Y", .LIMIT, 100, 1000000, 0, "", false⟩
              > 0) ∨
          (OrderType.LIMIT = OrderType.FOK ∧ BondExecutionService.effectiveQuantity
            ⟨⟨"T3Y", "TICKER2", 0, (2025, 6, 15)⟩, .BID, "T3Y", .LIMIT, 100, 1000000, 0, "", false⟩
              ≥ ExecutionOrder.GetVisibleQuantity
            ⟨⟨"T3Y", "TICKER2", 0, (2025, 6, 15)⟩, .BID, "T3Y", .LIMIT, 100, 1000000, 0, "", false⟩)) →
        ∀ i, i < 1 → ∃ trade : Trade,
          (received i log).map ListenerCall.data = [trade]) ∧
      (¬ ((OrderType.LIMIT = OrderType.MARKET) ∨
          (OrderType.LIMIT = OrderType.IOC ∧ BondExecutionService.effectiveQuantity
            ⟨⟨"T3Y", "TICKER2", 0, (2025, 6, 15)⟩, .BID, "T3Y", .LIMIT, 100, 1000000, 0, "", false⟩
              > 0) ∨
          (OrderType.LIMIT = OrderType.FOK ∧ BondExecutionService.effectiveQuantity
            ⟨⟨"T3Y", "TICKER2", 0, (2025, 6, 15)⟩, .BID, "T3Y", .LIMIT, 100, 1000000, 0, "", false⟩
              ≥ ExecutionOrder.GetVisibleQuantity
            ⟨⟨"T3Y", "TICKER2", 0, (2025, 6, 15)⟩, .BID, "T3Y", .LIMIT, 100, 1000000, 0, "", false⟩)) →
        log = [] ∧
        BondExecutionService.routeMarkets
            ⟨⟨"T3Y", "TICKER2", 0, (2025, 6, 15)⟩, .BID, "T3Y", .LIMIT, 100, 1000000, 0, "", false⟩
            (BondExecutionService.effectiveQuantity
              ⟨⟨"T3Y", "TICKER2", 0, (2025, 6, 15)⟩, .BID, "T3Y", .LIMIT, 100, 1000000, 0, "", false⟩)
            [.BROKERTEC, .ESPEED, .CME] .REJECTED
          = (if OrderType.LIMIT = OrderType.FOK ∨ OrderType.LIMIT = OrderType.IOC
             then ⟨true, .CANCELLED, []⟩
             else ⟨false, .REJECTED, [.BROKERTEC, .ESPEED, .CME]⟩)) :=
  C8_execution_outcome (BondExecutionService.init 1)
    ⟨⟨"T3Y", "TICKER2", 0, (2025, 6, 15)⟩, .BID, "T3Y", .LIMIT, 100, 1000000, 0, "", false⟩
    .BROKERTEC rfl (by decide)

namespace BondExecutionService

theorem ExecuteOrder_cases (s : BondExecutionService) (order : ExecutionOrder) (market : Market)
    (s2 : BondExecutionService) (log : CallLog Trade)
    (h : ExecuteOrder s order market = .ok (s2, log)) :
    log = [] ∨ ∃ tradeBook, s.tradeBooks.get? s.currentTradeBookIndex = some tradeBook ∧
      (log = notifyAll s.listeners (.ProcessAdd (tradeOf order tradeBook)) ∨
        log = notifyAll s.listeners (.ProcessUpdate (tradeOf order tradeBook))) := by
  by_cases hd : dropped s order
  · rw [ExecuteOrder_dropped s order market hd] at h
    injection h with h
    injection h with _ h
    exact Or.inl h.symm
  · by_cases hf : fills order
    · cases hb : s.tradeBooks.get? s.currentTradeBookIndex with
      | none =>
        have hr := routeMarkets_of_fills order hf
        simp only [effectiveQuantity] at hr
        simp only [dropped] at hd
        have hs1 : (stored s order).tradeBooks = s.tradeBooks := by
          unfold stored; split <;> rfl
        have hs2 : (stored s order).currentTradeBookIndex = s.currentTradeBookIndex := by
          unfold stored; split <;> rfl
        rw [← hs1, ← hs2] at hb
        simp only [stored] at hb
        simp only [ExecuteOrder, hd, if_false, hr, hb] at h
        simp at h
      | some tradeBook =>
        rw [ExecuteOrder_fills s order market hd hf tradeBook hb] at h
        injection h with h
        injection h with _ h
        refine Or.inr ⟨tradeBook, rfl, ?_⟩
        rw [← h]
        split
        · exact Or.inl rfl
        · exact Or.inr rfl
    · rw [ExecuteOrder_not_fills s order market hd hf] at h
      injection h with h
      injection h with _ h
      exact Or.inl h.symm

end BondExecutionService

/-- C9: whenever `BondExecutionService::ExecuteOrder` hands a Trade to a
listener, the Trade has TradeId equal to "TRADE_" followed by the order's
OrderId, the order's product and price, quantity equal to the order's visible
quantity (as returned by `GetVisibleQuantity`), side BUY if the order's side is
BID and SELL if it is OFFER, and the book the cursor points at; a MARKET order
with visible 1,000,000, side BID and id T3Y, executed first, is handed over as
TRADE_T3Y, BUY, TRSY1, 1,000,000. -/
theorem C9_trade_of_order (s : BondExecutionService) (order : ExecutionOrder) (market : Market)
    (s2 : BondExecutionService) (log : CallLog Trade) (i : Nat) (c : ListenerCall Trade)
    (hrun : BondExecutionService.ExecuteOrder s order market = .ok (s2, log))
    (hc : c ∈ received i log) :
    c.data.tradeId = "TRADE_" ++ order.orderId ∧
    c.data.product = order.product ∧
    c.data.price = order.price ∧
    c.data.quantity = order.GetVisibleQuantity ∧
    c.data.side = (if order.side = .BID then .BUY else .SELL) ∧
    s.tradeBooks.get? s.currentTradeBookIndex = some c.data.book ∧
    (order.orderType = .MARKET → order.visibleQuantity = 1000000 → order.side = .BID →
      order.orderId = "T3Y" → s = BondExecutionService.init s.listeners →
      c.data.tradeId = "TRADE_T3Y" ∧ c.data.side = .BUY ∧ c.data.book = "TRSY1" ∧
      c.data.quantity = 1000000) := by
  have hmain : ∃ tradeBook, s.tradeBooks.get? s.currentTradeBookIndex = some tradeBook ∧
      c.data = BondExecutionService.tradeOf order tradeBook := by
    rcases BondExecutionService.ExecuteOrder_cases s order market s2 log hrun with h | ⟨b, hb, h | h⟩
    · rw [h] at hc
      simp [received] at hc
    · rw [h, received_notifyAll] at hc
      split at hc
      · simp only [List.mem_singleton] at hc
        exact ⟨b, hb, by rw [hc]; rfl⟩
      · simp at hc
    · rw [h, received_notifyAll] at hc
      split at hc
      · simp only [List.mem_singleton] at hc
        exact ⟨b, hb, by rw [hc]; rfl⟩
      · simp at hc
  obtain ⟨b, hb, hdata⟩ := hmain
  rw [hdata]
  refine ⟨rfl, rfl, rfl, rfl, rfl, hb, ?_⟩
  intro _ hv hside hid hs
  rw [hs] at hb
  simp only [BondExecutionService.init, List.get?_cons_zero, Option.some.injEq] at hb
  have hq : order.GetVisibleQuantity = 1000000 := by
    have h1 : order.visibleQuantity = ((1000000 : Int) : ℚ) := by rw [hv]; norm_num
    rw [ExecutionOrder.GetVisibleQuantity, h1, truncate_intCast]
  simp only [BondExecutionService.tradeOf, hid, hside, hq, ← hb]
  simp

/-- C9 at the MARKET order T3Y, BID, visible 1,000,000, handed first to a
freshly constructed service with one listener: the run, the call the listener
receives, and the fields of the Trade it carries. -/
theorem C9_trade_of_order_witness :
    BondExecutionService.ExecuteOrder (BondExecutionService.init 1)
        ⟨⟨"T3Y", "TICKER2", 0, (2025, 6, 15)⟩, .BID, "T3Y", .MARKET, 100, 1000000, 0, "", false⟩
        .BROKERTEC
      = .ok (⟨[("T3Y", ⟨⟨"T3Y", "TICKER2", 0, (2025, 6, 15)⟩, .BID, "T3Y", .MARKET, 100, 1000000,
                0, "", false⟩)], 1, ["TRSY1", "TRSY2", "TRSY3"], 1⟩,
          notifyAll 1 (.ProcessUpdate
            ⟨⟨"T3Y", "TICKER2", 0, (2025, 6, 15)⟩, "TRADE_T3Y", 100, "TRSY1", 1000000, .BUY⟩)) ∧
    (ListenerCall.ProcessUpdate
        (⟨⟨"T3Y", "TICKER2", 0, (2025, 6, 15)⟩, "TRADE_T3Y", 100, "TRSY1", 1000000, .BUY⟩ : Trade)
      ∈ received 0 (notifyAll 1 (.ProcessUpdate
        (⟨⟨"T3Y", "TICKER2", 0, (2025, 6, 15)⟩, "TRADE_T3Y", 100, "TRSY1", 1000000, .BUY⟩ : Trade)))) ∧
    (⟨⟨"T3Y", "TICKER2", 0, (2025, 6, 15)⟩, "TRADE_T3Y", 100, "TRSY1", 1000000, .BUY⟩ : Trade).tradeId
      = "TRADE_" ++ "T3Y" ∧
    (⟨⟨"T3Y", "TICKER2", 0, (2025, 6, 15)⟩, "TRADE_T3Y", 100, "TRSY1", 1000000, .BUY⟩ : Trade).book
      = "TRSY1" := by
  have hq : truncate (1000000 : ℚ) = 1000000 := by
    have h1 : (1000000 : ℚ) = ((1000000 : Int) : ℚ) := by norm_num
    rw [h1, truncate_intCast]
  have hrun : BondExecutionService.ExecuteOrder (BondExecutionService.init 1)
      ⟨⟨"T3Y", "TICKER2", 0, (2025, 6, 15)⟩, .BID, "T3Y", .MARKET, 100, 1000000, 0, "", false⟩
      .BROKERTEC
      = .ok (⟨[("T3Y", ⟨⟨"T3Y", "TICKER2", 0, (2025, 6, 15)⟩, .BID, "T3Y", .MARKET, 100, 1000000,
                0, "", false⟩)], 1, ["TRSY1", "TRSY2", "TRSY3"], 1⟩,
          notifyAll 1 (.ProcessUpdate
            ⟨⟨"T3Y", "TICKER2", 0, (2025, 6, 15)⟩, "TRADE_T3Y", 100, "TRSY1", 1000000, .BUY⟩)) := by
    simp [BondExecutionService.ExecuteOrder, BondExecutionService.init,
      BondExecutionService.routeMarkets, ExecutionOrder.GetVisibleQuantity, hq, StrMap.find,
      StrMap.emplace]
  have hmem : ListenerCall.ProcessUpdate
        (⟨⟨"T3Y", "TICKER2", 0, (2025, 6, 15)⟩, "TRADE_T3Y", 100, "TRSY1", 1000000, .BUY⟩ : Trade)
      ∈ received 0 (notifyAll 1 (.ProcessUpdate
        (⟨⟨"T3Y", "TICKER2", 0, (2025, 6, 15)⟩, "TRADE_T3Y", 100, "TRSY1", 1000000, .BUY⟩ : Trade))) := by
    rw [received_notifyAll_of_lt _ _ _ (by decide)]
    exact List.mem_singleton.mpr rfl
  have h := C9_trade_of_order (BondExecutionService.init 1)
    ⟨⟨"T3Y", "TICKER2", 0, (2025, 6, 15)⟩, .BID, "T3Y", .MARKET, 100, 1000000, 0, "", false⟩
    .BROKERTEC _ _ 0 _ hrun hmem
  exact ⟨hrun, hmem, h.1, (h.2.2.2.2.2.2 rfl rfl rfl rfl rfl).2.2.1⟩

namespace BondExecutionService

theorem bookAt_congr (a b : Nat) (h : a % 3 = b % 3) : bookAt a = bookAt b := by
  unfold bookAt
  rw [h]

theorem cursorValid_init (listeners : Nat) : cursorValid (init listeners) :=
  ⟨rfl, Nat.zero_lt_succ 2⟩

theorem stored_cursor (s : BondExecutionService) (order : ExecutionOrder) :
    (stored s order).tradeBooks = s.tradeBooks ∧
    (stored s order).currentTradeBookIndex = s.currentTradeBookIndex ∧
    (stored s order).listeners = s.listeners := by
  unfold stored
  split <;> exact ⟨rfl, rfl, rfl⟩

/-- One call handled in a state with a valid cursor: the call returns, the
cursor stays valid, and either nothing is handed to the listeners and the
cursor is kept, or one trade in the book under the cursor is handed to every
listener and the cursor moves on by one modulo 3. -/
theorem handle_step (s : BondExecutionService) (call : ListenerCall ExecutionOrder)
    (hv : cursorValid s) :
    ∃ s2 log, handle s call = .ok (s2, log) ∧ cursorValid s2 ∧ s2.listeners = s.listeners ∧
      ((log = [] ∧ s2.currentTradeBookIndex = s.currentTradeBookIndex) ∨
        (∃ c : ListenerCall Trade, log = notifyAll s.listeners c ∧
          c.data.book = bookAt s.currentTradeBookIndex ∧
          s2.currentTradeBookIndex = (s.currentTradeBookIndex + 1) % 3)) := by
  have hexec : ∀ order : ExecutionOrder, ∃ s2 log,
      ExecuteOrder s order .BROKERTEC = .ok (s2, log) ∧ cursorValid s2 ∧
      s2.listeners = s.listeners ∧
      ((log = [] ∧ s2.currentTradeBookIndex = s.currentTradeBookIndex) ∨
        (∃ c : ListenerCall Trade, log = notifyAll s.listeners c ∧
          c.data.book = bookAt s.currentTradeBookIndex ∧
          s2.currentTradeBookIndex = (s.currentTradeBookIndex + 1) % 3)) := by
    intro order
    obtain ⟨hs1, hs2, hs3⟩ := stored_cursor s order
    by_cases hd : dropped s order
    · exact ⟨_, _, ExecuteOrder_dropped s order _ hd, hv, rfl, Or.inl ⟨rfl, rfl⟩⟩
    · by_cases hf : fills order
      · have hb := get?_of_cursorValid s hv
        have hlen : s.tradeBooks.length = 3 := by rw [hv.1]; rfl
        refine ⟨_, _, ExecuteOrder_fills s order _ hd hf _ hb, ?_, hs3, Or.inr ⟨_, rfl, ?_, ?_⟩⟩
        · refine ⟨?_, ?_⟩
          · show (stored s order).tradeBooks = _
            rw [hs1]
            exact hv.1
          · show (s.currentTradeBookIndex + 1) % s.tradeBooks.length < 3
            rw [hlen]
            exact Nat.mod_lt _ (by decide)
        · rw [ListenerCall.data_ite]
          rfl
        · show (s.currentTradeBookIndex + 1) % s.tradeBooks.length = _
          rw [hlen]
      · refine ⟨_, _, ExecuteOrder_not_fills s order _ hd hf, ?_, hs3, Or.inl ⟨rfl, hs2⟩⟩
        exact ⟨by rw [hs1]; exact hv.1, by rw [hs2]; exact hv.2⟩
  cases call with
  | ProcessAdd data => exact hexec data
  | ProcessUpdate data => exact hexec data
  | ProcessRemove data =>
    simp only [handle, ProcessRemove]
    split
    · exact ⟨_, _, rfl, hv, rfl, Or.inl ⟨rfl, rfl⟩⟩
    · exact ⟨_, _, rfl, hv, rfl, Or.inl ⟨rfl, rfl⟩⟩

theorem booksOf_append (i : Nat) (l1 l2 : CallLog Trade) :
    booksOf i (l1 ++ l2) = booksOf i l1 ++ booksOf i l2 := by
  simp [booksOf, received_append]

theorem booksOf_of_not_lt (calls : List (ListenerCall ExecutionOrder)) :
    ∀ (s s2 : BondExecutionService) (log : CallLog Trade) (i : Nat), cursorValid s →
      ¬ i < s.listeners → deliver s calls = .ok (s2, log) → booksOf i log = [] := by
  induction calls with
  | nil =>
    intro s s2 log i _ _ h
    simp only [deliver] at h
    injection h with h
    injection h with _ h
    rw [← h]
    rfl
  | cons call rest ih =>
    intro s s2 log i hv hi h
    obtain ⟨s1, log1, h1, hv1, hl1, hcase⟩ := handle_step s call hv
    simp only [deliver, h1, bind, Except.bind] at h
    cases h2 : deliver s1 rest with
    | error e => simp [h2] at h
    | ok r =>
      obtain ⟨s3, log3⟩ := r
      simp only [h2, pure, Except.pure] at h
      injection h with h
      injection h with _ h
      rw [← h, booksOf_append, ih s1 s3 log3 i hv1 (by rw [hl1]; exact hi) h2]
      rcases hcase with ⟨hlog, _⟩ | ⟨c, hlog, _, _⟩
      · rw [hlog]; rfl
      · rw [hlog]
        simp [booksOf, received_notifyAll, hi]

/-- From a state with a valid cursor any sequence of calls returns, and trade
number `k` (counted from zero) received by a listener is booked in the book
`k` places after the cursor. -/
theorem booksOf_deliver (calls : List (ListenerCall ExecutionOrder)) :
    ∀ s : BondExecutionService, cursorValid s →
      ∃ s2 log, deliver s calls = .ok (s2, log) ∧
        ∀ (i k : Nat) (b : String), (booksOf i log).get? k = some b →
          b = bookAt (s.currentTradeBookIndex + k) := by
  induction calls with
  | nil =>
    intro s _
    refine ⟨s, [], rfl, ?_⟩
    intro i k b h
    simp [booksOf, received] at h
  | cons call rest ih =>
    intro s hv
    obtain ⟨s1, log1, h1, hv1, hl1, hcase⟩ := handle_step s call hv
    obtain ⟨s3, log3, h3, hbooks⟩ := ih s1 hv1
    refine ⟨s3, log1 ++ log3, ?_, ?_⟩
    · simp [deliver, h1, h3, bind, Except.bind, pure, Except.pure]
    · intro i k b h
      rw [booksOf_append] at h
      rcases hcase with ⟨hlog, hidx⟩ | ⟨c, hlog, hbook, hidx⟩
      · rw [hlog] at h
        simp only [booksOf, received_nil, List.map_nil, List.nil_append] at h
        have := hbooks i k b h
        rw [hidx] at this
        exact this
      · by_cases hi : i < s.listeners
        · have hone : booksOf i log1 = [bookAt s.currentTradeBookIndex] := by
            rw [hlog]
            simp [booksOf, received_notifyAll, hi, hbook]
          rw [hone] at h
          cases k with
          | zero =>
            simp only [List.singleton_append, List.get?_cons_zero, Option.some.injEq] at h
            rw [← h]
            rfl
          | succ k =>
            simp only [List.singleton_append, List.get?_cons_succ] at h
            have := hbooks i k b h
            rw [this, hidx]
            apply bookAt_congr
            omega
        · have hnone : booksOf i log3 = [] :=
            booksOf_of_not_lt rest s1 s3 log3 i hv1 (by rw [hl1]; exact hi) h3
          have hnone1 : booksOf i log1 = [] := by
            rw [hlog]
            simp [booksOf, received_notifyAll, hi]
          rw [hnone, hnone1] at h
          simp at h

end BondExecutionService

/-- The books of the rotation for the first `n` trades. -/
theorem eq_map_bookAt (l : List String)
    (h : ∀ (k : Nat) (b : String), l.get? k = some b → b = BondExecutionService.bookAt k) :
    l = (List.range l.length).map BondExecutionService.bookAt := by
  apply List.ext_get?
  intro k
  by_cases hk : k < l.length
  · rw [List.get?_eq_get hk, List.get?_eq_getElem?, List.getElem?_map, List.getElem?_range hk]
    simp only [Option.map_some', Option.some.injEq]
    exact h k _ (List.get?_eq_get hk)
  · have h1 : l.get? k = none := List.get?_eq_none.mpr (by omega)
    have h2 : ((List.range l.length).map BondExecutionService.bookAt).get? k = none :=
      List.get?_eq_none.mpr (by simp; omega)
    rw [h1, h2]

theorem count_map_bookAt (n : Nat) :
    ((List.range n).map BondExecutionService.bookAt).count "TRSY1" = (n + 2) / 3 ∧
    ((List.range n).map BondExecutionService.bookAt).count "TRSY2" = (n + 1) / 3 ∧
    ((List.range n).map BondExecutionService.bookAt).count "TRSY3" = n / 3 := by
  induction n with
  | zero => simp
  | succ n ih =>
    obtain ⟨h1, h2, h3⟩ := ih
    simp only [List.range_succ, List.map_append, List.count_append, List.map_cons, List.map_nil,
      h1, h2, h3]
    have hcases : n % 3 = 0 ∨ n % 3 = 1 ∨ n % 3 = 2 := by omega
    rcases hcases with h | h | h
    · have hb : BondExecutionService.bookAt n = "TRSY1" := by
        unfold BondExecutionService.bookAt; rw [h]
      rw [hb]
      refine ⟨?_, ?_, ?_⟩
      · rw [List.count_singleton]; simp; omega
      · rw [List.count_singleton]; simp; omega
      · rw [List.count_singleton]; simp; omega
    · have hb : BondExecutionService.bookAt n = "TRSY2" := by
        unfold BondExecutionService.bookAt; rw [h]
      rw [hb]
      refine ⟨?_, ?_, ?_⟩
      · rw [List.count_singleton]; simp; omega
      · rw [List.count_singleton]; simp; omega
      · rw [List.count_singleton]; simp; omega
    · have hb : BondExecutionService.bookAt n = "TRSY3" := by
        unfold BondExecutionService.bookAt; rw [h]
      rw [hb]
      refine ⟨?_, ?_, ?_⟩
      · rw [List.count_singleton]; simp; omega
      · rw [List.count_singleton]; simp; omega
      · rw [List.count_singleton]; simp; omega

namespace BondExecutionService

theorem reachesExecuted_iff (s : BondExecutionService) (order : ExecutionOrder) :
    reachesExecuted s order = true ↔ ¬ dropped s order ∧ fills order := by
  by_cases hd : dropped s order
  · have h : reachesExecuted s order = false := by
      simp [reachesExecuted, hd.1, hd.2]
    rw [h]
    simp [hd]
  · have hd2 := hd
    simp only [dropped] at hd2
    by_cases hf : fills order
    · have hr := routeMarkets_of_fills order hf
      simp only [effectiveQuantity] at hr
      have h : reachesExecuted s order = true := by
        simp only [reachesExecuted, hd2, if_false, hr]
        rfl
      rw [h]
      simp [hd, hf]
    · have hr := routeMarkets_of_not_fills order hf
      simp only [effectiveQuantity] at hr
      have h : reachesExecuted s order = false := by
        simp only [reachesExecuted, hd2, if_false, hr]
        split <;> rfl
      rw [h]
      simp [hf]

theorem tradesFrom_congr (orders : List ExecutionOrder) :
    ∀ a b : Nat, a % 3 = b % 3 → tradesFrom a orders = tradesFrom b orders := by
  induction orders with
  | nil => intro a b _; rfl
  | cons order rest ih =>
    intro a b h
    simp only [tradesFrom]
    rw [bookAt_congr a b h, ih (a + 1) (b + 1) (by omega)]

theorem tradesFrom_length (orders : List ExecutionOrder) :
    ∀ a : Nat, (tradesFrom a orders).length = orders.length := by
  induction orders with
  | nil => intro a; rfl
  | cons order rest ih =>
    intro a
    simp only [tradesFrom, List.length_cons, ih]

theorem tradesFrom_get? (orders : List ExecutionOrder) :
    ∀ (a k : Nat) (order : ExecutionOrder), orders.get? k = some order →
      (tradesFrom a orders).get? k = some (tradeOf order (bookAt (a + k))) := by
  induction orders with
  | nil =>
    intro a k order h
    simp at h
  | cons first rest ih =>
    intro a k order h
    cases k with
    | zero =>
      simp only [List.get?_cons_zero, Option.some.injEq] at h
      rw [h]
      rfl
    | succ k =>
      simp only [List.get?_cons_succ] at h
      simp only [tradesFrom, List.get?_cons_succ]
      rw [ih (a + 1) k order h]
      apply congrArg
      apply congrArg
      apply bookAt_congr
      omega

/-- One call handled in a state with a valid cursor: either the call brings no
order to EXECUTED, nothing is handed to the listeners and the cursor is kept,
or it brings its order to EXECUTED, the trade of that order in the book under
the cursor is handed to every listener, and the cursor moves on by one. -/
theorem handle_executed_step (s : BondExecutionService) (call : ListenerCall ExecutionOrder)
    (hv : cursorValid s) :
    ∃ s2 log, handle s call = .ok (s2, log) ∧ cursorValid s2 ∧ s2.listeners = s.listeners ∧
      ((executedBy s call = none ∧ log = [] ∧
          s2.currentTradeBookIndex = s.currentTradeBookIndex) ∨
        (∃ (order : ExecutionOrder) (c : ListenerCall Trade),
          executedBy s call = some order ∧ log = notifyAll s.listeners c ∧
          c.data = tradeOf order (bookAt s.currentTradeBookIndex) ∧
          s2.currentTradeBookIndex = (s.currentTradeBookIndex + 1) % 3)) := by
  have hexec : ∀ order : ExecutionOrder, ∃ s2 log,
      ExecuteOrder s order .BROKERTEC = .ok (s2, log) ∧ cursorValid s2 ∧
      s2.listeners = s.listeners ∧
      (((if reachesExecuted s order then some order else none) = none ∧ log = [] ∧
          s2.currentTradeBookIndex = s.currentTradeBookIndex) ∨
        (∃ (o : ExecutionOrder) (c : ListenerCall Trade),
          (if reachesExecuted s order then some order else none) = some o ∧
          log = notifyAll s.listeners c ∧
          c.data = tradeOf o (bookAt s.currentTradeBookIndex) ∧
          s2.currentTradeBookIndex = (s.currentTradeBookIndex + 1) % 3)) := by
    intro order
    obtain ⟨hs1, hs2, hs3⟩ := stored_cursor s order
    have hlen : s.tradeBooks.length = 3 := by rw [hv.1]; rfl
    by_cases hr : reachesExecuted s order = true
    · obtain ⟨hd, hf⟩ := (reachesExecuted_iff s order).mp hr
      have hb := get?_of_cursorValid s hv
      refine ⟨_, _, ExecuteOrder_fills s order _ hd hf _ hb, ?_, hs3,
        Or.inr ⟨order, _, by rw [hr]; rfl, rfl, ?_, ?_⟩⟩
      · refine ⟨?_, ?_⟩
        · show (stored s order).tradeBooks = _
          rw [hs1]
          exact hv.1
        · show (s.currentTradeBookIndex + 1) % s.tradeBooks.length < 3
          rw [hlen]
          exact Nat.mod_lt _ (by decide)
      · rw [ListenerCall.data_ite]
      · show (s.currentTradeBookIndex + 1) % s.tradeBooks.length = _
        rw [hlen]
    · have hnone : (if reachesExecuted s order then some order else none) = none := by
        rw [if_neg hr]
      have hnot : ¬ (¬ dropped s order ∧ fills order) := fun h =>
        hr ((reachesExecuted_iff s order).mpr h)
      by_cases hd : dropped s order
      · exact ⟨_, _, ExecuteOrder_dropped s order _ hd, hv, rfl, Or.inl ⟨hnone, rfl, rfl⟩⟩
      · have hf : ¬ fills order := fun hf => hnot ⟨hd, hf⟩
        refine ⟨_, _, ExecuteOrder_not_fills s order _ hd hf, ?_, hs3, Or.inl ⟨hnone, rfl, hs2⟩⟩
        exact ⟨by rw [hs1]; exact hv.1, by rw [hs2]; exact hv.2⟩
  cases call with
  | ProcessAdd data => exact hexec data
  | ProcessUpdate data => exact hexec data
  | ProcessRemove data =>
    simp only [handle, ProcessRemove]
    split
    · exact ⟨_, _, rfl, hv, rfl, Or.inl ⟨rfl, rfl, rfl⟩⟩
    · exact ⟨_, _, rfl, hv, rfl, Or.inl ⟨rfl, rfl, rfl⟩⟩

/-- From a state with a valid cursor any sequence of calls returns, and the
trades a listener receives are those of the orders that reach EXECUTED, in
order, booked in the books of the rotation from the cursor on. -/
theorem deliver_executed (calls : List (ListenerCall ExecutionOrder)) :
    ∀ s : BondExecutionService, cursorValid s →
      ∃ s2 log, deliver s calls = .ok (s2, log) ∧
        ∀ i : Nat, i < s.listeners →
          (received i log).map ListenerCall.data =
            tradesFrom s.currentTradeBookIndex (executedOrders s calls) := by
  induction calls with
  | nil =>
    intro s _
    exact ⟨s, [], rfl, fun i _ => rfl⟩
  | cons call rest ih =>
    intro s hv
    obtain ⟨s1, log1, h1, hv1, hl1, hcase⟩ := handle_executed_step s call hv
    obtain ⟨s3, log3, h3, hrest⟩ := ih s1 hv1
    refine ⟨s3, log1 ++ log3, ?_, ?_⟩
    · simp [deliver, h1, h3, bind, Except.bind, pure, Except.pure]
    · intro i hi
      have hr := hrest i (by rw [hl1]; exact hi)
      rw [received_append, List.map_append, hr]
      simp only [executedOrders, h1]
      rcases hcase with ⟨hex, hlog, hidx⟩ | ⟨order, c, hex, hlog, hdata, hidx⟩
      · rw [hex, hlog, hidx]
        rfl
      · rw [hex, hlog, received_notifyAll_of_lt _ _ _ hi, hidx]
        simp only [List.map_cons, List.map_nil, Option.toList, List.singleton_append, tradesFrom,
          hdata]
        rw [tradesFrom_congr _ ((s.currentTradeBookIndex + 1) % 3) (s.currentTradeBookIndex + 1)
          (Nat.mod_mod _ _)]
        rfl

end BondExecutionService

/-- C7: any sequence of calls (ProcessAdd, ProcessUpdate, ProcessRemove) on a
freshly constructed `BondExecutionService` returns.  Every listener receives
exactly one call for each order that reaches EXECUTED, in the order of the
calls; the call for the k-th such order (k = 0, 1, 2, ..., counted across all
products and order ids) carries the Trade built from that order, and that
Trade is booked in TRSY1, TRSY2 or TRSY3 for k mod 3 = 0, 1, 2 respectively.
Hence among the N trades received the books hold (N+2)/3, (N+1)/3 and N/3
trades, numbers that differ by at most 1, and N is the number of orders that
reached EXECUTED. -/
theorem C7_round_robin_books (listeners : Nat) (calls : List (ListenerCall ExecutionOrder)) :
    ∃ s2 log,
      BondExecutionService.deliver (BondExecutionService.init listeners) calls = .ok (s2, log) ∧
      ∀ i : Nat,
        (i < listeners →
          (received i log).length =
            (BondExecutionService.executedOrders (BondExecutionService.init listeners)
              calls).length ∧
          ∀ (k : Nat) (order : ExecutionOrder),
            (BondExecutionService.executedOrders (BondExecutionService.init listeners)
              calls).get? k = some order →
            ∃ c : ListenerCall Trade, (received i log).get? k = some c ∧
              c.data = ⟨order.product, "TRADE_" ++ order.orderId, order.price, c.data.book,
                order.GetVisibleQuantity, if order.side = .BID then .BUY else .SELL⟩ ∧
              (k % 3 = 0 → c.data.book = "TRSY1") ∧ (k % 3 = 1 → c.data.book = "TRSY2") ∧
              (k % 3 = 2 → c.data.book = "TRSY3")) ∧
        (∀ (k : Nat) (b : String), (booksOf i log).get? k = some b →
          (k % 3 = 0 → b = "TRSY1") ∧ (k % 3 = 1 → b = "TRSY2") ∧ (k % 3 = 2 → b = "TRSY3")) ∧
        (booksOf i log).count "TRSY1" = ((booksOf i log).length + 2) / 3 ∧
        (booksOf i log).count "TRSY2" = ((booksOf i log).length + 1) / 3 ∧
        (booksOf i log).count "TRSY3" = (booksOf i log).length / 3 ∧
        (booksOf i log).count "TRSY1" ≤ (booksOf i log).count "TRSY3" + 1 ∧
        (booksOf i log).count "TRSY2" ≤ (booksOf i log).count "TRSY3" + 1 ∧
        (booksOf i log).count "TRSY1" ≤ (booksOf i log).count "TRSY2" + 1 ∧
        (booksOf i log).count "TRSY3" ≤ (booksOf i log).count "TRSY2" ∧
        (booksOf i log).count "TRSY2" ≤ (booksOf i log).count "TRSY1" := by
  obtain ⟨s2, log, hrun, hbooks⟩ :=
    BondExecutionService.booksOf_deliver calls (BondExecutionService.init listeners)
      (BondExecutionService.cursorValid_init listeners)
  obtain ⟨s3, log3, hrun3, htrades⟩ :=
    BondExecutionService.deliver_executed calls (BondExecutionService.init listeners)
      (BondExecutionService.cursorValid_init listeners)
  rw [hrun] at hrun3
  injection hrun3 with hrun3
  injection hrun3 with _ hlog
  subst hlog
  refine ⟨s2, log, hrun, ?_⟩
  intro i
  have hk : ∀ (k : Nat) (b : String), (booksOf i log).get? k = some b →
      b = BondExecutionService.bookAt k := by
    intro k b h
    have := hbooks i k b h
    simpa [BondExecutionService.init] using this
  have hpattern : ∀ (k : Nat) (b : String), b = BondExecutionService.bookAt k →
      (k % 3 = 0 → b = "TRSY1") ∧ (k % 3 = 1 → b = "TRSY2") ∧ (k % 3 = 2 → b = "TRSY3") := by
    intro k b hb
    refine ⟨?_, ?_, ?_⟩ <;> intro hmod <;> rw [hb] <;> unfold BondExecutionService.bookAt <;>
      rw [hmod]
  have hcount := count_map_bookAt (booksOf i log).length
  rw [← eq_map_bookAt (booksOf i log) hk] at hcount
  obtain ⟨c1, c2, c3⟩ := hcount
  refine ⟨?_, ?_, c1, c2, c3, ?_, ?_, ?_, ?_, ?_⟩
  · intro hi
    have ht : (received i log).map ListenerCall.data =
        BondExecutionService.tradesFrom 0
          (BondExecutionService.executedOrders (BondExecutionService.init listeners) calls) :=
      htrades i hi
    constructor
    · have hlen := congrArg List.length ht
      rw [List.length_map, BondExecutionService.tradesFrom_length] at hlen
      exact hlen
    · intro k order hget
      have hg := BondExecutionService.tradesFrom_get? _ 0 k order hget
      rw [← ht, List.get?_eq_getElem?, List.getElem?_map, Option.map_eq_some'] at hg
      obtain ⟨c, hc, hdata⟩ := hg
      rw [Nat.zero_add] at hdata
      have hbook : c.data.book = BondExecutionService.bookAt k := by rw [hdata]; rfl
      refine ⟨c, by rw [List.get?_eq_getElem?]; exact hc, ?_, hpattern k _ hbook⟩
      rw [hbook, hdata]
      rfl
  · intro k b h
    exact hpattern k b (hk k b h)
  all_goals omega

/-- C7 at six calls on the service constructed with one listener: four MARKET
orders are executed and booked in TRSY1, TRSY2, TRSY3 and TRSY1 again; the
LIMIT order between them is rejected and the child order whose parent is
unknown is dropped, and neither takes a book. -/
theorem C7_round_robin_books_witness :
    BondExecutionService.executedOrders (BondExecutionService.init 1)
        [.ProcessAdd ⟨⟨"T2Y", "TICKER1", 0, (2024, 12, 22)⟩, .BID, "A", .MARKET, 100, 1000000, 0,
            "", false⟩,
         .ProcessAdd ⟨⟨"T3Y", "TICKER2", 0, (2025, 6, 15)⟩, .OFFER, "B", .LIMIT, 100, 1000000, 0,
            "", false⟩,
         .ProcessAdd ⟨⟨"T3Y", "TICKER2", 0, (2025, 6, 15)⟩, .OFFER, "C", .MARKET, 101, 2000000, 0,
            "", false⟩,
         .ProcessUpdate ⟨⟨"T2Y", "TICKER1", 0, (2024, 12, 22)⟩, .BID, "A", .MARKET, 99, 3000000, 0,
            "", false⟩,
         .ProcessAdd ⟨⟨"T2Y", "TICKER1", 0, (2024, 12, 22)⟩, .BID, "D", .MARKET, 99, 3000000, 0,
            "NOPARENT", true⟩,
         .ProcessAdd ⟨⟨"T5Y", "TICKER3", 0, (2027, 1, 1)⟩, .BID, "E", .MARKET, 98, 4000000, 0,
            "", false⟩]
      = [⟨⟨"T2Y", "TICKER1", 0, (2024, 12, 22)⟩, .BID, "A", .MARKET, 100, 1000000, 0, "", false⟩,
         ⟨⟨"T3Y", "TICKER2", 0, (2025, 6, 15)⟩, .OFFER, "C", .MARKET, 101, 2000000, 0, "", false⟩,
         ⟨⟨"T2Y", "TICKER1", 0, (2024, 12, 22)⟩, .BID, "A", .MARKET, 99, 3000000, 0, "", false⟩,
         ⟨⟨"T5Y", "TICKER3", 0, (2027, 1, 1)⟩, .BID, "E", .MARKET, 98, 4000000, 0, "", false⟩] ∧
    ∃ s2 log,
      BondExecutionService.deliver (BondExecutionService.init 1)
        [.ProcessAdd ⟨⟨"T2Y", "TICKER1", 0, (2024, 12, 22)⟩, .BID, "A", .MARKET, 100, 1000000, 0,
            "", false⟩,
         .ProcessAdd ⟨⟨"T3Y", "TICKER2", 0, (2025, 6, 15)⟩, .OFFER, "B", .LIMIT, 100, 1000000, 0,
            "", false⟩,
         .ProcessAdd ⟨⟨"T3Y", "TICKER2", 0, (2025, 6, 15)⟩, .OFFER, "C", .MARKET, 101, 2000000, 0,
            "", false⟩,
         .ProcessUpdate ⟨⟨"T2Y", "TICKER1", 0, (2024, 12, 22)⟩, .BID, "A", .MARKET, 99, 3000000, 0,
            "", false⟩,
         .ProcessAdd ⟨⟨"T2Y", "TICKER1", 0, (2024, 12, 22)⟩, .BID, "D", .MARKET, 99, 3000000, 0,
            "NOPARENT", true⟩,
         .ProcessAdd ⟨⟨"T5Y", "TICKER3", 0, (2027, 1, 1)⟩, .BID, "E", .MARKET, 98, 4000000, 0,
            "", false⟩] = .ok (s2, log) ∧
      (received 0 log).length = 4 ∧
      booksOf 0 log = ["TRSY1", "TRSY2", "TRSY3", "TRSY1"] ∧
      (booksOf 0 log).count "TRSY1" = 2 ∧ (booksOf 0 log).count "TRSY2" = 1 ∧
      (booksOf 0 log).count "TRSY3" = 1 := by
  have hex : BondExecutionService.executedOrders (BondExecutionService.init 1)
        [.ProcessAdd ⟨⟨"T2Y", "TICKER1", 0, (2024, 12, 22)⟩, .BID, "A", .MARKET, 100, 1000000, 0,
            "", false⟩,
         .ProcessAdd ⟨⟨"T3Y", "TICKER2", 0, (2025, 6, 15)⟩, .OFFER, "B", .LIMIT, 100, 1000000, 0,
            "", false⟩,
         .ProcessAdd ⟨⟨"T3Y", "TICKER2", 0, (2025, 6, 15)⟩, .OFFER, "C", .MARKET, 101, 2000000, 0,
            "", false⟩,
         .ProcessUpdate ⟨⟨"T2Y", "TICKER1", 0, (2024, 12, 22)⟩, .BID, "A", .MARKET, 99, 3000000, 0,
            "", false⟩,
         .ProcessAdd ⟨⟨"T2Y", "TICKER1", 0, (2024, 12, 22)⟩, .BID, "D", .MARKET, 99, 3000000, 0,
            "NOPARENT", true⟩,
         .ProcessAdd ⟨⟨"T5Y", "TICKER3", 0, (2027, 1, 1)⟩, .BID, "E", .MARKET, 98, 4000000, 0,
            "", false⟩]
      = [⟨⟨"T2Y", "TICKER1", 0, (2024, 12, 22)⟩, .BID, "A", .MARKET, 100, 1000000, 0, "", false⟩,
         ⟨⟨"T3Y", "TICKER2", 0, (2025, 6, 15)⟩, .OFFER, "C", .MARKET, 101, 2000000, 0, "", false⟩,
         ⟨⟨"T2Y", "TICKER1", 0, (2024, 12, 22)⟩, .BID, "A", .MARKET, 99, 3000000, 0, "", false⟩,
         ⟨⟨"T5Y", "TICKER3", 0, (2027, 1, 1)⟩, .BID, "E", .MARKET, 98, 4000000, 0, "", false⟩] := by
    rfl
  obtain ⟨s2, log, hrun, hall⟩ := C7_round_robin_books 1
    [.ProcessAdd ⟨⟨"T2Y", "TICKER1", 0, (2024, 12, 22)⟩, .BID, "A", .MARKET, 100, 1000000, 0,
        "", false⟩,
     .ProcessAdd ⟨⟨"T3Y", "TICKER2", 0, (2025, 6, 15)⟩, .OFFER, "B", .LIMIT, 100, 1000000, 0,
        "", false⟩,
     .ProcessAdd ⟨⟨"T3Y", "TICKER2", 0, (2025, 6, 15)⟩, .OFFER, "C", .MARKET, 101, 2000000, 0,
        "", false⟩,
     .ProcessUpdate ⟨⟨"T2Y", "TICKER1", 0, (2024, 12, 22)⟩, .BID, "A", .MARKET, 99, 3000000, 0,
        "", false⟩,
     .ProcessAdd ⟨⟨"T2Y", "TICKER1", 0, (2024, 12, 22)⟩, .BID, "D", .MARKET, 99, 3000000, 0,
        "NOPARENT", true⟩,
     .ProcessAdd ⟨⟨"T5Y", "TICKER3", 0, (2027, 1, 1)⟩, .BID, "E", .MARKET, 98, 4000000, 0,
        "", false⟩]
  obtain ⟨hlink, hpat, c1, c2, c3, _⟩ := hall 0
  obtain ⟨hlen, _⟩ := hlink (by decide)
  rw [hex] at hlen
  have hblen : (booksOf 0 log).length = 4 := by
    rw [booksOf, List.length_map]
    exact hlen
  rw [hblen] at c1 c2 c3
  refine ⟨hex, s2, log, hrun, hlen, ?_, c1, c2, c3⟩
  have hk : ∀ (k : Nat) (b : String), (booksOf 0 log).get? k = some b →
      b = BondExecutionService.bookAt k := by
    intro k b h
    obtain ⟨p0, p1, p2⟩ := hpat k b h
    have hcases : k % 3 = 0 ∨ k % 3 = 1 ∨ k % 3 = 2 := by omega
    rcases hcases with hm | hm | hm
    · rw [p0 hm]; unfold BondExecutionService.bookAt; rw [hm]
    · rw [p1 hm]; unfold BondExecutionService.bookAt; rw [hm]
    · rw [p2 hm]; unfold BondExecutionService.bookAt; rw [hm]
  rw [eq_map_bookAt (booksOf 0 log) hk, hblen]
  rfl

/-! ## Algo execution -/

namespace BondAlgoExecutionService

theorem Execute_of_aggresses (s : BondAlgoExecutionService) (product : Bond)
    (bidFront offerFront : Order) (bids offers : List Order)
    (h : offerFront.price - bidFront.price ≤ 1 / 128 + 1 / 1000000000) :
    Execute s ⟨product, bidFront :: bids, offerFront :: offers⟩ =
      ({ s with
          algoExecutionMap := StrMap.emplace s.algoExecutionMap product.GetProductId
            (orderOf s product bidFront offerFront),
          lastAggressBid := !s.lastAggressBid },
        notifyAll s.listeners (.ProcessAdd (orderOf s product bidFront offerFront))) := by
  simp only [Execute, h, if_true, AggressTopOfBook, orderOf]
  cases hl : s.lastAggressBid <;> simp

theorem Execute_of_not_aggresses (s : BondAlgoExecutionService) (data : OrderBook)
    (h : ¬ aggresses data) : Execute s data = (s, []) := by
  obtain ⟨product, bidStack, offerStack⟩ := data
  cases bidStack with
  | nil => rfl
  | cons b bs =>
    cases offerStack with
    | nil => rfl
    | cons o os =>
      simp only [aggresses] at h
      simp only [Execute, h, if_false]

end BondAlgoExecutionService

/-- C10: for every OrderBook delivered to `BondAlgoExecutionService` (ProcessAdd
and ProcessUpdate both run `Execute`), each listener receives exactly one
ExecutionOrder if both stacks are non-empty and (price of the front offer -
price of the front bid) <= 1/128 + 1e-9; otherwise nothing is handed to
anybody and the service's store and aggress-side state are unchanged, in
particular for a book with one or both sides empty; a spread of 4/256 between
the fronts emits nothing and a spread of 1/256 emits one order. -/
theorem C10_tight_spread_aggress (s : BondAlgoExecutionService) (data : OrderBook) :
    BondAlgoExecutionService.ProcessAdd s data = BondAlgoExecutionService.Execute s data ∧
    BondAlgoExecutionService.ProcessUpdate s data = BondAlgoExecutionService.Execute s data ∧
    (BondAlgoExecutionService.aggresses data →
      ∀ i, i < s.listeners → ∃ order : ExecutionOrder,
        received i (BondAlgoExecutionService.Execute s data).2 = [.ProcessAdd order]) ∧
    (¬ BondAlgoExecutionService.aggresses data →
      BondAlgoExecutionService.Execute s data = (s, [])) ∧
    (data.bidStack = [] ∨ data.offerStack = [] → ¬ BondAlgoExecutionService.aggresses data) ∧
    (∀ (b o : Order) (bs os : List Order), data.bidStack = b :: bs → data.offerStack = o :: os →
      (o.price - b.price = 4 / 256 → ¬ BondAlgoExecutionService.aggresses data) ∧
      (o.price - b.price = 1 / 256 → BondAlgoExecutionService.aggresses data)) := by
  refine ⟨rfl, rfl, ?_, BondAlgoExecutionService.Execute_of_not_aggresses s data, ?_, ?_⟩
  · intro h i hi
    obtain ⟨product, bidStack, offerStack⟩ := data
    cases bidStack with
    | nil => exact absurd h (by simp [BondAlgoExecutionService.aggresses])
    | cons b bs =>
      cases offerStack with
      | nil => exact absurd h (by simp [BondAlgoExecutionService.aggresses])
      | cons o os =>
        simp only [BondAlgoExecutionService.aggresses] at h
        refine ⟨BondAlgoExecutionService.orderOf s product b o, ?_⟩
        rw [BondAlgoExecutionService.Execute_of_aggresses s product b o bs os h,
          received_notifyAll_of_lt _ _ _ hi]
  · intro h
    rcases h with h | h
    · simp [BondAlgoExecutionService.aggresses, h]
    · cases hb : data.bidStack <;> simp [BondAlgoExecutionService.aggresses, h, hb]
  · intro b o bs os hb ho
    constructor
    · intro hsp
      simp only [BondAlgoExecutionService.aggresses, hb, ho, hsp]
      norm_num
    · intro hsp
      simp only [BondAlgoExecutionService.aggresses, hb, ho, hsp]
      norm_num

/-! ## Fractional prices -/

theorem digitChar_mem (m : Nat) (h : m < 10) : Nat.digitChar m ∈ decimalDigits := by
  interval_cases m <;> decide

theorem toDigitsCore_mem (fuel : Nat) :
    ∀ (n : Nat) (ds : List Char), (∀ c ∈ ds, c ∈ decimalDigits) →
      ∀ c ∈ Nat.toDigitsCore 10 fuel n ds, c ∈ decimalDigits := by
  induction fuel with
  | zero =>
    intro n ds hds c hc
    exact hds c hc
  | succ fuel ih =>
    intro n ds hds c hc
    have hd : Nat.digitChar (n % 10) ∈ decimalDigits := digitChar_mem _ (Nat.mod_lt _ (by decide))
    have hcons : ∀ c ∈ Nat.digitChar (n % 10) :: ds, c ∈ decimalDigits := by
      intro c hc
      rcases List.mem_cons.mp hc with h | h
      · rw [h]; exact hd
      · exact hds c h
    simp only [Nat.toDigitsCore] at hc
    split at hc
    · exact hcons c hc
    · exact ih _ _ hcons c hc

theorem toDigits_mem (n : Nat) : ∀ c ∈ Nat.toDigits 10 n, c ∈ decimalDigits :=
  toDigitsCore_mem (n + 1) n [] (by simp)

theorem digitChar_value (m : Nat) (h : m < 10) : (Nat.digitChar m).toNat - 48 = m := by
  interval_cases m <;> rfl

theorem toDigitsCore_value (fuel : Nat) :
    ∀ (n : Nat) (ds : List Char), n < fuel →
      (Nat.toDigitsCore 10 fuel n ds).foldl (fun acc c => 10 * acc + (c.toNat - 48)) 0
        = ds.foldl (fun acc c => 10 * acc + (c.toNat - 48)) n := by
  induction fuel with
  | zero => intro n ds h; omega
  | succ fuel ih =>
    intro n ds h
    simp only [Nat.toDigitsCore]
    have hv := digitChar_value (n % 10) (Nat.mod_lt _ (by decide))
    split
    · rename_i h0
      simp only [List.foldl_cons, hv]
      have : n = n % 10 := by omega
      rw [Nat.mul_zero, Nat.zero_add, ← this]
    · rename_i h0
      rw [ih (n / 10) _ (by omega)]
      simp only [List.foldl_cons, hv]
      have : 10 * (n / 10) + n % 10 = n := Nat.div_add_mod n 10
      rw [this]

theorem digitsValue_toDigits (n : Nat) : digitsValue (Nat.toDigits 10 n) = n := by
  unfold digitsValue Nat.toDigits
  rw [toDigitsCore_value (n + 1) n [] (by omega)]
  rfl

theorem toDigitsCore_ne_nil (fuel n : Nat) (ds : List Char) (h : n < fuel) :
    Nat.toDigitsCore 10 fuel n ds ≠ [] := by
  induction fuel generalizing n ds with
  | zero => omega
  | succ fuel ih =>
    simp only [Nat.toDigitsCore]
    split
    · simp
    · rename_i h0
      exact ih _ _ (by omega)

theorem toDigits_ne_nil (n : Nat) : Nat.toDigits 10 n ≠ [] :=
  toDigitsCore_ne_nil (n + 1) n [] (by omega)

/-- `stoi` reads back a text made of decimal digits only. -/
theorem stoi_digits (str : String) (hne : str.data ≠ [])
    (hdig : ∀ c ∈ str.data, c ∈ decimalDigits) (hmax : digitsValue str.data ≤ 2147483647) :
    stoi str = .ok (digitsValue str.data : Int) := by
  have hspace : ∀ c ∈ decimalDigits, isspace c = false := by decide
  have hisd : ∀ c ∈ decimalDigits, c.isDigit = true := by decide
  have hminus : ∀ c ∈ decimalDigits, c ≠ '-' ∧ c ≠ '+' := by decide
  cases hdata : str.data with
  | nil => exact absurd hdata hne
  | cons c cs =>
    rw [hdata] at hdig hmax
    have hc := hdig c (List.mem_cons_self c cs)
    have hdrop : (c :: cs).dropWhile isspace = c :: cs := by
      simp [List.dropWhile, hspace c hc]
    have htake : (c :: cs).takeWhile Char.isDigit = c :: cs :=
      List.takeWhile_eq_self_iff.mpr (fun x hx => hisd x (hdig x hx))
    have hsign : (match c :: cs with
        | '-' :: r => (true, r)
        | '+' :: r => (false, r)
        | _ => (false, c :: cs)) = (false, c :: cs) := by
      obtain ⟨h1, h2⟩ := hminus c hc
      split
      · rename_i r heq
        injection heq with heq _
        exact absurd heq h1
      · rename_i r heq
        injection heq with heq _
        exact absurd heq h2
      · rfl
    simp only [stoi, hdata, hdrop, hsign, htake]
    simp
    exact ⟨by omega, hmax⟩

theorem stoi_toDigits (str : String) (n : Nat) (h : str.data = Nat.toDigits 10 n)
    (hmax : n ≤ 2147483647) : stoi str = .ok (n : Int) := by
  have := stoi_digits str (by rw [h]; exact toDigits_ne_nil n)
    (by rw [h]; exact toDigits_mem n) (by rw [h, digitsValue_toDigits]; exact hmax)
  rw [this, h, digitsValue_toDigits]

set_option maxRecDepth 100000 in
theorem parseFrac_fracChars (k z : Nat) (hk : k < 32) (hz : z < 8) :
    parseFrac ⟨fracChars k z⟩ = .ok (if z = 0 then (0, (k : Int)) else ((k : Int), (z : Int))) := by
  interval_cases k <;> interval_cases z <;> rfl

theorem truncate_grid (n : Nat) : truncate ((n : ℚ) / 256) = ((n / 256 : Nat) : Int) := by
  have h0 : (0 : ℚ) ≤ (n : ℚ) / 256 := by positivity
  have h := Rat.floor_intCast_div_natCast (n : Int) 256
  simp only [Int.cast_natCast, Nat.cast_ofNat] at h
  rw [truncate, if_pos h0, h]
  norm_cast

theorem frac_grid (n : Nat) :
    ((n : ℚ) / 256 - (((n / 256 : Nat) : Int) : ℚ)) * 256 = (((n % 256 : Nat) : Int) : ℚ) := by
  have h := Nat.div_add_mod n 256
  have h2 : (n : ℚ) = 256 * ((n / 256 : Nat) : ℚ) + ((n % 256 : Nat) : ℚ) := by
    exact_mod_cast h.symm
  rw [Int.cast_natCast, Int.cast_natCast, h2]
  ring

theorem cround_intCast (m : Int) : cround (m : ℚ) = (m : ℚ) := by
  unfold cround
  split
  · have : ⌊(m : ℚ) + 1 / 2⌋ = m := by
      rw [Int.floor_eq_iff]
      constructor <;> norm_num
    rw [this]
  · have : ⌈(m : ℚ) - 1 / 2⌉ = m := by
      rw [Int.ceil_eq_iff]
      constructor <;> norm_num
    rw [this]

theorem toString_natCast_data (k : Nat) : (toString ((k : Nat) : Int)).data = Nat.toDigits 10 k :=
  rfl

theorem fracText_grid (n : Nat) :
    (GUIService.fracText ((n : ℚ) / 256)).data =
      Nat.toDigits 10 (n / 256) ++ '-' :: fracChars (n % 256 / 8) (n % 8) := by
  have hm : n % 256 < 256 := Nat.mod_lt _ (by decide)
  have hne : ¬ (((n % 256 : Nat) : Int) = 256) := by omega
  have hdiv : Int.tdiv ((n % 256 : Nat) : Int) 8 = ((n % 256 / 8 : Nat) : Int) :=
    (Int.ofNat_tdiv _ _).symm
  have hmod : Int.tmod ((n % 256 : Nat) : Int) 8 = ((n % 8 : Nat) : Int) := by
    rw [Int.tmod_eq_emod (by omega) (by omega)]
    omega
  have h10 : (((n % 256 / 8 : Nat) : Int) < 10) ↔ n % 256 / 8 < 10 := by omega
  have h4 : (((n % 8 : Nat) : Int) = 4) ↔ n % 8 = 4 := by omega
  have h0 : (((n % 8 : Nat) : Int) = 0) ↔ n % 8 = 0 := by omega
  simp only [GUIService.fracText, truncate_grid, frac_grid, cround_intCast, truncate_intCast,
    hne, if_false, hdiv, hmod, h10, h4, ne_eq, h0, fracChars]
  have hdash : ("-" : String).data = ['-'] := rfl
  have hzero : ("0" : String).data = ['0'] := rfl
  have hplus : ("+" : String).data = ['+'] := rfl
  have h04 : ((0 : Nat) = 4) = False := by decide
  by_cases c10 : n % 256 / 8 < 10 <;> by_cases c4 : n % 8 = 4 <;> by_cases c0 : n % 8 = 0 <;>
    simp only [c10, c4, c0, h04, if_true, if_false, not_true_eq_false, not_false_eq_true,
      String.data_append, toString_natCast_data, hdash, hzero, hplus, List.append_assoc,
      List.cons_append, List.nil_append, List.append_nil, List.singleton_append]

theorem findIdx_digits (ds rest : List Char) (h : ∀ c ∈ ds, c ∈ decimalDigits) :
    (ds ++ '-' :: rest).findIdx (fun d => decide (d = '-')) = ds.length := by
  have hminus : ∀ c ∈ decimalDigits, c ≠ '-' := by decide
  induction ds with
  | nil => simp [List.findIdx_cons]
  | cons c cs ih =>
    have hc : c ≠ '-' := hminus c (h c (List.mem_cons_self c cs))
    have ih2 := ih (fun x hx => h x (List.mem_cons_of_mem c hx))
    simp only [List.cons_append, List.findIdx_cons, hc, decide_False, cond_false, ih2,
      List.length_cons]

theorem ConvertToDouble_of_data (stod : String → Except Error ℚ) (fraction : String) (w : Nat)
    (fr : List Char) (hdata : fraction.data = Nat.toDigits 10 w ++ '-' :: fr)
    (hw : w ≤ 2147483647) :
    BondPricingConnector.ConvertToDouble stod fraction =
      (match parseFrac ⟨fr⟩ with
        | .ok xyz => .ok ((w : ℚ) + (8 * (xyz.1 : ℚ) + (xyz.2 : ℚ)) / 256)
        | .error e => .error e) := by
  have hfind : findChar fraction '-' = (Nat.toDigits 10 w).length := by
    rw [findChar, hdata]
    exact findIdx_digits _ _ (toDigits_mem w)
  have hlen : ¬ ((Nat.toDigits 10 w).length = fraction.data.length) := by
    rw [hdata]
    simp
  have hint : substr fraction 0 (Nat.toDigits 10 w).length = ⟨Nat.toDigits 10 w⟩ := by
    simp [substr, hdata]
  have hfrac : substrFrom fraction ((Nat.toDigits 10 w).length + 1) = ⟨fr⟩ := by
    simp [substrFrom, hdata]
  have hstoi : stoi ⟨Nat.toDigits 10 w⟩ = .ok (w : Int) := stoi_toDigits _ w rfl hw
  simp only [BondPricingConnector.ConvertToDouble, hfind, hlen, if_false, hint, hfrac, hstoi,
    bind, Except.bind]
  unfold parseFrac
  by_cases h2 : fr.length = 2
  · simp only [h2, if_true, bind, Except.bind]
    cases stoi ⟨fr⟩ <;> simp [pure, Except.pure]
  · by_cases h3 : fr.length > 2
    · simp only [h2, if_false, h3, if_true, bind, Except.bind]
      cases stoi (substr ⟨fr⟩ 0 2) <;> simp [pure, Except.pure]
    · simp only [h2, if_false, h3]

/-! ## The text of a price: when the source defines it, and what it is -/

theorem truncate_of_nonneg (x : ℚ) (h : 0 ≤ x) : truncate x = ⌊x⌋ := by
  rw [truncate, if_pos h]

theorem cround_of_nonneg (y : ℚ) (h : 0 ≤ y) : cround y = ((round y : Int) : ℚ) := by
  rw [cround, if_pos h, round_eq]

theorem append_twoDigits (k : Int) (h0 : 0 ≤ k) (h1 : k < 32) (A : String) :
    (if k < 10 then A ++ "0" else A) ++ toString k = A ++ Spec.twoDigits k := by
  interval_cases k
  all_goals first
    | (rw [if_pos (by decide), String.append_assoc]; rfl)
    | (rw [if_neg (by decide)]; rfl)

theorem append_suffix (z : Int) (A : String) :
    (if z = 4 then A ++ "+" else if z ≠ 0 then A ++ toString z else A) =
      A ++ (if z = 4 then "+" else if z ≠ 0 then toString z else "") := by
  by_cases h4 : z = 4
  · rw [if_pos h4, if_pos h4]
  · rw [if_neg h4, if_neg h4]
    by_cases h0 : z ≠ 0
    · rw [if_pos h0, if_pos h0]
    · rw [if_neg h0, if_neg h0, String.append_empty]

theorem round_ticks_bounds (x : ℚ) :
    0 ≤ round ((x - ((⌊x⌋ : Int) : ℚ)) * 256) ∧ round ((x - ((⌊x⌋ : Int) : ℚ)) * 256) ≤ 256 := by
  have h0 : 0 ≤ x - ((⌊x⌋ : Int) : ℚ) := sub_nonneg.mpr (Int.floor_le x)
  have h1 : x - ((⌊x⌋ : Int) : ℚ) < 1 := by
    have := Int.lt_floor_add_one x
    linarith
  rw [round_eq]
  constructor
  · apply Int.floor_nonneg.mpr
    linarith
  · have h2 : (x - ((⌊x⌋ : Int) : ℚ)) * 256 + 1 / 2 < ((257 : Int) : ℚ) := by
      push_cast
      linarith
    have := Int.floor_lt.mpr h2
    omega

theorem fracText_eq_fractionalFormat (x : ℚ) (hx : 0 ≤ x) :
    GUIService.fracText x = Spec.fractionalFormat x := by
  obtain ⟨ht0, ht256⟩ := round_ticks_bounds x
  have hfrac : 0 ≤ (x - ((⌊x⌋ : Int) : ℚ)) * 256 :=
    mul_nonneg (sub_nonneg.mpr (Int.floor_le x)) (by norm_num)
  simp only [GUIService.fracText, Spec.fractionalFormat, truncate_of_nonneg x hx,
    cround_of_nonneg _ hfrac, truncate_intCast]
  by_cases hc : round ((x - ((⌊x⌋ : Int) : ℚ)) * 256) = 256
  · simp only [hc, if_true]
    rw [Int.tdiv_eq_ediv (le_refl 0) (by decide), Int.tmod_eq_emod (le_refl 0) (by decide)]
    have h := append_twoDigits ((0 : Int) / 8) (by decide) (by decide)
      (toString (⌊x⌋ + 1) ++ "-")
    rw [h]
    exact append_suffix _ _
  · simp only [hc, if_false]
    have hlt : round ((x - ((⌊x⌋ : Int) : ℚ)) * 256) < 256 := lt_of_le_of_ne ht256 hc
    rw [Int.tdiv_eq_ediv ht0 (by decide), Int.tmod_eq_emod ht0 (by decide)]
    have h := append_twoDigits (round ((x - ((⌊x⌋ : Int) : ℚ)) * 256) / 8) (by omega) (by omega)
      (toString ⌊x⌋ ++ "-")
    rw [h]
    exact append_suffix _ _

theorem round_ticks_eq_256_iff (x : ℚ) :
    round ((x - ((⌊x⌋ : Int) : ℚ)) * 256) = 256 ↔ 511 / 512 ≤ x - ((⌊x⌋ : Int) : ℚ) := by
  have h1 : x - ((⌊x⌋ : Int) : ℚ) < 1 := by
    have := Int.lt_floor_add_one x
    linarith
  rw [round_eq, Int.floor_eq_iff]
  constructor
  · rintro ⟨h, _⟩
    push_cast at h
    linarith
  · intro h
    constructor
    · push_cast
      linarith
    · push_cast
      linarith

theorem toInt_of_nonneg (x : ℚ) (hx : 0 ≤ x) :
    toInt x = (if ⌊x⌋ ≤ 2147483647 then some ⌊x⌋ else none) := by
  have h0 : (0 : Int) ≤ ⌊x⌋ := Int.floor_nonneg.mpr hx
  simp only [toInt, truncate_of_nonneg x hx]
  by_cases h : ⌊x⌋ ≤ 2147483647
  · rw [if_pos ⟨by omega, h⟩, if_pos h]
  · rw [if_neg (fun hc => h hc.2), if_neg h]

theorem toInt_ticks (x : ℚ) :
    toInt (((round ((x - ((⌊x⌋ : Int) : ℚ)) * 256) : Int) : ℚ)) =
      some (round ((x - ((⌊x⌋ : Int) : ℚ)) * 256)) := by
  obtain ⟨ht0, ht256⟩ := round_ticks_bounds x
  simp only [toInt, truncate_intCast]
  rw [if_pos ⟨by omega, by omega⟩]

/-- Below 2^31 - 1/512 both conversions to `int` and the carry are defined, and
`ConvertToFrac` returns the text built from the truncations. -/
theorem ConvertToFrac_defined (x : ℚ) (hx : 0 ≤ x) (hmax : x < 2147483648 - 1 / 512) :
    GUIService.ConvertToFrac x = some (GUIService.fracText x) := by
  have hfrac : 0 ≤ (x - ((⌊x⌋ : Int) : ℚ)) * 256 :=
    mul_nonneg (sub_nonneg.mpr (Int.floor_le x)) (by norm_num)
  have hfl : ⌊x⌋ ≤ 2147483647 := by
    have h : ⌊x⌋ < 2147483648 := Int.floor_lt.mpr (by push_cast; linarith)
    omega
  have hcarry : round ((x - ((⌊x⌋ : Int) : ℚ)) * 256) = 256 → ⌊x⌋ + 1 ≤ 2147483647 := by
    intro hc
    have h1 := (round_ticks_eq_256_iff x).mp hc
    have h2 : ((⌊x⌋ : Int) : ℚ) < ((2147483647 : Int) : ℚ) := by
      push_cast
      linarith
    have h3 : ⌊x⌋ < 2147483647 := by exact_mod_cast h2
    omega
  have ht := toInt_ticks x
  simp only [GUIService.ConvertToFrac, GUIService.fracText, toInt_of_nonneg x hx, hfl, if_true,
    Option.bind_eq_bind, Option.some_bind, truncate_of_nonneg x hx,
    cround_of_nonneg _ hfrac, ht, truncate_intCast, Option.pure_def]
  by_cases hc : round ((x - ((⌊x⌋ : Int) : ℚ)) * 256) = 256
  · simp only [hc, if_true, hcarry hc, Option.some_bind]
  · simp only [hc, if_false, Option.some_bind]

/-- From 2^31 - 1/512 on, the conversion of the price to `int` or the carry
`++whole` leaves the range of `int`: `ConvertToFrac` has no defined result. -/
theorem ConvertToFrac_undefined (x : ℚ) (hx : 0 ≤ x) (hmax : 2147483648 - 1 / 512 ≤ x) :
    GUIService.ConvertToFrac x = none := by
  by_cases hfl : ⌊x⌋ ≤ 2147483647
  · have hge : (2147483647 : Int) ≤ ⌊x⌋ := Int.le_floor.mpr (by push_cast; linarith)
    have heq : ⌊x⌋ = 2147483647 := le_antisymm hfl hge
    have hc : round ((x - ((⌊x⌋ : Int) : ℚ)) * 256) = 256 := by
      rw [round_ticks_eq_256_iff, heq]
      push_cast
      linarith
    have hno : ¬ (⌊x⌋ + 1 ≤ 2147483647) := by omega
    have hfrac : 0 ≤ (x - ((⌊x⌋ : Int) : ℚ)) * 256 :=
      mul_nonneg (sub_nonneg.mpr (Int.floor_le x)) (by norm_num)
    have ht := toInt_ticks x
    rw [hc] at ht
    simp only [GUIService.ConvertToFrac, toInt_of_nonneg x hx, hfl, if_true,
      Option.bind_eq_bind, Option.some_bind, cround_of_nonneg _ hfrac, ht, hc, hno, if_false,
      Option.none_bind]
  · simp only [GUIService.ConvertToFrac, toInt_of_nonneg x hx, hfl, if_false,
      Option.bind_eq_bind, Option.none_bind]

/-- What the parser reads back from the text of a price on the 1/256 grid: the
whole part plus, in 256ths, the 32nds taken as 256ths when there are no odd
256ths, and the full count of 256ths otherwise. -/
theorem ConvertToDouble_fracText_grid (stod : String → Except Error ℚ) (n : Nat)
    (hrange : n / 256 ≤ 2147483647) :
    BondPricingConnector.ConvertToDouble stod (GUIService.fracText ((n : ℚ) / 256)) =
      .ok (((n / 256 : Nat) : ℚ) +
        (if n % 8 = 0 then ((n % 256 / 8 : Nat) : ℚ)
          else 8 * ((n % 256 / 8 : Nat) : ℚ) + ((n % 8 : Nat) : ℚ)) / 256) := by
  have hk : n % 256 / 8 < 32 := by omega
  have hz : n % 8 < 8 := Nat.mod_lt _ (by decide)
  rw [ConvertToDouble_of_data stod _ (n / 256) _ (fracText_grid n) hrange,
    parseFrac_fracChars _ _ hk hz]
  by_cases h0 : n % 8 = 0
  · simp only [h0, if_true, Int.cast_natCast, Int.cast_zero, mul_zero, zero_add]
  · simp only [h0, if_false, Int.cast_natCast]

/-- A price on the 1/256 grid whose whole part is within the range of `int` has
a defined text. -/
theorem ConvertToFrac_grid (n : Nat) (hrange : n / 256 ≤ 2147483647) :
    GUIService.ConvertToFrac ((n : ℚ) / 256) = some (GUIService.fracText ((n : ℚ) / 256)) := by
  apply ConvertToFrac_defined _ (by positivity)
  have h : n + 1 ≤ 2147483648 * 256 := by omega
  have h2 : (n : ℚ) + 1 ≤ 2147483648 * 256 := by exact_mod_cast h
  rw [div_lt_iff₀ (by norm_num)]
  linarith

/-- C2 (as amended): for every non-negative price `x = n/256` below 2^31 whose
number of 256ths within the unit, `n mod 256`, is zero or not a multiple of 8,
`GUIService::ConvertToFrac(x)` produces a text, and parsing that text with
`BondPricingConnector::ConvertToDouble` returns exactly `x`. -/
theorem C2_roundtrip_on_odd_ticks (stod : String → Except Error ℚ) (n : Nat)
    (hrange : n / 256 ≤ 2147483647) (hticks : n % 256 = 0 ∨ n % 8 ≠ 0) :
    (GUIService.ConvertToFrac ((n : ℚ) / 256)).map (BondPricingConnector.ConvertToDouble stod) =
      some (.ok ((n : ℚ) / 256)) := by
  rw [ConvertToFrac_grid n hrange, Option.map_some', ConvertToDouble_fracText_grid stod n hrange]
  have h := Nat.div_add_mod n 256
  have h2 : (n : ℚ) = 256 * ((n / 256 : Nat) : ℚ) + ((n % 256 : Nat) : ℚ) := by
    exact_mod_cast h.symm
  congr 2
  rcases hticks with h0 | h0
  · have h8 : n % 8 = 0 := by omega
    have hk : n % 256 / 8 = 0 := by omega
    rw [if_pos h8, hk]
    conv_rhs => rw [h2]
    rw [h0]
    push_cast
    ring
  · rw [if_neg h0]
    have h3 : 8 * (n % 256 / 8) + n % 8 = n % 256 := by omega
    have h4 : 8 * ((n % 256 / 8 : Nat) : ℚ) + ((n % 8 : Nat) : ℚ) = ((n % 256 : Nat) : ℚ) := by
      exact_mod_cast h3
    rw [h4]
    conv_rhs => rw [h2]
    ring

/-- C2 as amended, at the price 99.515625 = 25476/256, written `99-16+`. -/
theorem C2_roundtrip_on_odd_ticks_witness :
    (GUIService.ConvertToFrac (((25476 : Nat) : ℚ) / 256)).map
        (BondPricingConnector.ConvertToDouble (fun _ => .error .invalid_argument)) =
      some (.ok (((25476 : Nat) : ℚ) / 256)) :=
  C2_roundtrip_on_odd_ticks (fun _ => .error .invalid_argument) 25476 (by decide) (by decide)

/-- C2 fails as stated: the price 99.5 = 25472/256 is on the 1/256 grid and is
written `99-16`, which the parser reads as 99 + 16/256 = 99.0625. -/
theorem C2_roundtrip_counterexample :
    GUIService.ConvertToFrac (((25472 : Nat) : ℚ) / 256) = some "99-16" ∧
    (GUIService.ConvertToFrac (((25472 : Nat) : ℚ) / 256)).map
        (BondPricingConnector.ConvertToDouble (fun _ => .error .invalid_argument)) =
      some (.ok (1585 / 16)) ∧
    (GUIService.ConvertToFrac (((25472 : Nat) : ℚ) / 256)).map
        (BondPricingConnector.ConvertToDouble (fun _ => .error .invalid_argument)) ≠
      some (.ok (((25472 : Nat) : ℚ) / 256)) := by
  have hdef := ConvertToFrac_grid 25472 (by decide)
  have h := ConvertToDouble_fracText_grid (fun _ => .error .invalid_argument) 25472
    (by decide)
  have hv : (((25472 / 256 : Nat) : ℚ) +
      (if 25472 % 8 = 0 then ((25472 % 256 / 8 : Nat) : ℚ)
        else 8 * ((25472 % 256 / 8 : Nat) : ℚ) + ((25472 % 8 : Nat) : ℚ)) / 256) = 1585 / 16 := by
    norm_num
  rw [hv] at h
  have htext : GUIService.fracText (((25472 : Nat) : ℚ) / 256) = "99-16" := by
    apply String.ext
    rw [fracText_grid]
    rfl
  rw [hdef, Option.map_some', h]
  refine ⟨by rw [htext], rfl, ?_⟩
  intro heq
  injection heq with heq
  injection heq with heq
  norm_num at heq

/-! ## Market data -/

namespace BondMarketDataService

theorem AggregateDepth_stored (s : BondMarketDataService) (productId : String)
    (book aggregated : OrderBook)
    (hbook : StrMap.find s.orderBookMap productId = some book)
    (hagg : StrMap.find s.aggregatedOrderBookMap productId = some aggregated) :
    AggregateDepth s productId = .ok (s, aggregated) := by
  simp only [AggregateDepth, hbook, StrMap.emplace, hagg, StrMap.at, bind, Except.bind, pure,
    Except.pure]

theorem OnMessage_stored (s : BondMarketDataService) (data book aggregated : OrderBook)
    (hbook : StrMap.find s.orderBookMap data.product.GetProductId = some book)
    (hagg : StrMap.find s.aggregatedOrderBookMap data.product.GetProductId = some aggregated) :
    OnMessage s data = .ok (s, notifyAll s.listeners (.ProcessUpdate data)) := by
  have h1 : ({ s with orderBookMap := s.orderBookMap } : BondMarketDataService) = s := rfl
  simp only [OnMessage, hbook, StrMap.emplace, h1, AggregateDepth_stored s _ book aggregated hbook hagg,
    bind, Except.bind, pure, Except.pure]
  rfl

end BondMarketDataService

/-- C4 (the code departs from the claim): when the product of the incoming
OrderBook already has a stored book and an aggregated view, `OnMessage` leaves
both maps as they were, since `emplace` keeps the existing entries, and fires
ProcessUpdate; `AggregateDepth(productId)` then still returns the earlier
aggregated view, whatever the book just received contains. -/
theorem C4_aggregate_kept_on_update (s : BondMarketDataService) (data book aggregated : OrderBook)
    (hbook : StrMap.find s.orderBookMap data.product.GetProductId = some book)
    (hagg : StrMap.find s.aggregatedOrderBookMap data.product.GetProductId = some aggregated) :
    BondMarketDataService.OnMessage s data
      = .ok (s, notifyAll s.listeners (.ProcessUpdate data)) ∧
    BondMarketDataService.AggregateDepth s data.product.GetProductId = .ok (s, aggregated) ∧
    BondMarketDataService.GetData s data.product.GetProductId = .ok book :=
  ⟨BondMarketDataService.OnMessage_stored s data book aggregated hbook hagg,
    BondMarketDataService.AggregateDepth_stored s _ book aggregated hbook hagg,
    by simp [BondMarketDataService.GetData, hbook]⟩

/-- C4 at the failing input: a service that has received for T2Y the book with
one bid 99 x 100 and one offer 101 x 20 then receives for T2Y the book with one
bid 98 x 700 and one offer 103 x 900; the aggregated view still holds the bid
99 x 100 and the offer 101 x 20, whose quantities 100 and 20 are not the totals
700 and 900 of the book just received. -/
theorem C4_aggregate_kept_on_update_witness :
    BondMarketDataService.OnMessage ⟨[], [], 1⟩
        ⟨⟨"T2Y", "TICKER1", 0, (2024, 12, 22)⟩, [⟨99, 100, .BID⟩], [⟨101, 20, .OFFER⟩]⟩
      = .ok (⟨[("T2Y", ⟨⟨"T2Y", "TICKER1", 0, (2024, 12, 22)⟩, [⟨99, 100, .BID⟩],
                [⟨101, 20, .OFFER⟩]⟩)],
              [("T2Y", ⟨⟨"T2Y", "TICKER1", 0, (2024, 12, 22)⟩, [⟨99, 100, .BID⟩],
                [⟨101, 20, .OFFER⟩]⟩)], 1⟩,
            notifyAll 1 (.ProcessAdd
              ⟨⟨"T2Y", "TICKER1", 0, (2024, 12, 22)⟩, [⟨99, 100, .BID⟩], [⟨101, 20, .OFFER⟩]⟩)) ∧
    BondMarketDataService.AggregateDepth
        ⟨[("T2Y", ⟨⟨"T2Y", "TICKER1", 0, (2024, 12, 22)⟩, [⟨99, 100, .BID⟩], [⟨101, 20, .OFFER⟩]⟩)],
          [("T2Y", ⟨⟨"T2Y", "TICKER1", 0, (2024, 12, 22)⟩, [⟨99, 100, .BID⟩], [⟨101, 20, .OFFER⟩]⟩)],
          1⟩
        (Bond.GetProductId (OrderBook.product
          ⟨⟨"T2Y", "TICKER1", 0, (2024, 12, 22)⟩, [⟨98, 700, .BID⟩], [⟨103, 900, .OFFER⟩]⟩))
      = .ok (⟨[("T2Y", ⟨⟨"T2Y", "TICKER1", 0, (2024, 12, 22)⟩, [⟨99, 100, .BID⟩],
                [⟨101, 20, .OFFER⟩]⟩)],
              [("T2Y", ⟨⟨"T2Y", "TICKER1", 0, (2024, 12, 22)⟩, [⟨99, 100, .BID⟩],
                [⟨101, 20, .OFFER⟩]⟩)], 1⟩,
            ⟨⟨"T2Y", "TICKER1", 0, (2024, 12, 22)⟩, [⟨99, 100, .BID⟩], [⟨101, 20, .OFFER⟩]⟩) ∧
    totalQuantity [(⟨99, 100, .BID⟩ : Order)] ≠ totalQuantity [(⟨98, 700, .BID⟩ : Order)] ∧
    totalQuantity [(⟨101, 20, .OFFER⟩ : Order)] ≠ totalQuantity [(⟨103, 900, .OFFER⟩ : Order)] := by
  refine ⟨?_, (C4_aggregate_kept_on_update
    ⟨[("T2Y", ⟨⟨"T2Y", "TICKER1", 0, (2024, 12, 22)⟩, [⟨99, 100, .BID⟩], [⟨101, 20, .OFFER⟩]⟩)],
      [("T2Y", ⟨⟨"T2Y", "TICKER1", 0, (2024, 12, 22)⟩, [⟨99, 100, .BID⟩], [⟨101, 20, .OFFER⟩]⟩)],
      1⟩
    ⟨⟨"T2Y", "TICKER1", 0, (2024, 12, 22)⟩, [⟨98, 700, .BID⟩], [⟨103, 900, .OFFER⟩]⟩
    ⟨⟨"T2Y", "TICKER1", 0, (2024, 12, 22)⟩, [⟨99, 100, .BID⟩], [⟨101, 20, .OFFER⟩]⟩
    ⟨⟨"T2Y", "TICKER1", 0, (2024, 12, 22)⟩, [⟨99, 100, .BID⟩], [⟨101, 20, .OFFER⟩]⟩
    rfl rfl).2.1, by decide, by decide⟩
  simp [BondMarketDataService.OnMessage, BondMarketDataService.AggregateDepth, StrMap.find,
    StrMap.emplace, StrMap.at, sort, PriceMap.add, Bond.GetProductId, bind, Except.bind, pure,
    Except.pure]

namespace PriceMap

theorem mem_add (lt : ℚ → ℚ → Bool) (m : PriceMap) (key : ℚ) (quantity : Int) :
    ∀ y ∈ add lt m key quantity, y.1 = key ∨ ∃ z ∈ m, z.1 = y.1 := by
  induction m with
  | nil =>
    intro y hy
    simp only [add, List.mem_singleton] at hy
    exact Or.inl (by rw [hy])
  | cons kv rest ih =>
    obtain ⟨k, v⟩ := kv
    intro y hy
    simp only [add] at hy
    split at hy
    · rcases List.mem_cons.mp hy with h | h
      · exact Or.inl (by rw [h])
      · exact Or.inr ⟨y, h, rfl⟩
    · split at hy
      · rcases List.mem_cons.mp hy with h | h
        · exact Or.inr ⟨(k, v), List.mem_cons_self _ _, by rw [h]⟩
        · rcases ih y h with h2 | ⟨z, hz, hz2⟩
          · exact Or.inl h2
          · exact Or.inr ⟨z, List.mem_cons_of_mem _ hz, hz2⟩
      · rcases List.mem_cons.mp hy with h | h
        · exact Or.inr ⟨(k, v), List.mem_cons_self _ _, by rw [h]⟩
        · exact Or.inr ⟨y, List.mem_cons_of_mem _ h, rfl⟩

theorem pairwise_add (lt : ℚ → ℚ → Bool)
    (htrans : ∀ a b c, lt a b = true → lt b c = true → lt a c = true)
    (m : PriceMap) (key : ℚ) (quantity : Int)
    (hm : m.Pairwise (fun x y => lt x.1 y.1 = true)) :
    (add lt m key quantity).Pairwise (fun x y => lt x.1 y.1 = true) := by
  induction m with
  | nil => simp [add]
  | cons kv rest ih =>
    obtain ⟨k, v⟩ := kv
    rw [List.pairwise_cons] at hm
    obtain ⟨hhead, htail⟩ := hm
    simp only [add]
    split
    · rename_i hlt
      rw [List.pairwise_cons]
      refine ⟨?_, List.pairwise_cons.mpr ⟨hhead, htail⟩⟩
      intro y hy
      rcases List.mem_cons.mp hy with h | h
      · rw [h]; exact hlt
      · exact htrans _ _ _ hlt (hhead y h)
    · split
      · rename_i hlt
        rw [List.pairwise_cons]
        refine ⟨?_, ih htail⟩
        intro y hy
        rcases mem_add lt rest key quantity y hy with h | ⟨z, hz, hz2⟩
        · rw [h]; exact hlt
        · rw [← hz2]; exact hhead z hz
      · rw [List.pairwise_cons]
        exact ⟨hhead, htail⟩

theorem sum_add (lt : ℚ → ℚ → Bool) (m : PriceMap) (key : ℚ) (quantity : Int) :
    ((add lt m key quantity).map Prod.snd).sum = (m.map Prod.snd).sum + quantity := by
  induction m with
  | nil => simp [add]
  | cons kv rest ih =>
    obtain ⟨k, v⟩ := kv
    simp only [add]
    split
    · simp only [List.map_cons, List.sum_cons]; omega
    · split
      · simp only [List.map_cons, List.sum_cons, ih]; omega
      · simp only [List.map_cons, List.sum_cons]; omega

theorem foldl_add (lt : ℚ → ℚ → Bool)
    (htrans : ∀ a b c, lt a b = true → lt b c = true → lt a c = true)
    (stack : List Order) :
    ∀ m : PriceMap, m.Pairwise (fun x y => lt x.1 y.1 = true) →
      (stack.foldl (fun m order => add lt m order.price order.quantity) m).Pairwise
        (fun x y => lt x.1 y.1 = true) ∧
      ((stack.foldl (fun m order => add lt m order.price order.quantity) m).map Prod.snd).sum
        = (m.map Prod.snd).sum + totalQuantity stack := by
  induction stack with
  | nil =>
    intro m hm
    exact ⟨hm, by simp [totalQuantity]⟩
  | cons o rest ih =>
    intro m hm
    obtain ⟨h1, h2⟩ := ih (add lt m o.price o.quantity) (pairwise_add lt htrans m _ _ hm)
    refine ⟨h1, ?_⟩
    simp only [List.foldl_cons]
    rw [h2, sum_add]
    simp only [totalQuantity, List.map_cons, List.sum_cons]
    omega

end PriceMap

theorem totalQuantity_sort (comp : Order → Order → Bool) (stack : List Order) :
    totalQuantity (sort comp stack) = totalQuantity stack := by
  unfold totalQuantity sort
  exact ((List.perm_insertionSort _ stack).map _).sum_eq

namespace BondMarketDataService

theorem viewOf_sorted (orderBook : OrderBook) :
    (viewOf orderBook).bidStack.Pairwise (fun a b => a.price > b.price) ∧
    (viewOf orderBook).offerStack.Pairwise (fun a b => a.price < b.price) ∧
    totalQuantity (viewOf orderBook).bidStack = totalQuantity orderBook.bidStack ∧
    totalQuantity (viewOf orderBook).offerStack = totalQuantity orderBook.offerStack := by
  have hgt : ∀ a b c : ℚ, decide (a > b) = true → decide (b > c) = true → decide (a > c) = true := by
    intro a b c h1 h2
    simp only [decide_eq_true_eq] at h1 h2 ⊢
    exact lt_trans h2 h1
  have hlt : ∀ a b c : ℚ, decide (a < b) = true → decide (b < c) = true → decide (a < c) = true := by
    intro a b c h1 h2
    simp only [decide_eq_true_eq] at h1 h2 ⊢
    exact lt_trans h1 h2
  obtain ⟨pb, sb⟩ := PriceMap.foldl_add (fun a b => decide (a > b)) hgt orderBook.bidStack []
    List.Pairwise.nil
  obtain ⟨po, so⟩ := PriceMap.foldl_add (fun a b => decide (a < b)) hlt orderBook.offerStack []
    List.Pairwise.nil
  have hcomp1 : (fun o : Order => o.quantity) ∘
      (fun entry : ℚ × Int => (⟨entry.1, entry.2, .BID⟩ : Order)) = Prod.snd := rfl
  have hcomp2 : (fun o : Order => o.quantity) ∘
      (fun entry : ℚ × Int => (⟨entry.1, entry.2, .OFFER⟩ : Order)) = Prod.snd := rfl
  refine ⟨?_, ?_, ?_, ?_⟩
  · exact List.pairwise_map.mpr (pb.imp (fun h => by simpa using h))
  · exact List.pairwise_map.mpr (po.imp (fun h => by simpa using h))
  · simp only [viewOf, totalQuantity, List.map_map, hcomp1]
    rw [sb]
    simp [totalQuantity]
  · simp only [viewOf, totalQuantity, List.map_map, hcomp2]
    rw [so]
    simp [totalQuantity]

theorem AggregateDepth_eq (s : BondMarketDataService) (productId : String) (orderBook : OrderBook)
    (hbook : StrMap.find s.orderBookMap productId = some orderBook) :
    AggregateDepth s productId =
      (StrMap.at (StrMap.emplace s.aggregatedOrderBookMap productId (viewOf orderBook))
        productId).map
        (fun result =>
          ({ s with aggregatedOrderBookMap :=
              StrMap.emplace s.aggregatedOrderBookMap productId (viewOf orderBook) }, result)) := by
  simp only [AggregateDepth, hbook, viewOf, bind, Except.bind, pure, Except.pure]
  cases StrMap.at (StrMap.emplace s.aggregatedOrderBookMap productId
    ⟨orderBook.product,
      (orderBook.bidStack.foldl
        (fun m order => PriceMap.add (fun a b => decide (a > b)) m order.price order.quantity)
        []).map (fun entry => (⟨entry.1, entry.2, .BID⟩ : Order)),
      (orderBook.offerStack.foldl
        (fun m order => PriceMap.add (fun a b => decide (a < b)) m order.price order.quantity)
        []).map (fun entry => (⟨entry.1, entry.2, .OFFER⟩ : Order))⟩) productId <;> rfl

/-- For a product seen for the first time the aggregated view that `OnMessage`
stores, and that `AggregateDepth` then returns, has its bids in strictly
descending and its offers in strictly ascending price order, hence no price
twice on a side, and on each side its quantities sum to the total quantity of
that side of the book received. -/
theorem OnMessage_first_book (s : BondMarketDataService) (data : OrderBook)
    (hbook : StrMap.find s.orderBookMap data.product.GetProductId = none)
    (hagg : StrMap.find s.aggregatedOrderBookMap data.product.GetProductId = none) :
    ∃ s2 view,
      OnMessage s data = .ok (s2, notifyAll s.listeners (.ProcessAdd data)) ∧
      AggregateDepth s2 data.product.GetProductId = .ok (s2, view) ∧
      view.bidStack.Pairwise (fun a b => a.price > b.price) ∧
      view.offerStack.Pairwise (fun a b => a.price < b.price) ∧
      totalQuantity view.bidStack = totalQuantity data.bidStack ∧
      totalQuantity view.offerStack = totalQuantity data.offerStack := by
  have hfind1 := StrMap.find_emplace_new s.orderBookMap data.product.GetProductId
    (sortedBook data) hbook
  have hfind2 := StrMap.find_emplace_new s.aggregatedOrderBookMap data.product.GetProductId
    (viewOf (sortedBook data)) hagg
  obtain ⟨v1, v2, v3, v4⟩ := viewOf_sorted (sortedBook data)
  refine ⟨⟨StrMap.emplace s.orderBookMap data.product.GetProductId (sortedBook data),
      StrMap.emplace s.aggregatedOrderBookMap data.product.GetProductId (viewOf (sortedBook data)),
      s.listeners⟩, viewOf (sortedBook data), ?_, ?_, v1, v2, ?_, ?_⟩
  · have hagg1 := AggregateDepth_eq
      ⟨StrMap.emplace s.orderBookMap data.product.GetProductId (sortedBook data),
        s.aggregatedOrderBookMap, s.listeners⟩
      data.product.GetProductId (sortedBook data) hfind1
    have hvalue : OnMessage s data =
        (AggregateDepth
          ⟨StrMap.emplace s.orderBookMap data.product.GetProductId (sortedBook data),
            s.aggregatedOrderBookMap, s.listeners⟩
          data.product.GetProductId).bind
          (fun r => .ok (r.1, notifyAll s.listeners (.ProcessAdd data))) := by
      simp only [OnMessage, hbook, sortedBook, Option.isNone_none, if_true, bind, pure,
        Except.pure]
    rw [hvalue, hagg1]
    simp only [StrMap.at, hfind2, Except.map, Except.bind]
  · rw [AggregateDepth_eq _ _ (sortedBook data) hfind1]
    simp only [StrMap.emplace_of_some _ _ _ _ hfind2, StrMap.at, hfind2, Except.map]
  · rw [v3]
    exact totalQuantity_sort _ _
  · rw [v4]
    exact totalQuantity_sort _ _

end BondMarketDataService

/-! ## Algo execution: alternation and the emitted order -/

theorem aggressSideAt_succ (last : Bool) (k : Nat) :
    aggressSideAt (!last) k = aggressSideAt last (k + 1) := by
  have h : (k + 1) % 2 = 0 ↔ ¬ k % 2 = 0 := by omega
  cases last <;> by_cases hk : k % 2 = 0 <;> simp [aggressSideAt, hk, h]

theorem sidesOf_append (i : Nat) (l1 l2 : CallLog ExecutionOrder) :
    sidesOf i (l1 ++ l2) = sidesOf i l1 ++ sidesOf i l2 := by
  simp [sidesOf, received_append]

namespace BondAlgoExecutionService

theorem orderOf_side (s : BondAlgoExecutionService) (product : Bond) (b o : Order) :
    (orderOf s product b o).side = aggressSideAt s.lastAggressBid 0 := by
  cases h : s.lastAggressBid <;> simp [orderOf, aggressSideAt, h]

/-- One order book handled: either nothing is emitted and the flag is kept, or
one order is handed to every listener, on the side fixed by the flag, and the
flag is flipped. -/
theorem Execute_step (s : BondAlgoExecutionService) (data : OrderBook) :
    (Execute s data).1.listeners = s.listeners ∧
    (((Execute s data).2 = [] ∧ (Execute s data).1.lastAggressBid = s.lastAggressBid) ∨
      (∃ order : ExecutionOrder, (Execute s data).2 = notifyAll s.listeners (.ProcessAdd order) ∧
        order.side = aggressSideAt s.lastAggressBid 0 ∧
        (Execute s data).1.lastAggressBid = !s.lastAggressBid)) := by
  by_cases h : aggresses data
  · obtain ⟨product, bidStack, offerStack⟩ := data
    cases bidStack with
    | nil => exact absurd h (by simp [aggresses])
    | cons b bs =>
      cases offerStack with
      | nil => exact absurd h (by simp [aggresses])
      | cons o os =>
        simp only [aggresses] at h
        rw [Execute_of_aggresses s product b o bs os h]
        exact ⟨rfl, Or.inr ⟨_, rfl, orderOf_side s product b o, rfl⟩⟩
  · rw [Execute_of_not_aggresses s data h]
    exact ⟨rfl, Or.inl ⟨rfl, rfl⟩⟩

theorem handle_book_step (s : BondAlgoExecutionService) (call : ListenerCall OrderBook) :
    (handle s call).1.listeners = s.listeners ∧
    (((handle s call).2 = [] ∧ (handle s call).1.lastAggressBid = s.lastAggressBid) ∨
      (∃ order : ExecutionOrder, (handle s call).2 = notifyAll s.listeners (.ProcessAdd order) ∧
        order.side = aggressSideAt s.lastAggressBid 0 ∧
        (handle s call).1.lastAggressBid = !s.lastAggressBid)) := by
  cases call with
  | ProcessAdd data => exact Execute_step s data
  | ProcessUpdate data => exact Execute_step s data
  | ProcessRemove data => exact ⟨rfl, Or.inl ⟨rfl, rfl⟩⟩

theorem sidesOf_deliver_of_not_lt (i : Nat) (calls : List (ListenerCall OrderBook)) :
    ∀ s : BondAlgoExecutionService, ¬ i < s.listeners → sidesOf i (deliver s calls).2 = [] := by
  induction calls with
  | nil => intro s _; rfl
  | cons call rest ih =>
    intro s hi
    obtain ⟨hl, hcase⟩ := handle_book_step s call
    simp only [deliver, sidesOf_append]
    rw [ih _ (by rw [hl]; exact hi)]
    rcases hcase with ⟨hlog, _⟩ | ⟨order, hlog, _, _⟩
    · rw [hlog]; rfl
    · rw [hlog]
      simp [sidesOf, received_notifyAll, hi]

/-- From any state, the order number `k` received by a listener aggresses the
side fixed by the flag of that state and by `k`. -/
theorem sidesOf_deliver (calls : List (ListenerCall OrderBook)) :
    ∀ (s : BondAlgoExecutionService) (i k : Nat) (side : PricingSide),
      (sidesOf i (deliver s calls).2).get? k = some side →
      side = aggressSideAt s.lastAggressBid k := by
  induction calls with
  | nil =>
    intro s i k side h
    simp [deliver, sidesOf, received] at h
  | cons call rest ih =>
    intro s i k side h
    obtain ⟨hl, hcase⟩ := handle_book_step s call
    simp only [deliver, sidesOf_append] at h
    rcases hcase with ⟨hlog, hflag⟩ | ⟨order, hlog, hside, hflag⟩
    · rw [hlog] at h
      simp only [sidesOf, received_nil, List.map_nil, List.nil_append] at h
      have := ih _ i k side h
      rw [hflag] at this
      exact this
    · by_cases hi : i < s.listeners
      · have hone : sidesOf i (handle s call).2 = [aggressSideAt s.lastAggressBid 0] := by
          rw [hlog]
          simp [sidesOf, received_notifyAll, hi, hside, ListenerCall.data]
        rw [hone] at h
        cases k with
        | zero =>
          simp only [List.singleton_append, List.get?_cons_zero, Option.some.injEq] at h
          exact h.symm
        | succ k =>
          simp only [List.singleton_append, List.get?_cons_succ] at h
          have := ih _ i k side h
          rw [hflag, aggressSideAt_succ] at this
          exact this
      · have h1 : sidesOf i (handle s call).2 = [] := by
          rw [hlog]
          simp [sidesOf, received_notifyAll, hi]
        rw [h1, sidesOf_deliver_of_not_lt i rest _ (by rw [hl]; exact hi)] at h
        simp at h

end BondAlgoExecutionService

/-- C11: across the whole `BondAlgoExecutionService`, not per product, the
order number `k` (counted from zero) that a listener receives, over any
sequence of ProcessAdd, ProcessUpdate and ProcessRemove calls on the service as
constructed, aggresses the BID side when `k` is even, that is for the 1st, 3rd,
... order, and the OFFER side when `k` is odd; an order book that emits
nothing, and a ProcessRemove, leave the alternation flag as it was. -/
theorem C11_aggress_side_alternates (listeners : Nat) (calls : List (ListenerCall OrderBook))
    (i : Nat) :
    (∀ (k : Nat) (side : PricingSide),
      (sidesOf i (BondAlgoExecutionService.deliver
        (BondAlgoExecutionService.init listeners) calls).2).get? k = some side →
      side = (if k % 2 = 0 then .BID else .OFFER)) ∧
    (∀ (s : BondAlgoExecutionService) (data : OrderBook),
      ¬ BondAlgoExecutionService.aggresses data →
      (BondAlgoExecutionService.Execute s data).1.lastAggressBid = s.lastAggressBid) ∧
    (∀ (s : BondAlgoExecutionService) (data : OrderBook),
      (BondAlgoExecutionService.ProcessRemove s data).1.lastAggressBid = s.lastAggressBid) := by
  refine ⟨?_, ?_, ?_⟩
  · intro k side h
    have h2 := BondAlgoExecutionService.sidesOf_deliver calls _ i k side h
    rw [h2]
    by_cases hk : k % 2 = 0 <;> simp [aggressSideAt, BondAlgoExecutionService.init, hk]
  · intro s data h
    rw [BondAlgoExecutionService.Execute_of_not_aggresses s data h]
  · intro s data
    rfl

/-- C12: every ExecutionOrder that `BondAlgoExecutionService::Execute` hands to a
listener has type MARKET, OrderId equal to the book's ProductId, the book's
product, hidden quantity 0, empty parentOrderId, isChild false, the side given
by the alternation flag (BID when the last aggress was not on the bid, OFFER
otherwise), and price and visible quantity equal to those of the front order
of that side's stack in the book received. -/
theorem C12_emitted_order_fields (s : BondAlgoExecutionService) (data : OrderBook) (i : Nat)
    (c : ListenerCall ExecutionOrder)
    (hc : c ∈ received i (BondAlgoExecutionService.Execute s data).2) :
    c.data.orderType = .MARKET ∧
    c.data.orderId = data.product.GetProductId ∧
    c.data.product = data.product ∧
    c.data.hiddenQuantity = 0 ∧
    c.data.GetHiddenQuantity = 0 ∧
    c.data.parentOrderId = "" ∧
    c.data.isChildOrder = false ∧
    c.data.side = (if s.lastAggressBid then .OFFER else .BID) ∧
    ∃ front : Order,
      (if c.data.side = .BID then data.bidStack else data.offerStack).head? = some front ∧
      c.data.price = front.price ∧
      c.data.visibleQuantity = (front.quantity : ℚ) ∧
      c.data.GetVisibleQuantity = front.quantity := by
  by_cases h : BondAlgoExecutionService.aggresses data
  · obtain ⟨product, bidStack, offerStack⟩ := data
    cases bidStack with
    | nil => exact absurd h (by simp [BondAlgoExecutionService.aggresses])
    | cons b bs =>
      cases offerStack with
      | nil => exact absurd h (by simp [BondAlgoExecutionService.aggresses])
      | cons o os =>
        simp only [BondAlgoExecutionService.aggresses] at h
        rw [BondAlgoExecutionService.Execute_of_aggresses s product b o bs os h,
          received_notifyAll] at hc
        split at hc
        · simp only [List.mem_singleton] at hc
          subst hc
          have hz : truncate (0 : ℚ) = 0 := by
            have := truncate_intCast 0
            simpa using this
          cases hl : s.lastAggressBid
          · simp [ListenerCall.data, BondAlgoExecutionService.orderOf, hl,
              ExecutionOrder.GetHiddenQuantity, ExecutionOrder.GetVisibleQuantity,
              truncate_intCast, hz]
          · simp [ListenerCall.data, BondAlgoExecutionService.orderOf, hl,
              ExecutionOrder.GetHiddenQuantity, ExecutionOrder.GetVisibleQuantity,
              truncate_intCast, hz]
        · simp at hc
  · rw [BondAlgoExecutionService.Execute_of_not_aggresses s data h] at hc
    simp [received] at hc

/-- C12 at the T3Y book with front bid 100 x 1,000,000 and front offer
100 + 1/256 x 2,000,000 handed to the service as constructed with one listener:
the order received is MARKET, T3Y, BID, price 100, visible 1,000,000. -/
theorem C12_emitted_order_fields_witness :
    (ListenerCall.ProcessAdd
        (⟨⟨"T3Y", "TICKER2", 0, (2025, 6, 15)⟩, .BID, "T3Y", .MARKET, 100, 1000000, 0, "", false⟩ :
          ExecutionOrder)
      ∈ received 0 (BondAlgoExecutionService.Execute (BondAlgoExecutionService.init 1)
          ⟨⟨"T3Y", "TICKER2", 0, (2025, 6, 15)⟩, [⟨100, 1000000, .BID⟩],
            [⟨100 + 1 / 256, 2000000, .OFFER⟩]⟩).2) ∧
    ExecutionOrder.GetVisibleQuantity
        ⟨⟨"T3Y", "TICKER2", 0, (2025, 6, 15)⟩, .BID, "T3Y", .MARKET, 100, 1000000, 0, "", false⟩
      = 1000000 ∧
    ExecutionOrder.GetHiddenQuantity
        ⟨⟨"T3Y", "TICKER2", 0, (2025, 6, 15)⟩, .BID, "T3Y", .MARKET, 100, 1000000, 0, "", false⟩
      = 0 := by
  have hmem : ListenerCall.ProcessAdd
        (⟨⟨"T3Y", "TICKER2", 0, (2025, 6, 15)⟩, .BID, "T3Y", .MARKET, 100, 1000000, 0, "", false⟩ :
          ExecutionOrder)
      ∈ received 0 (BondAlgoExecutionService.Execute (BondAlgoExecutionService.init 1)
          ⟨⟨"T3Y", "TICKER2", 0, (2025, 6, 15)⟩, [⟨100, 1000000, .BID⟩],
            [⟨100 + 1 / 256, 2000000, .OFFER⟩]⟩).2 := by
    rw [BondAlgoExecutionService.Execute_of_aggresses _ _ _ _ _ _ (by norm_num),
      received_notifyAll_of_lt _ _ _ (by decide)]
    simp [BondAlgoExecutionService.orderOf, BondAlgoExecutionService.init, Bond.GetProductId]
  have h := C12_emitted_order_fields (BondAlgoExecutionService.init 1)
    ⟨⟨"T3Y", "TICKER2", 0, (2025, 6, 15)⟩, [⟨100, 1000000, .BID⟩],
      [⟨100 + 1 / 256, 2000000, .OFFER⟩]⟩ 0 _ hmem
  obtain ⟨_, _, _, _, hh, _, _, _, front, hfront, _, _, hv⟩ := h
  refine ⟨hmem, ?_, hh⟩
  simp only [ListenerCall.data, if_true, List.head?_cons, Option.some.injEq] at hfront hv
  rw [hv, ← hfront]

/-! ## Pricing -/

namespace StrMap

theorem find_erase_self {V : Type} (m : StrMap V) (key : String) :
    find (erase m key) key = none := by
  induction m with
  | nil => rfl
  | cons kv rest ih =>
    obtain ⟨k, v⟩ := kv
    by_cases hk : k = key
    · simp only [erase, List.filter_cons, hk, ne_eq, not_true_eq_false, decide_False]
      exact ih
    · simp only [erase, List.filter_cons, hk, ne_eq, not_false_eq_true, decide_True, if_true,
        find, if_false]
      exact ih

theorem find_erase_ne {V : Type} (m : StrMap V) (key key2 : String) (hne : key ≠ key2) :
    find (erase m key) key2 = find m key2 := by
  induction m with
  | nil => rfl
  | cons kv rest ih =>
    obtain ⟨k, v⟩ := kv
    by_cases hk : k = key
    · subst hk
      simp only [erase, List.filter_cons, ne_eq, not_true_eq_false, decide_False]
      rw [find_cons_ne _ _ _ _ hne]
      exact ih
    · simp only [erase, List.filter_cons, hk, ne_eq, not_false_eq_true, decide_True, if_true]
      by_cases hk2 : k = key2
      · subst hk2
        rw [find_cons_eq, find_cons_eq]
      · rw [find_cons_ne _ _ _ _ hk2, find_cons_ne _ _ _ _ hk2]
        exact ih

end StrMap

theorem priceCallsFor_append (productId : String) (i : Nat) (l1 l2 : CallLog Price) :
    priceCallsFor productId i (l1 ++ l2)
      = priceCallsFor productId i l1 ++ priceCallsFor productId i l2 := by
  simp [priceCallsFor, received_append]

namespace BondPricingService

theorem OnMessage_log (s : BondPricingService) (data : Price) :
    (OnMessage s data).2 =
      notifyAll s.listeners
        (if (StrMap.find s.bondPriceMap data.product.GetProductId).isNone
          then .ProcessAdd data else .ProcessUpdate data) := by
  unfold OnMessage
  cases h : StrMap.find s.bondPriceMap data.product.GetProductId <;> simp [h]

theorem OnMessage_listeners (s : BondPricingService) (data : Price) :
    (OnMessage s data).1.listeners = s.listeners := by
  unfold OnMessage
  cases h : StrMap.find s.bondPriceMap data.product.GetProductId <;> simp [h]

theorem find_OnMessage_self (s : BondPricingService) (data : Price) :
    StrMap.find (OnMessage s data).1.bondPriceMap data.product.GetProductId = some data := by
  unfold OnMessage
  cases h : StrMap.find s.bondPriceMap data.product.GetProductId with
  | none =>
    simp only [h]
    exact StrMap.find_emplace_new _ _ _ h
  | some old =>
    simp only [h]
    exact StrMap.find_emplace_new _ _ _ (StrMap.find_erase_self _ _)

theorem find_OnMessage_ne (s : BondPricingService) (data : Price) (productId : String)
    (hne : data.product.GetProductId ≠ productId) :
    StrMap.find (OnMessage s data).1.bondPriceMap productId
      = StrMap.find s.bondPriceMap productId := by
  unfold OnMessage
  cases h : StrMap.find s.bondPriceMap data.product.GetProductId with
  | none =>
    simp only [h]
    exact StrMap.find_emplace_ne _ _ _ _ hne
  | some old =>
    simp only [h]
    rw [StrMap.find_emplace_ne _ _ _ _ hne, StrMap.find_erase_ne _ _ _ hne]

theorem priceCallsFor_OnMessage (s : BondPricingService) (data : Price) (productId : String)
    (i : Nat) :
    priceCallsFor productId i (OnMessage s data).2 =
      if i < s.listeners ∧ data.product.GetProductId = productId then
        [if (StrMap.find s.bondPriceMap productId).isNone
          then .ProcessAdd data else .ProcessUpdate data]
      else [] := by
  rw [OnMessage_log]
  simp only [priceCallsFor, received_notifyAll]
  by_cases hi : i < s.listeners
  · by_cases hp : data.product.GetProductId = productId
    · subst hp
      simp [hi, ListenerCall.data_ite]
    · simp [hi, hp, ListenerCall.data_ite]
  · simp [hi]

/-- From any state: the calls a listener receives for a product are those
expected for the prices of that product in the order fed, the product being
known when the state holds a price for it; and afterwards the stored price of
the product is the last one fed, or the one held before when none was fed. -/
theorem feed_spec (prices : List Price) :
    ∀ (s : BondPricingService) (productId : String) (i : Nat),
      (feed s prices).1.listeners = s.listeners ∧
      priceCallsFor productId i (feed s prices).2 =
        (if i < s.listeners then
          expectedPriceCalls (StrMap.find s.bondPriceMap productId).isSome
            (pricesOf productId prices)
        else []) ∧
      StrMap.find (feed s prices).1.bondPriceMap productId =
        (match (pricesOf productId prices).getLast? with
          | some last => some last
          | none => StrMap.find s.bondPriceMap productId) := by
  induction prices with
  | nil =>
    intro s productId i
    refine ⟨rfl, ?_, rfl⟩
    cases h : (StrMap.find s.bondPriceMap productId).isSome <;>
      simp [feed, priceCallsFor, received, pricesOf, expectedPriceCalls]
  | cons data rest ih =>
    intro s productId i
    obtain ⟨hl, hcalls, hfind⟩ := ih (OnMessage s data).1 productId i
    rw [OnMessage_listeners] at hl hcalls
    refine ⟨hl, ?_, ?_⟩
    · simp only [feed, priceCallsFor_append, hcalls, priceCallsFor_OnMessage]
      by_cases hi : i < s.listeners
      · by_cases hp : data.product.GetProductId = productId
        · subst hp
          have hps : pricesOf data.product.GetProductId (data :: rest)
              = data :: pricesOf data.product.GetProductId rest := by
            simp [pricesOf]
          rw [hps, find_OnMessage_self]
          cases hk : StrMap.find s.bondPriceMap data.product.GetProductId <;>
            simp [hi, expectedPriceCalls]
        · have hps : pricesOf productId (data :: rest) = pricesOf productId rest := by
            simp [pricesOf, hp]
          rw [hps, find_OnMessage_ne s data productId hp]
          simp [hi, hp]
      · simp [hi]
    · simp only [feed]
      rw [hfind]
      by_cases hp : data.product.GetProductId = productId
      · subst hp
        have hps : pricesOf data.product.GetProductId (data :: rest)
            = data :: pricesOf data.product.GetProductId rest := by
          simp [pricesOf]
        rw [hps, find_OnMessage_self]
        cases hr : pricesOf data.product.GetProductId rest with
        | nil => simp
        | cons x xs =>
          rw [List.getLast?_cons_cons, List.getLast?_eq_getLast (x :: xs) (by simp)]
      · have hps : pricesOf productId (data :: rest) = pricesOf productId rest := by
          simp [pricesOf, hp]
        rw [hps, find_OnMessage_ne s data productId hp]

end BondPricingService

/-- C13: for any sequence of prices fed to `BondPricingService::OnMessage` on
the service as constructed, every listener receives for each product
ProcessAdd for the first price of the product and ProcessUpdate for every
later one, in the order fed (so the same Price fed twice yields exactly one Add
followed by one Update); and afterwards `GetData(productId)` returns the most
recently fed Price of that product, failing for a product never fed. -/
theorem C13_pricing_add_then_update (listeners : Nat) (prices : List Price) (productId : String)
    (i : Nat) :
    priceCallsFor productId i
        (BondPricingService.feed (BondPricingService.init listeners) prices).2 =
      (if i < listeners then
        (match pricesOf productId prices with
          | [] => []
          | first :: rest => .ProcessAdd first :: rest.map .ProcessUpdate)
      else []) ∧
    BondPricingService.GetData
        (BondPricingService.feed (BondPricingService.init listeners) prices).1 productId =
      (match (pricesOf productId prices).getLast? with
        | some last => .ok last
        | none => .error .runtime_error) ∧
    (∀ (p : Price), i < listeners →
      received i (BondPricingService.feed (BondPricingService.init listeners) [p, p]).2
        = [.ProcessAdd p, .ProcessUpdate p]) := by
  obtain ⟨_, hcalls, hfind⟩ :=
    BondPricingService.feed_spec prices (BondPricingService.init listeners) productId i
  refine ⟨?_, ?_, ?_⟩
  · rw [hcalls]
    by_cases hi : i < listeners
    · simp only [BondPricingService.init, hi, if_true, StrMap.find, Option.isSome_none]
      cases pricesOf productId prices <;> simp [expectedPriceCalls]
    · simp [BondPricingService.init, hi]
  · simp only [BondPricingService.GetData, hfind]
    cases (pricesOf productId prices).getLast? <;> simp [BondPricingService.init, StrMap.find]
  · intro p hi
    simp only [BondPricingService.feed, BondPricingService.OnMessage_log, received_append,
      received_nil, List.append_nil, BondPricingService.OnMessage_listeners,
      BondPricingService.find_OnMessage_self]
    simp [received_notifyAll, BondPricingService.init, hi, StrMap.find]

/-! ## Trade booking -/

namespace BondTradeBookingService

theorem BookTrade_eq_OnMessage (s : BondTradeBookingService) (trade : Trade) :
    BookTrade s trade = OnMessage s trade := rfl

theorem OnMessage_new (s : BondTradeBookingService) (data : Trade)
    (h : StrMap.find s.tradeMap data.tradeId = none) :
    OnMessage s data =
      ({ s with tradeMap := s.tradeMap ++ [(data.tradeId, data)] },
        notifyAll s.listeners (.ProcessAdd data)) := by
  simp [OnMessage, h, StrMap.emplace]

theorem OnMessage_known (s : BondTradeBookingService) (data stored : Trade)
    (h : StrMap.find s.tradeMap data.tradeId = some stored) :
    OnMessage s data = (s, notifyAll s.listeners (.ProcessUpdate data)) := by
  simp [OnMessage, h, StrMap.emplace]

end BondTradeBookingService

/-- C14 (the code departs from the claim): for any two trades with the same
TradeId, not yet in the store, fed in turn to `BondTradeBookingService`
(`BookTrade`, `ProcessAdd` and `ProcessUpdate` all pass the trade on to
`OnMessage`), each listener receives ProcessAdd of the first followed by
ProcessUpdate of the second, but the store is not changed by the second:
afterwards `GetData(tradeId)` returns the first trade, since `emplace` keeps
the existing entry. -/
theorem C14_first_trade_kept (s : BondTradeBookingService) (first second : Trade)
    (hid : second.tradeId = first.tradeId)
    (hnew : StrMap.find s.tradeMap first.tradeId = none) :
    (∀ i, i < s.listeners →
      received i ((BondTradeBookingService.OnMessage s first).2 ++
          (BondTradeBookingService.OnMessage (BondTradeBookingService.OnMessage s first).1
            second).2)
        = [.ProcessAdd first, .ProcessUpdate second]) ∧
    BondTradeBookingService.GetData
        (BondTradeBookingService.OnMessage (BondTradeBookingService.OnMessage s first).1 second).1
        first.tradeId = .ok first ∧
    BondTradeBookingService.BookTrade s first = BondTradeBookingService.OnMessage s first ∧
    BondTradeBookingService.ProcessAdd s first = BondTradeBookingService.OnMessage s first ∧
    BondTradeBookingService.ProcessUpdate s first = BondTradeBookingService.OnMessage s first := by
  have h1 := BondTradeBookingService.OnMessage_new s first hnew
  have hfind : StrMap.find (s.tradeMap ++ [(first.tradeId, first)]) second.tradeId = some first := by
    rw [hid, StrMap.find_append_of_none _ _ _ hnew]
    simp [StrMap.find]
  have h2 := BondTradeBookingService.OnMessage_known
    ⟨s.tradeMap ++ [(first.tradeId, first)], s.listeners⟩ second first hfind
  refine ⟨?_, ?_, rfl, rfl, rfl⟩
  · intro i hi
    rw [h1, h2, received_append, received_notifyAll_of_lt _ _ _ hi,
      received_notifyAll_of_lt _ _ _ hi]
    rfl
  · rw [h1, h2]
    rw [hid] at hfind
    simp only [BondTradeBookingService.GetData, hfind]

/-- C14 at the failing input: the trade TR1 (T5Y, BUY 1000 in TRSY1 at 100) is
fed and then the trade TR1 again as SELL 2000 in TRSY2 at 101; the listener
receives Add then Update, and the store still returns the first trade, which
is not the second. -/
theorem C14_first_trade_kept_witness :
    (∀ i, i < 1 →
      received i ((BondTradeBookingService.OnMessage ⟨[], 1⟩
          ⟨⟨"T5Y", "TICKER3", 0, (2027, 9, 30)⟩, "TR1", 100, "TRSY1", 1000, .BUY⟩).2 ++
          (BondTradeBookingService.OnMessage (BondTradeBookingService.OnMessage ⟨[], 1⟩
            ⟨⟨"T5Y", "TICKER3", 0, (2027, 9, 30)⟩, "TR1", 100, "TRSY1", 1000, .BUY⟩).1
            ⟨⟨"T5Y", "TICKER3", 0, (2027, 9, 30)⟩, "TR1", 101, "TRSY2", 2000, .SELL⟩).2)
        = [.ProcessAdd ⟨⟨"T5Y", "TICKER3", 0, (2027, 9, 30)⟩, "TR1", 100, "TRSY1", 1000, .BUY⟩,
           .ProcessUpdate ⟨⟨"T5Y", "TICKER3", 0, (2027, 9, 30)⟩, "TR1", 101, "TRSY2", 2000, .SELL⟩]) ∧
    BondTradeBookingService.GetData
        (BondTradeBookingService.OnMessage (BondTradeBookingService.OnMessage ⟨[], 1⟩
          ⟨⟨"T5Y", "TICKER3", 0, (2027, 9, 30)⟩, "TR1", 100, "TRSY1", 1000, .BUY⟩).1
          ⟨⟨"T5Y", "TICKER3", 0, (2027, 9, 30)⟩, "TR1", 101, "TRSY2", 2000, .SELL⟩).1
        "TR1"
      = .ok ⟨⟨"T5Y", "TICKER3", 0, (2027, 9, 30)⟩, "TR1", 100, "TRSY1", 1000, .BUY⟩ ∧
    (⟨⟨"T5Y", "TICKER3", 0, (2027, 9, 30)⟩, "TR1", 100, "TRSY1", 1000, .BUY⟩ : Trade)
      ≠ ⟨⟨"T5Y", "TICKER3", 0, (2027, 9, 30)⟩, "TR1", 101, "TRSY2", 2000, .SELL⟩ := by
  have h := C14_first_trade_kept ⟨[], 1⟩
    ⟨⟨"T5Y", "TICKER3", 0, (2027, 9, 30)⟩, "TR1", 100, "TRSY1", 1000, .BUY⟩
    ⟨⟨"T5Y", "TICKER3", 0, (2027, 9, 30)⟩, "TR1", 101, "TRSY2", 2000, .SELL⟩ rfl rfl
  refine ⟨h.1, h.2.1, ?_⟩
  intro heq
  injection heq with _ _ _ hbook _ _
  exact absurd hbook (by decide)

/-! ## Risk -/

namespace BondRiskService

theorem AddPosition_stored (analytics : BondAnalytics) (pricingService : BondPricingService)
    (s : BondRiskService) (position : Position) (price : Price)
    (hprice : pricingService.GetData position.product.GetProductId = .ok price) :
    ∃ s2 log, AddPosition analytics pricingService s position = .ok (s2, log) ∧
      s2.listeners = s.listeners ∧
      (log = notifyAll s.listeners (.ProcessAdd (entryFor analytics position price.mid)) ∨
        log = notifyAll s.listeners (.ProcessUpdate (entryFor analytics position price.mid))) ∧
      StrMap.find s2.riskMap position.product.GetProductId =
        some (entryFor analytics position price.mid) := by
  cases hnew : StrMap.find s.riskMap position.product.GetProductId with
  | none =>
    have hf := StrMap.find_emplace_new s.riskMap position.product.GetProductId
      (entryFor analytics position price.mid) hnew
    refine ⟨⟨StrMap.emplace s.riskMap position.product.GetProductId
        (entryFor analytics position price.mid), s.listeners⟩,
      notifyAll s.listeners (.ProcessAdd (entryFor analytics position price.mid)),
      ?_, rfl, Or.inl rfl, hf⟩
    simp only [AddPosition, hprice, bind, Except.bind, hnew, Option.isNone_none, if_true,
      durationAt, entryFor] at hf ⊢
    rw [hf]
    rfl
  | some old =>
    have hu := StrMap.find_update_self s.riskMap position.product.GetProductId
      (fun _ => entryFor analytics position price.mid)
    rw [hnew] at hu
    have hf := StrMap.find_emplace_self
      (StrMap.update s.riskMap position.product.GetProductId
        (fun _ => entryFor analytics position price.mid))
      position.product.GetProductId (entryFor analytics position price.mid)
    rw [hu] at hf
    simp only [Option.map_some', Option.getD_some] at hf
    refine ⟨⟨StrMap.emplace
        (StrMap.update s.riskMap position.product.GetProductId
          (fun _ => entryFor analytics position price.mid))
        position.product.GetProductId (entryFor analytics position price.mid), s.listeners⟩,
      notifyAll s.listeners (.ProcessUpdate (entryFor analytics position price.mid)),
      ?_, rfl, Or.inr rfl, hf⟩
    simp only [AddPosition, hprice, bind, Except.bind, hnew, Option.isNone_some, durationAt,
      entryFor] at hf ⊢
    simp only [Bool.false_eq_true, if_false]
    rw [hf]
    rfl

theorem foldl_totals (riskMap : StrMap (PV01 Bond)) (products : List Bond) :
    ∀ totals : ℚ × Int,
      products.foldl
        (fun totals bond =>
          match StrMap.find riskMap bond.GetProductId with
          | some entry => (totals.1 + entry.pv01, totals.2 + entry.quantity)
          | none => totals)
        totals
      = (totals.1 +
          ((products.filterMap (fun bond => StrMap.find riskMap bond.GetProductId)).map
            (fun e => e.pv01)).sum,
         totals.2 +
          ((products.filterMap (fun bond => StrMap.find riskMap bond.GetProductId)).map
            (fun e => e.quantity)).sum) := by
  induction products with
  | nil => intro totals; simp
  | cons bond rest ih =>
    intro totals
    simp only [List.foldl_cons]
    rw [ih]
    cases h : StrMap.find riskMap bond.GetProductId with
    | none => simp [List.filterMap_cons, h]
    | some entry =>
      simp only [List.filterMap_cons, h, List.map_cons, List.sum_cons]
      ext
      · simp only; ring
      · simp only; omega

end BondRiskService

/-- C15: for every position with aggregate quantity `a` on a product whose
latest mid in the PricingService is `m`, `BondRiskService::AddPosition`
returns and stores PV01(product, D * m * 0.0001 * a, a), where `D` is the
modified duration obtained from the yield at (m, frequency 2) and does not
depend on `a`; hence the stored quantity equals the aggregate position, and for
any second position of the same product, at the same mid, whose aggregate is
twice as large, the stored pv01 is twice as large. -/
theorem C15_pv01_linear_in_position (analytics : BondAnalytics)
    (pricingService : BondPricingService) (s : BondRiskService) (position : Position)
    (price : Price)
    (hprice : pricingService.GetData position.product.GetProductId = .ok price) :
    ∃ s2 log stored,
      BondRiskService.AddPosition analytics pricingService s position = .ok (s2, log) ∧
      BondRiskService.GetData s2 position.product.GetProductId = .ok stored ∧
      stored.product = position.product ∧
      stored.pv01 =
        BondRiskService.durationAt analytics position.product price.mid * price.mid * (1 / 10000) *
          (position.GetAggregatePosition : ℚ) ∧
      stored.quantity = position.GetAggregatePosition ∧
      ∀ (t : BondRiskService) (doubled : Position),
        doubled.product = position.product →
        doubled.GetAggregatePosition = 2 * position.GetAggregatePosition →
        ∃ t2 log2 stored2,
          BondRiskService.AddPosition analytics pricingService t doubled = .ok (t2, log2) ∧
          BondRiskService.GetData t2 position.product.GetProductId = .ok stored2 ∧
          stored2.pv01 = 2 * stored.pv01 ∧
          stored2.quantity = 2 * stored.quantity := by
  obtain ⟨s2, log, hrun, _, _, hfind⟩ :=
    BondRiskService.AddPosition_stored analytics pricingService s position price hprice
  refine ⟨s2, log, BondRiskService.entryFor analytics position price.mid, hrun,
    by simp only [BondRiskService.GetData, hfind], rfl, rfl, rfl, ?_⟩
  intro t doubled hprod hagg
  have hprice2 : pricingService.GetData doubled.product.GetProductId = .ok price := by
    rw [hprod]; exact hprice
  obtain ⟨t2, log2, hrun2, _, _, hfind2⟩ :=
    BondRiskService.AddPosition_stored analytics pricingService t doubled price hprice2
  rw [hprod] at hfind2
  refine ⟨t2, log2, BondRiskService.entryFor analytics doubled price.mid, hrun2,
    by simp only [BondRiskService.GetData, hfind2], ?_, ?_⟩
  · simp only [BondRiskService.entryFor, hagg, hprod]
    push_cast
    ring
  · simp only [BondRiskService.entryFor, hagg]

/-- C15 at a position of 1000 in TRSY1 on T2Y, with mid 100 in the pricing
service, a constant duration of 2 and an empty risk store. -/
theorem C15_pv01_linear_in_position_witness :
    ∃ s2 log stored,
      BondRiskService.AddPosition ⟨fun _ _ _ => 0, fun _ _ _ _ => 2, fun _ => 1000⟩
        ⟨[("T2Y", ⟨⟨"T2Y", "TICKER1", 0, (2024, 12, 22)⟩, 100, 1⟩)], 0⟩ ⟨[], 1⟩
        ⟨⟨"T2Y", "TICKER1", 0, (2024, 12, 22)⟩, [("TRSY1", 1000)]⟩ = .ok (s2, log) ∧
      BondRiskService.GetData s2
        (Position.product ⟨⟨"T2Y", "TICKER1", 0, (2024, 12, 22)⟩, [("TRSY1", 1000)]⟩).GetProductId
        = .ok stored ∧
      stored.product = ⟨"T2Y", "TICKER1", 0, (2024, 12, 22)⟩ ∧
      stored.quantity = 1000 := by
  obtain ⟨s2, log, stored, h1, h2, h3, _, h5, _⟩ :=
    C15_pv01_linear_in_position ⟨fun _ _ _ => 0, fun _ _ _ _ => 2, fun _ => 1000⟩
      ⟨[("T2Y", ⟨⟨"T2Y", "TICKER1", 0, (2024, 12, 22)⟩, 100, 1⟩)], 0⟩ ⟨[], 1⟩
      ⟨⟨"T2Y", "TICKER1", 0, (2024, 12, 22)⟩, [("TRSY1", 1000)]⟩
      ⟨⟨"T2Y", "TICKER1", 0, (2024, 12, 22)⟩, 100, 1⟩ rfl
  exact ⟨s2, log, stored, h1, h2, h3, h5⟩

/-- C16: for every BucketedSector, `BondRiskService::GetBucketedRisk` returns a
PV01 record keyed by that sector whose pv01 is the sum of the stored pv01, and
whose quantity is the sum of the stored quantity, over the products of the
sector that have an entry in the risk store, products without an entry
contributing nothing; being `const`, the call has no effect on the store. -/
theorem C16_bucketed_risk (s : BondRiskService) (sector : BucketedSector) :
    (BondRiskService.GetBucketedRisk s sector).product = sector ∧
    (BondRiskService.GetBucketedRisk s sector).pv01 =
      ((BondRiskService.entriesOf s sector).map (fun e => e.pv01)).sum ∧
    (BondRiskService.GetBucketedRisk s sector).quantity =
      ((BondRiskService.entriesOf s sector).map (fun e => e.quantity)).sum ∧
    (∀ bond ∈ sector.products, ∀ e : PV01 Bond,
      StrMap.find s.riskMap bond.GetProductId = some e → e ∈ BondRiskService.entriesOf s sector) ∧
    (∀ e ∈ BondRiskService.entriesOf s sector, ∃ bond ∈ sector.products,
      StrMap.find s.riskMap bond.GetProductId = some e) := by
  refine ⟨rfl, ?_, ?_, ?_, ?_⟩
  · simp only [BondRiskService.GetBucketedRisk, BondRiskService.foldl_totals,
      BondRiskService.entriesOf]
    simp
  · simp only [BondRiskService.GetBucketedRisk, BondRiskService.foldl_totals,
      BondRiskService.entriesOf]
    simp
  · intro bond hb e he
    simp only [BondRiskService.entriesOf, List.mem_filterMap]
    exact ⟨bond, hb, he⟩
  · intro e he
    simp only [BondRiskService.entriesOf, List.mem_filterMap] at he
    exact he

/-! ## Positions: the effect of one trade and of its removal -/

namespace BondPositionService

theorem GetPosition_addToBook (trade : Trade) (pos : Position) (book : String) :
    (addToBook trade pos).GetPosition book =
      pos.GetPosition book + (if book = trade.book then trade.signedQuantity else 0) := by
  unfold addToBook Position.GetPosition
  by_cases hb : book = trade.book
  · subst hb
    simp only [StrMap.find_modify_self, if_true, Option.getD_some]
    cases hs : trade.side <;> simp [Trade.signedQuantity, hs]
  · have hne : trade.book ≠ book := fun h => hb h.symm
    simp only [StrMap.find_modify_ne _ _ _ _ _ hne, hb, if_false]
    omega

theorem GetPosition_removeFromBook (trade : Trade) (pos : Position) (book : String) :
    (removeFromBook trade pos).GetPosition book =
      pos.GetPosition book - (if book = trade.book then trade.signedQuantity else 0) := by
  unfold removeFromBook Position.GetPosition
  by_cases hb : book = trade.book
  · subst hb
    simp only [StrMap.find_modify_self, if_true, Option.getD_some]
    cases hs : trade.side
    all_goals simp [Trade.signedQuantity, hs]
    all_goals omega
  · have hne : trade.book ≠ book := fun h => hb h.symm
    simp only [StrMap.find_modify_ne _ _ _ _ _ hne, hb, if_false]
    omega

theorem aggregate_removeFromBook (trade : Trade) (pos : Position) :
    (removeFromBook trade pos).GetAggregatePosition
      = pos.GetAggregatePosition - trade.signedQuantity := by
  rw [Position.GetAggregatePosition_eq_sum, Position.GetAggregatePosition_eq_sum]
  simp only [removeFromBook, sum_modify_add]
  cases hs : trade.side
  all_goals simp [Trade.signedQuantity, hs]
  all_goals omega

theorem quantityOf_AddTrade (s : BondPositionService) (trade : Trade) (productId book : String) :
    quantityOf (AddTrade s trade).1 productId book =
      quantityOf s productId book +
        (if productId = trade.product.GetProductId ∧ book = trade.book
          then trade.signedQuantity else 0) := by
  by_cases hp : trade.product.GetProductId = productId
  · subst hp
    simp only [quantityOf, find_AddTrade_self, positionAfter, GetPosition_addToBook, true_and]
    cases h : StrMap.find s.positionMap trade.product.GetProductId with
    | none => simp [Position.GetPosition, StrMap.find]
    | some pos => simp
  · have hp2 : ¬ productId = trade.product.GetProductId := fun h => hp h.symm
    simp only [quantityOf, find_AddTrade_ne s trade productId hp, hp2, false_and, if_false]
    omega

theorem AddTrade_log (s : BondPositionService) (trade : Trade) :
    (AddTrade s trade).2 =
      notifyAll s.listeners
        (if (StrMap.find s.positionMap trade.product.GetProductId).isNone
          then .ProcessAdd (positionAfter s trade)
          else .ProcessUpdate (positionAfter s trade)) := by
  have h := find_AddTrade_self s trade
  rw [AddTrade_positionMap] at h
  simp only [AddTrade]
  split
  · rename_i heq
    have hcontra : (none : Option Position) = some (positionAfter s trade) := heq.symm.trans h
    exact Option.noConfusion hcontra
  · rename_i pos heq
    have hsome : some pos = some (positionAfter s trade) := heq.symm.trans h
    injection hsome with hpos
    rw [hpos]

theorem ProcessRemove_stored (s : BondPositionService) (data : Trade) (pos : Position)
    (h : StrMap.find s.positionMap data.product.GetProductId = some pos) :
    ProcessRemove s data =
      (⟨StrMap.update s.positionMap data.product.GetProductId (removeFromBook data),
          s.listeners⟩,
        notifyAll s.listeners (.ProcessUpdate (removeFromBook data pos))) := by
  have hu := StrMap.find_update_self s.positionMap data.product.GetProductId (removeFromBook data)
  rw [h] at hu
  simp only [Option.map_some'] at hu
  simp only [ProcessRemove, h]
  split
  · rename_i heq
    have hcontra : (none : Option Position) = some (removeFromBook data pos) := heq.symm.trans hu
    exact Option.noConfusion hcontra
  · rename_i pos2 heq
    have hsome : some pos2 = some (removeFromBook data pos) := heq.symm.trans hu
    injection hsome with hpos
    rw [hpos]
    rfl

theorem ProcessRemove_absent (s : BondPositionService) (data : Trade)
    (h : StrMap.find s.positionMap data.product.GetProductId = none) :
    ProcessRemove s data = (s, []) := by
  simp only [ProcessRemove, h]

end BondPositionService

/-- C17: for every trade, `BondPositionService::AddTrade` changes the quantity
of the trade's product in the trade's book by +quantity if the side is BUY and
by -quantity if it is SELL, and leaves unchanged every other book of that
product and the Position of every other product; a BUY of 1000 in TRSY1 then a
SELL of 2000 in TRSY2 on T5Y gives TRSY1 = +1000, TRSY2 = -2000, aggregate
-1000. -/
theorem C17_add_trade_frame (s : BondPositionService) (trade : Trade) :
    BondPositionService.quantityOf (BondPositionService.AddTrade s trade).1
        trade.product.GetProductId trade.book =
      BondPositionService.quantityOf s trade.product.GetProductId trade.book +
        (match trade.side with
          | .BUY => trade.quantity
          | .SELL => -trade.quantity) ∧
    (∀ book : String, book ≠ trade.book →
      BondPositionService.quantityOf (BondPositionService.AddTrade s trade).1
          trade.product.GetProductId book =
        BondPositionService.quantityOf s trade.product.GetProductId book) ∧
    (∀ productId : String, productId ≠ trade.product.GetProductId →
      StrMap.find (BondPositionService.AddTrade s trade).1.positionMap productId =
        StrMap.find s.positionMap productId) ∧
    BondPositionService.quantityOf
        (BondPositionService.addTrades ⟨[], s.listeners⟩
          [⟨⟨"T5Y", "TICKER3", 0, (2027, 9, 30)⟩, "TR1", 100, "TRSY1", 1000, .BUY⟩,
           ⟨⟨"T5Y", "TICKER3", 0, (2027, 9, 30)⟩, "TR2", 100, "TRSY2", 2000, .SELL⟩])
        "T5Y" "TRSY1" = 1000 ∧
    BondPositionService.quantityOf
        (BondPositionService.addTrades ⟨[], s.listeners⟩
          [⟨⟨"T5Y", "TICKER3", 0, (2027, 9, 30)⟩, "TR1", 100, "TRSY1", 1000, .BUY⟩,
           ⟨⟨"T5Y", "TICKER3", 0, (2027, 9, 30)⟩, "TR2", 100, "TRSY2", 2000, .SELL⟩])
        "T5Y" "TRSY2" = -2000 ∧
    BondPositionService.aggregateOf
        (BondPositionService.addTrades ⟨[], s.listeners⟩
          [⟨⟨"T5Y", "TICKER3", 0, (2027, 9, 30)⟩, "TR1", 100, "TRSY1", 1000, .BUY⟩,
           ⟨⟨"T5Y", "TICKER3", 0, (2027, 9, 30)⟩, "TR2", 100, "TRSY2", 2000, .SELL⟩])
        "T5Y" = -1000 := by
  refine ⟨?_, ?_, ?_, ?_, ?_, ?_⟩
  · rw [BondPositionService.quantityOf_AddTrade]
    simp only [true_and, if_true]
    rfl
  · intro book hb
    rw [BondPositionService.quantityOf_AddTrade]
    simp [hb]
  · intro productId hp
    exact BondPositionService.find_AddTrade_ne s trade productId (fun h => hp h.symm)
  · simp only [BondPositionService.addTrades, BondPositionService.quantityOf_AddTrade]
    simp [BondPositionService.quantityOf, StrMap.find, Trade.signedQuantity, Bond.GetProductId]
  · simp only [BondPositionService.addTrades, BondPositionService.quantityOf_AddTrade]
    simp [BondPositionService.quantityOf, StrMap.find, Trade.signedQuantity, Bond.GetProductId]
  · simp only [BondPositionService.aggregateOf_addTrades]
    simp [BondPositionService.aggregateOf, StrMap.find, signedQuantityOf, Trade.signedQuantity,
      Bond.GetProductId]

/-- C18: for every trade `t`, `AddTrade(t)` followed by `ProcessRemove(t)`
restores every per-book quantity and the aggregate of `t`'s product to their
values before `AddTrade` and leaves the other products alone, and
`ProcessRemove` hands each listener exactly one ProcessUpdate, never a
ProcessRemove; `ProcessRemove` of a trade whose product has no stored Position
returns the state unchanged and calls nobody. -/
theorem C18_remove_undoes_add (s : BondPositionService) (trade : Trade) :
    (∀ book : String,
      BondPositionService.quantityOf
          (BondPositionService.ProcessRemove (BondPositionService.AddTrade s trade).1 trade).1
          trade.product.GetProductId book =
        BondPositionService.quantityOf s trade.product.GetProductId book) ∧
    BondPositionService.aggregateOf
        (BondPositionService.ProcessRemove (BondPositionService.AddTrade s trade).1 trade).1
        trade.product.GetProductId =
      BondPositionService.aggregateOf s trade.product.GetProductId ∧
    (∀ productId : String, productId ≠ trade.product.GetProductId →
      StrMap.find
          (BondPositionService.ProcessRemove (BondPositionService.AddTrade s trade).1
            trade).1.positionMap productId =
        StrMap.find s.positionMap productId) ∧
    (∀ i, i < s.listeners → ∃ pos : Position,
      received i
          (BondPositionService.ProcessRemove (BondPositionService.AddTrade s trade).1 trade).2
        = [.ProcessUpdate pos]) ∧
    (StrMap.find s.positionMap trade.product.GetProductId = none →
      BondPositionService.ProcessRemove s trade = (s, [])) := by
  have h1 := BondPositionService.find_AddTrade_self s trade
  have hrem := BondPositionService.ProcessRemove_stored (BondPositionService.AddTrade s trade).1
    trade _ h1
  have hfind : StrMap.find
      (BondPositionService.ProcessRemove (BondPositionService.AddTrade s trade).1 trade).1.positionMap
      trade.product.GetProductId
      = some (BondPositionService.removeFromBook trade
          (BondPositionService.positionAfter s trade)) := by
    rw [hrem]
    simp only [StrMap.find_update_self, h1, Option.map_some']
  have hl : (BondPositionService.AddTrade s trade).1.listeners = s.listeners := by
    simp only [BondPositionService.AddTrade]
    split <;> rfl
  refine ⟨?_, ?_, ?_, ?_, BondPositionService.ProcessRemove_absent s trade⟩
  · intro book
    simp only [BondPositionService.quantityOf, hfind,
      BondPositionService.GetPosition_removeFromBook, BondPositionService.positionAfter,
      BondPositionService.GetPosition_addToBook]
    cases h : StrMap.find s.positionMap trade.product.GetProductId with
    | none => simp [Position.GetPosition, StrMap.find]
    | some pos => simp
  · have ha := BondPositionService.aggregate_positionAfter s trade
    simp only [BondPositionService.aggregateOf, hfind,
      BondPositionService.aggregate_removeFromBook] at ha ⊢
    rw [ha]
    omega
  · intro productId hp
    have hne : trade.product.GetProductId ≠ productId := fun h => hp h.symm
    rw [hrem]
    simp only [StrMap.find_update_ne _ _ _ _ hne]
    exact BondPositionService.find_AddTrade_ne s trade productId hne
  · intro i hi
    refine ⟨BondPositionService.removeFromBook trade
      (BondPositionService.positionAfter s trade), ?_⟩
    rw [hrem]
    simp only [hl]
    exact received_notifyAll_of_lt _ _ _ hi

/-! ## Execution: how a trade is delivered -/

namespace BondExecutionService

theorem find_stored_of_not_child (s : BondExecutionService) (order : ExecutionOrder)
    (hchild : order.isChildOrder = false) :
    (StrMap.find (stored s order).executionMap order.orderId).isNone = false := by
  simp only [stored, hchild, Bool.false_eq_true, if_false, StrMap.find_emplace_self]
  rfl

end BondExecutionService

/-- C19 (the code departs from the claim): when `BondExecutionService` executes
a non-child order, in a state whose cursor points into the books, the Trade is
handed to each listener with ProcessUpdate, whatever the store holds, also
when no trade for that order id has been emitted before: the order is emplaced
under its id before `isNew` is computed, so that `isNew` is always false. -/
theorem C19_non_child_delivered_as_update (s : BondExecutionService) (order : ExecutionOrder)
    (market : Market) (hchild : order.isChildOrder = false)
    (hfills : BondExecutionService.fills order)
    (hcursor : s.currentTradeBookIndex < s.tradeBooks.length) :
    ∃ s2 trade,
      BondExecutionService.ExecuteOrder s order market
        = .ok (s2, notifyAll s.listeners (.ProcessUpdate trade)) ∧
      trade.tradeId = "TRADE_" ++ order.orderId ∧
      ∀ i, i < s.listeners →
        received i (notifyAll s.listeners (ListenerCall.ProcessUpdate trade))
          = [.ProcessUpdate trade] := by
  have hd := BondExecutionService.not_dropped_of_not_child s order hchild
  obtain ⟨tradeBook, hb⟩ : ∃ b, s.tradeBooks.get? s.currentTradeBookIndex = some b := by
    rw [List.get?_eq_get hcursor]
    exact ⟨_, rfl⟩
  have hrun := BondExecutionService.ExecuteOrder_fills s order market hd hfills tradeBook hb
  rw [BondExecutionService.find_stored_of_not_child s order hchild] at hrun
  simp only [Bool.false_eq_true, if_false] at hrun
  exact ⟨_, BondExecutionService.tradeOf order tradeBook, hrun, rfl,
    fun i hi => received_notifyAll_of_lt _ _ _ hi⟩

/-- C19 at the failing input: the MARKET order T3Y (BID, visible 1,000,000) is
the first order handed to the service as constructed with one listener; no
trade has been emitted before, and the Trade TRADE_T3Y is delivered with
ProcessUpdate. -/
theorem C19_non_child_delivered_as_update_witness :
    StrMap.find (BondExecutionService.init 1).executionMap "T3Y" = none ∧
    ∃ s2 trade,
      BondExecutionService.ExecuteOrder (BondExecutionService.init 1)
          ⟨⟨"T3Y", "TICKER2", 0, (2025, 6, 15)⟩, .BID, "T3Y", .MARKET, 100, 1000000, 0, "", false⟩
          .BROKERTEC
        = .ok (s2, notifyAll 1 (.ProcessUpdate trade)) ∧
      trade.tradeId = "TRADE_" ++ "T3Y" ∧
      ∀ i, i < 1 →
        received i (notifyAll 1 (ListenerCall.ProcessUpdate trade)) = [.ProcessUpdate trade] :=
  ⟨rfl, C19_non_child_delivered_as_update (BondExecutionService.init 1)
    ⟨⟨"T3Y", "TICKER2", 0, (2025, 6, 15)⟩, .BID, "T3Y", .MARKET, 100, 1000000, 0, "", false⟩
    .BROKERTEC rfl (Or.inl rfl) (by decide)⟩

/-! ## Algo execution: how an order is delivered -/

/-- C20 as stated fails: the service constructed with one listener is handed
the same tight T3Y book twice (front bid 100 x 1,000,000, front offer
100 + 1/256 x 2,000,000).  The listener receives two ExecutionOrders for T3Y,
both with ProcessAdd; the second one is not delivered with ProcessUpdate. -/
theorem C20_second_order_counterexample :
    received 0 (BondAlgoExecutionService.deliver (BondAlgoExecutionService.init 1)
        [.ProcessAdd ⟨⟨"T3Y", "TICKER2", 0, (2025, 6, 15)⟩, [⟨100, 1000000, .BID⟩],
            [⟨100 + 1 / 256, 2000000, .OFFER⟩]⟩,
         .ProcessUpdate ⟨⟨"T3Y", "TICKER2", 0, (2025, 6, 15)⟩, [⟨100, 1000000, .BID⟩],
            [⟨100 + 1 / 256, 2000000, .OFFER⟩]⟩]).2
      = [.ProcessAdd
          ⟨⟨"T3Y", "TICKER2", 0, (2025, 6, 15)⟩, .BID, "T3Y", .MARKET, 100, 1000000, 0, "", false⟩,
         .ProcessAdd
          ⟨⟨"T3Y", "TICKER2", 0, (2025, 6, 15)⟩, .OFFER, "T3Y", .MARKET, 100 + 1 / 256, 2000000, 0,
            "", false⟩] ∧
    ¬ ∃ first second : ExecutionOrder,
      received 0 (BondAlgoExecutionService.deliver (BondAlgoExecutionService.init 1)
        [.ProcessAdd ⟨⟨"T3Y", "TICKER2", 0, (2025, 6, 15)⟩, [⟨100, 1000000, .BID⟩],
            [⟨100 + 1 / 256, 2000000, .OFFER⟩]⟩,
         .ProcessUpdate ⟨⟨"T3Y", "TICKER2", 0, (2025, 6, 15)⟩, [⟨100, 1000000, .BID⟩],
            [⟨100 + 1 / 256, 2000000, .OFFER⟩]⟩]).2
      = [.ProcessAdd first, .ProcessUpdate second] := by
  have hrun : received 0 (BondAlgoExecutionService.deliver (BondAlgoExecutionService.init 1)
        [.ProcessAdd ⟨⟨"T3Y", "TICKER2", 0, (2025, 6, 15)⟩, [⟨100, 1000000, .BID⟩],
            [⟨100 + 1 / 256, 2000000, .OFFER⟩]⟩,
         .ProcessUpdate ⟨⟨"T3Y", "TICKER2", 0, (2025, 6, 15)⟩, [⟨100, 1000000, .BID⟩],
            [⟨100 + 1 / 256, 2000000, .OFFER⟩]⟩]).2
      = [.ProcessAdd
          ⟨⟨"T3Y", "TICKER2", 0, (2025, 6, 15)⟩, .BID, "T3Y", .MARKET, 100, 1000000, 0, "", false⟩,
         .ProcessAdd
          ⟨⟨"T3Y", "TICKER2", 0, (2025, 6, 15)⟩, .OFFER, "T3Y", .MARKET, 100 + 1 / 256, 2000000, 0,
            "", false⟩] := by
    simp only [BondAlgoExecutionService.deliver, BondAlgoExecutionService.handle,
      BondAlgoExecutionService.ProcessAdd, BondAlgoExecutionService.ProcessUpdate]
    rw [BondAlgoExecutionService.Execute_of_aggresses _ _ _ _ _ _ (by norm_num)]
    simp only []
    rw [BondAlgoExecutionService.Execute_of_aggresses _ _ _ _ _ _ (by norm_num)]
    simp only [received_append, List.append_nil]
    rw [received_notifyAll_of_lt _ _ _ (by decide), received_notifyAll_of_lt _ _ _ (by decide)]
    simp [BondAlgoExecutionService.orderOf, BondAlgoExecutionService.init, Bond.GetProductId]
  refine ⟨hrun, ?_⟩
  rintro ⟨first, second, h⟩
  rw [hrun] at h
  simp at h

/-- C20 (amended): `BondAlgoExecutionService` delivers every ExecutionOrder it
emits with ProcessAdd: whatever the state of the service and whatever the
sequence of order books handed to it, every call a listener receives is a
ProcessAdd, the first order for a product and every later one alike. -/
theorem C20_every_order_delivered_as_add (s : BondAlgoExecutionService)
    (calls : List (ListenerCall OrderBook)) (i : Nat) (c : ListenerCall ExecutionOrder)
    (h : c ∈ received i (BondAlgoExecutionService.deliver s calls).2) :
    ∃ order : ExecutionOrder, c = .ProcessAdd order := by
  induction calls generalizing s with
  | nil =>
    simp [BondAlgoExecutionService.deliver, received] at h
  | cons call rest ih =>
    obtain ⟨_, hcase⟩ := BondAlgoExecutionService.handle_book_step s call
    simp only [BondAlgoExecutionService.deliver, received_append, List.mem_append] at h
    rcases h with h | h
    · rcases hcase with ⟨hlog, _⟩ | ⟨order, hlog, _, _⟩
      · rw [hlog] at h
        simp [received] at h
      · rw [hlog, received_notifyAll] at h
        by_cases hi : i < s.listeners
        · rw [if_pos hi, List.mem_singleton] at h
          exact ⟨order, h⟩
        · rw [if_neg hi] at h
          simp at h
    · exact ih _ h

/-- C20 (amended) at the second order of two tight T3Y books handed in turn to
the service constructed with one listener: the listener receives that order,
and receives it with ProcessAdd. -/
theorem C20_every_order_delivered_as_add_witness :
    (ListenerCall.ProcessAdd
        (⟨⟨"T3Y", "TICKER2", 0, (2025, 6, 15)⟩, .OFFER, "T3Y", .MARKET, 100 + 1 / 256, 2000000, 0,
            "", false⟩ : ExecutionOrder))
      ∈ received 0 (BondAlgoExecutionService.deliver (BondAlgoExecutionService.init 1)
        [.ProcessAdd ⟨⟨"T3Y", "TICKER2", 0, (2025, 6, 15)⟩, [⟨100, 1000000, .BID⟩],
            [⟨100 + 1 / 256, 2000000, .OFFER⟩]⟩,
         .ProcessUpdate ⟨⟨"T3Y", "TICKER2", 0, (2025, 6, 15)⟩, [⟨100, 1000000, .BID⟩],
            [⟨100 + 1 / 256, 2000000, .OFFER⟩]⟩]).2 ∧
    ∃ order : ExecutionOrder,
      (ListenerCall.ProcessAdd
        (⟨⟨"T3Y", "TICKER2", 0, (2025, 6, 15)⟩, .OFFER, "T3Y", .MARKET, 100 + 1 / 256, 2000000, 0,
            "", false⟩ : ExecutionOrder)) = .ProcessAdd order := by
  have hmem : (ListenerCall.ProcessAdd
        (⟨⟨"T3Y", "TICKER2", 0, (2025, 6, 15)⟩, .OFFER, "T3Y", .MARKET, 100 + 1 / 256, 2000000, 0,
            "", false⟩ : ExecutionOrder))
      ∈ received 0 (BondAlgoExecutionService.deliver (BondAlgoExecutionService.init 1)
        [.ProcessAdd ⟨⟨"T3Y", "TICKER2", 0, (2025, 6, 15)⟩, [⟨100, 1000000, .BID⟩],
            [⟨100 + 1 / 256, 2000000, .OFFER⟩]⟩,
         .ProcessUpdate ⟨⟨"T3Y", "TICKER2", 0, (2025, 6, 15)⟩, [⟨100, 1000000, .BID⟩],
            [⟨100 + 1 / 256, 2000000, .OFFER⟩]⟩]).2 := by
    simp only [BondAlgoExecutionService.deliver, BondAlgoExecutionService.handle,
      BondAlgoExecutionService.ProcessAdd, BondAlgoExecutionService.ProcessUpdate]
    rw [BondAlgoExecutionService.Execute_of_aggresses _ _ _ _ _ _ (by norm_num)]
    simp only []
    rw [BondAlgoExecutionService.Execute_of_aggresses _ _ _ _ _ _ (by norm_num)]
    simp only [received_append, List.append_nil]
    rw [received_notifyAll_of_lt _ _ _ (by decide), received_notifyAll_of_lt _ _ _ (by decide)]
    simp [BondAlgoExecutionService.orderOf, BondAlgoExecutionService.init, Bond.GetProductId]
  exact ⟨hmem, C20_every_order_delivered_as_add _ _ 0 _ hmem⟩

/-! ## Inquiries: the store after a new inquiry, and rejection -/

/-- C21 (the code departs from the claim): after `BondInquiryService::OnMessage`
has finished processing a new RECEIVED inquiry, `GetData(inquiryId)` returns
the inquiry as it arrived, in state RECEIVED and with the price it came with:
the nested calls for the QUOTED and DONE inquiries `emplace` under a key that
is already present, which leaves the stored entry as it was. -/
theorem C21_store_keeps_received (fuel : Nat) (s : BondInquiryService) (data : Inquiry)
    (hstate : data.state = .RECEIVED)
    (hnew : StrMap.find s.inquiryMap data.inquiryId = none) :
    ∃ s2 log, BondInquiryService.OnMessage (fuel + 2) s data = .ok (s2, log) ∧
      BondInquiryService.GetData s2 data.inquiryId = .ok data := by
  refine ⟨_, _, BondInquiryService.OnMessage_received_new fuel s data hstate hnew, ?_⟩
  have hfind : StrMap.find (s.inquiryMap ++ [(data.inquiryId, data)]) data.inquiryId
      = some data := by
    rw [StrMap.find_append_of_none _ _ _ hnew]
    simp [StrMap.find]
  simp only [BondInquiryService.GetData, StrMap.at, hfind]

/-- C21 at the failing input: the inquiry `INQ1 T2Y BUY 5000` arrives in state
RECEIVED with price 0 at a service with an empty store and one listener; after
`OnMessage` the store returns it in state RECEIVED with price 0, which is not
the inquiry in state DONE with price 100. -/
theorem C21_store_keeps_received_witness :
    (∃ s2 log,
      BondInquiryService.OnMessage 2 ⟨[], 1⟩
          ⟨"INQ1", ⟨"T2Y", "TICKER1", 0, (2024, 12, 22)⟩, .BUY, 5000, 0, .RECEIVED⟩
        = .ok (s2, log) ∧
      BondInquiryService.GetData s2 "INQ1"
        = .ok ⟨"INQ1", ⟨"T2Y", "TICKER1", 0, (2024, 12, 22)⟩, .BUY, 5000, 0, .RECEIVED⟩) ∧
    (⟨"INQ1", ⟨"T2Y", "TICKER1", 0, (2024, 12, 22)⟩, .BUY, 5000, 0, .RECEIVED⟩ : Inquiry)
      ≠ ⟨"INQ1", ⟨"T2Y", "TICKER1", 0, (2024, 12, 22)⟩, .BUY, 5000, 100, .DONE⟩ :=
  ⟨C21_store_keeps_received 0 ⟨[], 1⟩
    ⟨"INQ1", ⟨"T2Y", "TICKER1", 0, (2024, 12, 22)⟩, .BUY, 5000, 0, .RECEIVED⟩ rfl rfl,
    by decide⟩

/-- C22: for every InquiryId present in the store,
`BondInquiryService::RejectInquiry` returns and hands each listener exactly one
ProcessUpdate, carrying an inquiry with the id asked for (the key under which
the inquiry is stored), the product, side, quantity and price of the stored
inquiry, and state REJECTED; for an InquiryId that is not in the store it
fails with `out_of_range` (thrown by `at` before any listener is called). -/
theorem C22_reject_inquiry (s : BondInquiryService) (inquiryId : String) :
    (∀ stored : Inquiry, StrMap.find s.inquiryMap inquiryId = some stored →
      ∃ log, BondInquiryService.RejectInquiry s inquiryId = .ok (s, log) ∧
        ∀ i, i < s.listeners →
          received i log =
            [.ProcessUpdate
              ⟨inquiryId, stored.product, stored.side, stored.quantity, stored.price, .REJECTED⟩]) ∧
    (StrMap.find s.inquiryMap inquiryId = none →
      BondInquiryService.RejectInquiry s inquiryId = .error .out_of_range) := by
  constructor
  · intro stored h
    refine ⟨notifyAll s.listeners (.ProcessUpdate
      ⟨inquiryId, stored.product, stored.side, stored.quantity, stored.price, .REJECTED⟩), ?_, ?_⟩
    · simp only [BondInquiryService.RejectInquiry, StrMap.at, h, bind, Except.bind, pure,
        Except.pure]
    · intro i hi
      exact received_notifyAll_of_lt _ _ _ hi
  · intro h
    simp only [BondInquiryService.RejectInquiry, StrMap.at, h, bind, Except.bind]

/-! ## Lookups in the keyed stores -/

/-- C23: for each of `BondPricingService`, `BondTradeBookingService`,
`BondPositionService` and `BondRiskService`, `GetData(key)` returns the stored
record when the key is present and fails with the key-not-found error (a
`runtime_error`) when it is absent.  `GetData` only reads the map: it is a
function of the store, and there is no store after the call other than the
store before it. -/
theorem C23_get_data (key : String) :
    (∀ s : BondPricingService,
      BondPricingService.GetData s key =
        (match StrMap.find s.bondPriceMap key with
          | some record => .ok record
          | none => .error .runtime_error)) ∧
    (∀ s : BondTradeBookingService,
      BondTradeBookingService.GetData s key =
        (match StrMap.find s.tradeMap key with
          | some record => .ok record
          | none => .error .runtime_error)) ∧
    (∀ s : BondPositionService,
      BondPositionService.GetData s key =
        (match StrMap.find s.positionMap key with
          | some record => .ok record
          | none => .error .runtime_error)) ∧
    (∀ s : BondRiskService,
      BondRiskService.GetData s key =
        (match StrMap.find s.riskMap key with
          | some record => .ok record
          | none => .error .runtime_error)) ∧
    (∀ (s : BondPricingService) (record : Price),
      BondPricingService.GetData (BondPricingService.OnMessage s record).1
        record.product.GetProductId = .ok record) ∧
    (∀ (s : BondTradeBookingService) (record : Trade),
      StrMap.find s.tradeMap record.tradeId = none →
      BondTradeBookingService.GetData (BondTradeBookingService.OnMessage s record).1
        record.tradeId = .ok record) ∧
    BondPricingService.GetData (BondPricingService.init 1) key = .error .runtime_error := by
  refine ⟨fun s => rfl, fun s => rfl, fun s => rfl, fun s => rfl, ?_, ?_, rfl⟩
  · intro s record
    simp only [BondPricingService.GetData, BondPricingService.find_OnMessage_self]
  · intro s record h
    rw [BondTradeBookingService.OnMessage_new s record h]
    simp only [BondTradeBookingService.GetData, StrMap.find_append_of_none _ _ _ h]
    simp [StrMap.find]

/-! ## Risk without a price -/

/-- C24: if the PricingService holds no Price for the position's product,
`BondRiskService::AddPosition` fails with the key-not-found error of
`BondPricingService::GetData`, and so do `ProcessAdd` and `ProcessUpdate`, which
call it without catching: the lookup is the first statement, before any write
to the risk store and before any call on a listener, so that no new store and
no listener call result. -/
theorem C24_add_position_without_price (analytics : BondAnalytics)
    (pricingService : BondPricingService) (s : BondRiskService) (position : Position)
    (hprice : StrMap.find pricingService.bondPriceMap position.product.GetProductId = none) :
    BondRiskService.AddPosition analytics pricingService s position = .error .runtime_error ∧
    BondRiskService.ProcessAdd analytics pricingService s position = .error .runtime_error ∧
    BondRiskService.ProcessUpdate analytics pricingService s position = .error .runtime_error := by
  have h : BondRiskService.AddPosition analytics pricingService s position
      = .error .runtime_error := by
    simp only [BondRiskService.AddPosition, BondPricingService.GetData, hprice, bind, Except.bind]
  exact ⟨h, h, h⟩

/-- C24 at a position of 1000 in T2Y while the PricingService as constructed
holds no price. -/
theorem C24_add_position_without_price_witness :
    BondRiskService.AddPosition ⟨fun _ _ _ => 0, fun _ _ _ _ => 0, fun _ => 1000⟩
        (BondPricingService.init 0) ⟨[], 1⟩
        ⟨⟨"T2Y", "TICKER1", 0, (2024, 12, 22)⟩, [("TRSY1", 1000)]⟩ = .error .runtime_error ∧
    BondRiskService.ProcessAdd ⟨fun _ _ _ => 0, fun _ _ _ _ => 0, fun _ => 1000⟩
        (BondPricingService.init 0) ⟨[], 1⟩
        ⟨⟨"T2Y", "TICKER1", 0, (2024, 12, 22)⟩, [("TRSY1", 1000)]⟩ = .error .runtime_error ∧
    BondRiskService.ProcessUpdate ⟨fun _ _ _ => 0, fun _ _ _ _ => 0, fun _ => 1000⟩
        (BondPricingService.init 0) ⟨[], 1⟩
        ⟨⟨"T2Y", "TICKER1", 0, (2024, 12, 22)⟩, [("TRSY1", 1000)]⟩ = .error .runtime_error :=
  C24_add_position_without_price ⟨fun _ _ _ => 0, fun _ _ _ _ => 0, fun _ => 1000⟩
    (BondPricingService.init 0) ⟨[], 1⟩
    ⟨⟨"T2Y", "TICKER1", 0, (2024, 12, 22)⟩, [("TRSY1", 1000)]⟩ rfl

/-! ## Product reference data -/

/-- C25 (the code departs from the claim): `BondProductService::GetData` for a
product id that was never added does not fail: `bondMap[productId]` inserts a
default-constructed Bond under that id and returns it, so that the catalog
holds an entry for the id afterwards. -/
theorem C25_missing_product_inserted (dflt : Bond) (s : BondProductService) (productId : String)
    (habsent : StrMap.find s.bondMap productId = none) :
    BondProductService.GetData dflt s productId
      = (⟨s.bondMap ++ [(productId, dflt)]⟩, dflt) ∧
    StrMap.find (BondProductService.GetData dflt s productId).1.bondMap productId = some dflt := by
  have h : BondProductService.GetData dflt s productId
      = (⟨s.bondMap ++ [(productId, dflt)]⟩, dflt) := by
    simp only [BondProductService.GetData, habsent, StrMap.emplace]
  refine ⟨h, ?_⟩
  rw [h]
  simp only [StrMap.find_append_of_none _ _ _ habsent]
  simp [StrMap.find]

/-- C25 at the failing input: the catalog holds T2Y only and `GetData("T99Y")`
is called; the call returns the default-constructed Bond and the catalog then
holds two entries. -/
theorem C25_missing_product_inserted_witness :
    BondProductService.GetData ⟨"", "", 0, (0, 0, 0)⟩
        (BondProductService.Add ⟨[]⟩ ⟨"T2Y", "TICKER1", 0, (2024, 12, 22)⟩) "T99Y"
      = (⟨[("T2Y", ⟨"T2Y", "TICKER1", 0, (2024, 12, 22)⟩)] ++ [("T99Y", ⟨"", "", 0, (0, 0, 0)⟩)]⟩,
          ⟨"", "", 0, (0, 0, 0)⟩) ∧
    StrMap.find (BondProductService.GetData ⟨"", "", 0, (0, 0, 0)⟩
        (BondProductService.Add ⟨[]⟩ ⟨"T2Y", "TICKER1", 0, (2024, 12, 22)⟩) "T99Y").1.bondMap
        "T99Y" = some ⟨"", "", 0, (0, 0, 0)⟩ :=
  C25_missing_product_inserted ⟨"", "", 0, (0, 0, 0)⟩
    (BondProductService.Add ⟨[]⟩ ⟨"T2Y", "TICKER1", 0, (2024, 12, 22)⟩) "T99Y" (by decide)

/-! ## Execution: child orders without a parent -/

/-- C26: for every child ExecutionOrder whose parentOrderId is not a key of the
execution store, `BondExecutionService::ExecuteOrder` returns with the service
exactly as it was (the store unchanged, the book cursor not advanced) and
without a call on any listener, whatever the order type and the market; so do
`ProcessAdd` and `ProcessUpdate`, which call it. -/
theorem C26_dangling_child_dropped (s : BondExecutionService) (order : ExecutionOrder)
    (market : Market) (hchild : order.isChildOrder = true)
    (hparent : StrMap.find s.executionMap order.parentOrderId = none) :
    BondExecutionService.ExecuteOrder s order market = .ok (s, []) ∧
    BondExecutionService.ProcessAdd s order = .ok (s, []) ∧
    BondExecutionService.ProcessUpdate s order = .ok (s, []) ∧
    ∀ i, received i ([] : CallLog Trade) = [] := by
  have hd : BondExecutionService.dropped s order := ⟨hchild, by rw [hparent]; rfl⟩
  exact ⟨BondExecutionService.ExecuteOrder_dropped s order market hd,
    BondExecutionService.ExecuteOrder_dropped s order .BROKERTEC hd,
    BondExecutionService.ExecuteOrder_dropped s order .BROKERTEC hd, fun _ => rfl⟩

/-- C26 at a MARKET child order of T3Y whose parent `P1` is unknown to the
service as constructed with one listener. -/
theorem C26_dangling_child_dropped_witness :
    BondExecutionService.ExecuteOrder (BondExecutionService.init 1)
        ⟨⟨"T3Y", "TICKER2", 0, (2025, 6, 15)⟩, .BID, "C1", .MARKET, 100, 1000000, 0, "P1", true⟩
        .BROKERTEC
      = .ok (BondExecutionService.init 1, []) ∧
    BondExecutionService.ProcessAdd (BondExecutionService.init 1)
        ⟨⟨"T3Y", "TICKER2", 0, (2025, 6, 15)⟩, .BID, "C1", .MARKET, 100, 1000000, 0, "P1", true⟩
      = .ok (BondExecutionService.init 1, []) ∧
    BondExecutionService.ProcessUpdate (BondExecutionService.init 1)
        ⟨⟨"T3Y", "TICKER2", 0, (2025, 6, 15)⟩, .BID, "C1", .MARKET, 100, 1000000, 0, "P1", true⟩
      = .ok (BondExecutionService.init 1, []) ∧
    ∀ i, received i ([] : CallLog Trade) = [] :=
  C26_dangling_child_dropped (BondExecutionService.init 1)
    ⟨⟨"T3Y", "TICKER2", 0, (2025, 6, 15)⟩, .BID, "C1", .MARKET, 100, 1000000, 0, "P1", true⟩
    .BROKERTEC rfl rfl

/-! ## Trade booking: removal -/

/-- C27: for a trade whose TradeId is in the store,
`BondTradeBookingService::ProcessRemove` erases that entry, so that
`GetData(tradeId)` then fails, leaves the other entries alone and hands each
listener exactly one ProcessRemove carrying the trade; for a TradeId that is
not in the store it returns the service unchanged and calls nobody. -/
theorem C27_trade_remove (s : BondTradeBookingService) (data : Trade) :
    (∀ stored : Trade, StrMap.find s.tradeMap data.tradeId = some stored →
      BondTradeBookingService.GetData (BondTradeBookingService.ProcessRemove s data).1
          data.tradeId = .error .runtime_error ∧
      (∀ tradeId : String, tradeId ≠ data.tradeId →
        BondTradeBookingService.GetData (BondTradeBookingService.ProcessRemove s data).1 tradeId
          = BondTradeBookingService.GetData s tradeId) ∧
      (∀ i, i < s.listeners →
        received i (BondTradeBookingService.ProcessRemove s data).2 = [.ProcessRemove data])) ∧
    (StrMap.find s.tradeMap data.tradeId = none →
      BondTradeBookingService.ProcessRemove s data = (s, [])) := by
  constructor
  · intro stored h
    have hrun : BondTradeBookingService.ProcessRemove s data =
        (⟨StrMap.erase s.tradeMap data.tradeId, s.listeners⟩,
          notifyAll s.listeners (.ProcessRemove data)) := by
      simp only [BondTradeBookingService.ProcessRemove, h]
    rw [hrun]
    refine ⟨?_, ?_, ?_⟩
    · simp only [BondTradeBookingService.GetData, StrMap.find_erase_self]
    · intro tradeId hne
      simp only [BondTradeBookingService.GetData, StrMap.find_erase_ne _ _ _ (Ne.symm hne)]
    · intro i hi
      exact received_notifyAll_of_lt _ _ _ hi
  · intro h
    simp only [BondTradeBookingService.ProcessRemove, h]

/-! ## GUI throttling -/

theorem le_truncate_iff (x : ℚ) : (300 : Int) ≤ truncate x ↔ (300 : ℚ) ≤ x := by
  unfold truncate
  by_cases h : 0 ≤ x
  · rw [if_pos h, Int.le_floor]
    norm_num
  · rw [if_neg h]
    have hx : x < 0 := lt_of_not_le h
    constructor
    · intro h2
      have h3 : ⌈x⌉ ≤ 0 := Int.ceil_le.mpr (by exact_mod_cast hx.le)
      omega
    · intro h2
      linarith

namespace GUIService

theorem PriceUpdate_of_due (now : ℚ) (currentTime : String) (s : GUIService) (price : Price)
    (h : due s now) :
    PriceUpdate now currentTime s price =
      ⟨StrMap.emplace s.priceMap price.product.GetProductId price, s.fileOpen,
        if s.fileOpen then s.file ++ [lineOf ⟨now, currentTime, price⟩] else s.file,
        now, s.printCount + 1, price.product.GetProductId⟩ := by
  have hc : s.printCount < 100 ∧ truncate (now - s.lastUpdateTime) ≥ 300 :=
    ⟨h.1, (le_truncate_iff _).mpr h.2⟩
  simp only [PriceUpdate, hc, and_self, if_true, lineOf]

theorem PriceUpdate_of_not_due (now : ℚ) (currentTime : String) (s : GUIService) (price : Price)
    (h : ¬ due s now) :
    PriceUpdate now currentTime s price =
      ⟨StrMap.emplace s.priceMap price.product.GetProductId price, s.fileOpen, s.file,
        s.lastUpdateTime, s.printCount, price.product.GetProductId⟩ := by
  have hc : ¬ (s.printCount < 100 ∧ truncate (now - s.lastUpdateTime) ≥ 300) := by
    intro hc
    exact h ⟨hc.1, (le_truncate_iff _).mp hc.2⟩
  simp only [PriceUpdate, hc, if_false]

theorem writeTimes_of_closed (events : List PriceEvent) :
    ∀ s : GUIService, s.fileOpen = false → writeTimes s events = [] := by
  induction events with
  | nil => intro s _; rfl
  | cons e rest ih =>
    intro s hs
    by_cases hd : due s e.now
    · simp only [writeTimes, PriceUpdate_of_due _ _ _ _ hd, hs, Bool.false_eq_true, if_false,
        if_true, List.nil_append]
      exact ih _ rfl
    · simp only [writeTimes, PriceUpdate_of_not_due _ _ _ _ hd, if_true, List.nil_append]
      exact ih _ hs

theorem writeTimes_chain (events : List PriceEvent) :
    ∀ s : GUIService,
      List.Chain (fun a b : ℚ => 300 ≤ b - a) s.lastUpdateTime (writeTimes s events) := by
  induction events with
  | nil => intro s; exact List.Chain.nil
  | cons e rest ih =>
    intro s
    cases hopen : s.fileOpen with
    | false =>
      rw [writeTimes_of_closed _ s hopen]
      exact List.Chain.nil
    | true =>
      by_cases hd : due s e.now
      · have hlen : ¬ ((s.file ++ [lineOf ⟨e.now, e.currentTime, e.price⟩]).length
            = s.file.length) := by simp
        have ih2 := ih (PriceUpdate e.now e.currentTime s e.price)
        simp only [PriceUpdate_of_due _ _ _ _ hd, hopen, if_true] at ih2
        simp only [writeTimes, PriceUpdate_of_due _ _ _ _ hd, hopen, if_true, hlen, if_false,
          List.singleton_append]
        exact List.Chain.cons hd.2 ih2
      · have ih2 := ih (PriceUpdate e.now e.currentTime s e.price)
        simp only [PriceUpdate_of_not_due _ _ _ _ hd] at ih2
        simp only [writeTimes, PriceUpdate_of_not_due _ _ _ _ hd, if_true, List.nil_append]
        exact ih2

theorem writeTimes_length (events : List PriceEvent) :
    ∀ s : GUIService, s.printCount ≤ 100 →
      ((writeTimes s events).length : Int) ≤ 100 - s.printCount := by
  induction events with
  | nil =>
    intro s hs
    simp only [writeTimes, List.length_nil, Nat.cast_zero]
    omega
  | cons e rest ih =>
    intro s hs
    by_cases hd : due s e.now
    · have hlt : s.printCount < 100 := hd.1
      have h2 := ih (PriceUpdate e.now e.currentTime s e.price)
        (by rw [PriceUpdate_of_due _ _ _ _ hd]; show s.printCount + 1 ≤ 100; omega)
      have h3 : (PriceUpdate e.now e.currentTime s e.price).printCount = s.printCount + 1 := by
        rw [PriceUpdate_of_due _ _ _ _ hd]
      rw [h3] at h2
      simp only [writeTimes, List.length_append, Nat.cast_add]
      split
      · simp only [List.length_nil, Nat.cast_zero]
        omega
      · simp only [List.length_singleton, Nat.cast_one]
        omega
    · have h2 := ih (PriceUpdate e.now e.currentTime s e.price)
        (by rw [PriceUpdate_of_not_due _ _ _ _ hd]; exact hs)
      have h3 : (PriceUpdate e.now e.currentTime s e.price).printCount = s.printCount := by
        rw [PriceUpdate_of_not_due _ _ _ _ hd]
      have h4 : (PriceUpdate e.now e.currentTime s e.price).file.length = s.file.length := by
        rw [PriceUpdate_of_not_due _ _ _ _ hd]
      rw [h3] at h2
      simp only [writeTimes, h4, if_true, List.nil_append]
      exact h2

theorem run_file_length (events : List PriceEvent) :
    ∀ s : GUIService, (run s events).file.length = s.file.length + (writeTimes s events).length := by
  induction events with
  | nil => intro s; rfl
  | cons e rest ih =>
    intro s
    simp only [run, writeTimes, ih, List.length_append]
    by_cases hd : due s e.now
    · rw [PriceUpdate_of_due _ _ _ _ hd]
      cases hopen : s.fileOpen
      · simp
      · simp
        omega
    · rw [PriceUpdate_of_not_due _ _ _ _ hd]
      simp

end GUIService

/-- C28 as stated fails: a service whose output file could not be opened,
constructed at steady-clock reading 0, receives a price at reading 300.  The
throttle lets the event through (`printCount` 0 is below 100 and 300 ms have
elapsed), no line is written, and `printCount` is incremented and the
last-write time reset all the same. -/
theorem C28_closed_file_counterexample :
    GUIService.due (GUIService.init false 0) 300 ∧
    (GUIService.PriceUpdate 300 "12:00:00.300" (GUIService.init false 0)
      ⟨⟨"T2Y", "TICKER1", 0, (2024, 12, 22)⟩, 100, 1 / 128⟩).file = [] ∧
    (GUIService.PriceUpdate 300 "12:00:00.300" (GUIService.init false 0)
      ⟨⟨"T2Y", "TICKER1", 0, (2024, 12, 22)⟩, 100, 1 / 128⟩).printCount = 1 ∧
    (GUIService.PriceUpdate 300 "12:00:00.300" (GUIService.init false 0)
      ⟨⟨"T2Y", "TICKER1", 0, (2024, 12, 22)⟩, 100, 1 / 128⟩).lastUpdateTime = 300 := by
  have hd : GUIService.due (GUIService.init false 0) 300 := by
    simp only [GUIService.due, GUIService.init]
    norm_num
  rw [GUIService.PriceUpdate_of_due _ _ _ _ hd]
  exact ⟨hd, rfl, rfl, rfl⟩

/-- C28 (amended): with the two clocks as inputs, `GUIService::PriceUpdate`
writes a line if and only if `printCount < 100`, at least 300 ms have elapsed
since `lastUpdateTime` (the last reset, or the construction) and the file is
open; it increments `printCount` and resets `lastUpdateTime` exactly when
`printCount < 100` and at least 300 ms have elapsed.  Hence over any sequence
of price events handed to the service as constructed at `start`, at most 100
lines are written, the first written line is at least 300 ms after `start`, and
any two consecutive written lines are at least 300 ms apart. -/
theorem C28_gui_throttle (s : GUIService) (e : PriceEvent) (fileOpen : Bool) (start : ℚ)
    (events : List PriceEvent) :
    (GUIService.PriceUpdate e.now e.currentTime s e.price).file =
      (if GUIService.due s e.now ∧ s.fileOpen = true then s.file ++ [GUIService.lineOf e]
        else s.file) ∧
    (GUIService.PriceUpdate e.now e.currentTime s e.price).printCount =
      (if GUIService.due s e.now then s.printCount + 1 else s.printCount) ∧
    (GUIService.PriceUpdate e.now e.currentTime s e.price).lastUpdateTime =
      (if GUIService.due s e.now then e.now else s.lastUpdateTime) ∧
    (GUIService.PriceUpdate e.now e.currentTime s e.price).fileOpen = s.fileOpen ∧
    (GUIService.due s e.now ↔ s.printCount < 100 ∧ 300 ≤ e.now - s.lastUpdateTime) ∧
    (GUIService.run (GUIService.init fileOpen start) events).file.length =
      (GUIService.writeTimes (GUIService.init fileOpen start) events).length ∧
    (GUIService.writeTimes (GUIService.init fileOpen start) events).length ≤ 100 ∧
    List.Chain (fun a b : ℚ => 300 ≤ b - a) start
      (GUIService.writeTimes (GUIService.init fileOpen start) events) := by
  refine ⟨?_, ?_, ?_, ?_, Iff.rfl, ?_, ?_, ?_⟩
  · by_cases hd : GUIService.due s e.now
    · rw [GUIService.PriceUpdate_of_due _ _ _ _ hd]
      cases hopen : s.fileOpen <;> simp [hd]
    · rw [GUIService.PriceUpdate_of_not_due _ _ _ _ hd]
      simp [hd]
  · by_cases hd : GUIService.due s e.now
    · rw [GUIService.PriceUpdate_of_due _ _ _ _ hd, if_pos hd]
    · rw [GUIService.PriceUpdate_of_not_due _ _ _ _ hd, if_neg hd]
  · by_cases hd : GUIService.due s e.now
    · rw [GUIService.PriceUpdate_of_due _ _ _ _ hd, if_pos hd]
    · rw [GUIService.PriceUpdate_of_not_due _ _ _ _ hd, if_neg hd]
  · by_cases hd : GUIService.due s e.now
    · rw [GUIService.PriceUpdate_of_due _ _ _ _ hd]
    · rw [GUIService.PriceUpdate_of_not_due _ _ _ _ hd]
  · rw [GUIService.run_file_length]
    simp [GUIService.init]
  · have h := GUIService.writeTimes_length events (GUIService.init fileOpen start)
      (by simp [GUIService.init])
    simp only [GUIService.init, sub_zero] at h
    simp only [GUIService.init]
    omega
  · exact GUIService.writeTimes_chain events (GUIService.init fileOpen start)

/-! ## The fractional format -/

/-- C29 fails as stated: 2^31 is a non-negative price, and so is
2^31 - 1/512 = 2147483647 + 511/512.  At the first, `static_cast<int>(price)`
is beyond the range of `int`; at the second `whole` is 2147483647, the ticks
round to 256 and `++whole` overflows.  The source defines no text for either,
while the format of the claim is the text `2147483648-00` for both. -/
theorem C29_int_range_counterexample :
    (0 : ℚ) ≤ 2147483648 ∧
    GUIService.ConvertToFrac 2147483648 = none ∧
    (0 : ℚ) ≤ 2147483648 - 1 / 512 ∧
    GUIService.ConvertToFrac (2147483648 - 1 / 512) = none ∧
    Spec.fractionalFormat 2147483648 = "2147483648-00" ∧
    Spec.fractionalFormat (2147483648 - 1 / 512) = "2147483648-00" := by
  have hf1 : ⌊(2147483648 : ℚ)⌋ = 2147483648 := by
    rw [Int.floor_eq_iff]
    constructor <;> norm_num
  have hf2 : ⌊(2147483648 : ℚ) - 1 / 512⌋ = 2147483647 := by
    rw [Int.floor_eq_iff]
    constructor <;> norm_num
  have hr1 : round (((2147483648 : ℚ) - ((2147483648 : Int) : ℚ)) * 256) = 0 := by
    norm_num
  have hr2 : round (((2147483648 : ℚ) - 1 / 512 - ((2147483647 : Int) : ℚ)) * 256) = 256 := by
    rw [round_eq, Int.floor_eq_iff]
    constructor <;> norm_num
  refine ⟨by norm_num, ConvertToFrac_undefined _ (by norm_num) (by norm_num), by norm_num,
    ConvertToFrac_undefined _ (by norm_num) (le_refl _), ?_, ?_⟩
  · simp only [Spec.fractionalFormat, hf1, hr1]
    decide
  · simp only [Spec.fractionalFormat, hf2, hr2]
    decide

/-- C29 (amended): for every non-negative price `x` below 2^31 - 1/512,
`GUIService::ConvertToFrac(x)` is the text of the fractional format of the
specification: `w`, a dash, `xy` as two digits and a suffix, where
`w = floor(x)` and `t = round((x - w) * 256)`, carried to `t = 0` and `w + 1`
when `t = 256`, `xy = t div 8`, and the suffix is `+` if `t mod 8 = 4`, the digit
`t mod 8` if that is non-zero and not 4, and empty if `t mod 8 = 0`.  From
2^31 - 1/512 on, the conversion of the price to `int`, or the carry `++whole`,
leaves the range of `int` and the source defines no text. -/
theorem C29_convert_to_frac_format (x : ℚ) (hx : 0 ≤ x) :
    GUIService.ConvertToFrac x =
      (if x < 2147483648 - 1 / 512 then some (Spec.fractionalFormat x) else none) := by
  by_cases hmax : x < 2147483648 - 1 / 512
  · rw [if_pos hmax, ConvertToFrac_defined x hx hmax, fracText_eq_fractionalFormat x hx]
  · rw [if_neg hmax]
    exact ConvertToFrac_undefined x hx (not_lt.mp hmax)

/-- C29 at the price 99.515625 = 25476/256, which both the code and the format of
the specification write `99-16+`. -/
theorem C29_convert_to_frac_format_witness :
    (0 : ℚ) ≤ 25476 / 256 ∧
    GUIService.ConvertToFrac (25476 / 256) = some (Spec.fractionalFormat (25476 / 256)) ∧
    Spec.fractionalFormat (25476 / 256) = "99-16+" := by
  have h := C29_convert_to_frac_format (25476 / 256) (by norm_num)
  rw [if_pos (by norm_num)] at h
  refine ⟨by norm_num, h, ?_⟩
  have hg := fracText_grid 25476
  have hcast : (((25476 : Nat) : ℚ) / 256) = (25476 : ℚ) / 256 := by norm_num
  rw [hcast, fracText_eq_fractionalFormat _ (by norm_num)] at hg
  exact String.ext hg

/-! ## The fractional-tick grammar read by the connectors -/

theorem stoi_two_digits (a b : Nat) (ha : a < 10) (hb : b < 10) :
    stoi ⟨[Nat.digitChar a, Nat.digitChar b]⟩ = .ok ((10 * a + b : Nat) : Int) := by
  interval_cases a <;> interval_cases b <;> rfl

theorem parseFrac_three (a b : Nat) (Z : Char) (ha : a < 10) (hb : b < 10)
    (hZ : Z ∈ ['0', '1', '2', '3', '4', '5', '6', '7', '+']) :
    parseFrac ⟨[Nat.digitChar a, Nat.digitChar b, Z]⟩
      = .ok (((10 * a + b : Nat) : Int), ((eighthsOf Z : Nat) : Int)) := by
  have hsub : substr ⟨[Nat.digitChar a, Nat.digitChar b, Z]⟩ 0 2
      = ⟨[Nat.digitChar a, Nat.digitChar b]⟩ := rfl
  have hz : (if Z = '+' then (4 : Int) else if Z.isDigit = true then (Z.toNat : Int) - 48 else 0)
      = ((eighthsOf Z : Nat) : Int) := by
    simp only [List.mem_cons, List.mem_singleton, List.not_mem_nil, or_false] at hZ
    rcases hZ with h | h | h | h | h | h | h | h | h
    all_goals subst h
    all_goals rfl
  have hlen : ¬ ([Nat.digitChar a, Nat.digitChar b, Z].length = 2) := by simp
  have hlen3 : [Nat.digitChar a, Nat.digitChar b, Z].length > 2 := by simp
  simp only [parseFrac, hlen, if_false, hlen3, if_true, hsub, stoi_two_digits a b ha hb, bind,
    Except.bind, pure, Except.pure, List.getD_cons_succ, List.getD_cons_zero, hz]

/-- C30 as stated fails: the text `2147483648-000` has W = 2^31, an integer
that is not negative, and both connectors fail with `out_of_range`, thrown by
`stoi`, instead of returning 2147483648. -/
theorem C30_large_whole_counterexample :
    BondPricingConnector.ConvertToDouble (fun _ => .error .invalid_argument) "2147483648-000"
      = .error .out_of_range ∧
    MarketDataConnector.ConvertToDouble (fun _ => .error .invalid_argument) "2147483648-000"
      = .error .out_of_range := by
  constructor <;> rfl

/-- C30 (amended): for every integer `W` with 0 <= W <= 2147483647 (the range of
`int`), written in decimal, every two-digit `XY` (the digits `a` and `b`) and
every `Z` that is a digit 0..7 or the character `+`, `ConvertToDouble` applied
to the text `W-XYZ` returns `W + (8*XY + z)/256`, where `z = 4` for `+` and `z`
is the digit otherwise; the pricing and the market-data connector compute the
same value, on that text and on every other. -/
theorem C30_convert_to_double_value (stod : String → Except Error ℚ) (W a b : Nat) (Z : Char)
    (hW : W ≤ 2147483647) (ha : a < 10) (hb : b < 10)
    (hZ : Z ∈ ['0', '1', '2', '3', '4', '5', '6', '7', '+']) :
    BondPricingConnector.ConvertToDouble stod
        ⟨Nat.toDigits 10 W ++ '-' :: [Nat.digitChar a, Nat.digitChar b, Z]⟩
      = .ok ((W : ℚ) + (8 * ((10 * a + b : Nat) : ℚ) + ((eighthsOf Z : Nat) : ℚ)) / 256) ∧
    MarketDataConnector.ConvertToDouble stod
        ⟨Nat.toDigits 10 W ++ '-' :: [Nat.digitChar a, Nat.digitChar b, Z]⟩
      = .ok ((W : ℚ) + (8 * ((10 * a + b : Nat) : ℚ) + ((eighthsOf Z : Nat) : ℚ)) / 256) ∧
    (∀ fraction : String,
      MarketDataConnector.ConvertToDouble stod fraction
        = BondPricingConnector.ConvertToDouble stod fraction) := by
  have h : BondPricingConnector.ConvertToDouble stod
        ⟨Nat.toDigits 10 W ++ '-' :: [Nat.digitChar a, Nat.digitChar b, Z]⟩
      = .ok ((W : ℚ) + (8 * ((10 * a + b : Nat) : ℚ) + ((eighthsOf Z : Nat) : ℚ)) / 256) := by
    rw [ConvertToDouble_of_data stod _ W [Nat.digitChar a, Nat.digitChar b, Z] rfl hW,
      parseFrac_three a b Z ha hb hZ]
    simp only [Int.cast_natCast]
  exact ⟨h, h, fun _ => rfl⟩

/-- C30 (amended) at the text `99-16+`, which both connectors read as
99 + 132/256 = 99.515625. -/
theorem C30_convert_to_double_value_witness :
    BondPricingConnector.ConvertToDouble (fun _ => .error .invalid_argument) "99-16+"
      = .ok (99515625 / 1000000) ∧
    MarketDataConnector.ConvertToDouble (fun _ => .error .invalid_argument) "99-16+"
      = .ok (99515625 / 1000000) := by
  have h := C30_convert_to_double_value (fun _ => .error .invalid_argument) 99 1 6 '+'
    (by decide) (by decide) (by decide) (by decide)
  have hv : ((99 : Nat) : ℚ) + (8 * ((10 * 1 + 6 : Nat) : ℚ) + ((eighthsOf '+' : Nat) : ℚ)) / 256
      = 99515625 / 1000000 := by
    have he : eighthsOf '+' = 4 := rfl
    rw [he]
    norm_num
  rw [hv] at h
  exact ⟨h.1, h.2.1⟩

/-! ## Market data: the stored book -/

theorem sort_bids (stack : List Order) :
    (sort (fun a b => decide (a.price > b.price)) stack).Perm stack ∧
    (sort (fun a b => decide (a.price > b.price)) stack).Pairwise
      (fun a b => a.price ≥ b.price) := by
  haveI : IsTotal Order (fun a b => decide (b.price > a.price) = false) :=
    ⟨fun a b => by
      simp only [decide_eq_false_iff_not, not_lt]
      exact le_total b.price a.price⟩
  haveI : IsTrans Order (fun a b => decide (b.price > a.price) = false) :=
    ⟨fun a b c h1 h2 => by
      simp only [decide_eq_false_iff_not, not_lt, gt_iff_lt] at h1 h2 ⊢
      exact le_trans h2 h1⟩
  refine ⟨List.perm_insertionSort _ stack, ?_⟩
  have h := List.sorted_insertionSort (fun a b : Order => decide (b.price > a.price) = false) stack
  refine List.Pairwise.imp ?_ h
  intro a b hab
  simpa using hab

theorem sort_offers (stack : List Order) :
    (sort (fun a b => decide (a.price < b.price)) stack).Perm stack ∧
    (sort (fun a b => decide (a.price < b.price)) stack).Pairwise
      (fun a b => a.price ≤ b.price) := by
  haveI : IsTotal Order (fun a b => decide (b.price < a.price) = false) :=
    ⟨fun a b => by
      simp only [decide_eq_false_iff_not, not_lt]
      exact le_total a.price b.price⟩
  haveI : IsTrans Order (fun a b => decide (b.price < a.price) = false) :=
    ⟨fun a b c h1 h2 => by
      simp only [decide_eq_false_iff_not, not_lt] at h1 h2 ⊢
      exact le_trans h1 h2⟩
  refine ⟨List.perm_insertionSort _ stack, ?_⟩
  have h := List.sorted_insertionSort (fun a b : Order => decide (b.price < a.price) = false) stack
  refine List.Pairwise.imp ?_ h
  intro a b hab
  simpa using hab

namespace BondMarketDataService

theorem OnMessage_new_book (s : BondMarketDataService) (data : OrderBook)
    (hbook : StrMap.find s.orderBookMap data.product.GetProductId = none) :
    ∃ s2, OnMessage s data = .ok (s2, notifyAll s.listeners (.ProcessAdd data)) ∧
      s2.orderBookMap = StrMap.emplace s.orderBookMap data.product.GetProductId (sortedBook data) ∧
      s2.listeners = s.listeners := by
  have hfind1 := StrMap.find_emplace_new s.orderBookMap data.product.GetProductId
    (sortedBook data) hbook
  have hagg1 := AggregateDepth_eq
    ⟨StrMap.emplace s.orderBookMap data.product.GetProductId (sortedBook data),
      s.aggregatedOrderBookMap, s.listeners⟩
    data.product.GetProductId (sortedBook data) hfind1
  have hvalue : OnMessage s data =
      (AggregateDepth
        ⟨StrMap.emplace s.orderBookMap data.product.GetProductId (sortedBook data),
          s.aggregatedOrderBookMap, s.listeners⟩
        data.product.GetProductId).bind
        (fun r => .ok (r.1, notifyAll s.listeners (.ProcessAdd data))) := by
    simp only [OnMessage, hbook, sortedBook, Option.isNone_none, if_true, bind, pure,
      Except.pure]
  have hself := StrMap.find_emplace_self s.aggregatedOrderBookMap data.product.GetProductId
    (viewOf (sortedBook data))
  rw [hvalue, hagg1]
  simp only [StrMap.at, hself, Except.map, Except.bind]
  exact ⟨_, rfl, rfl, rfl⟩

end BondMarketDataService

/-- C31: for an OrderBook whose product has no stored book yet,
`BondMarketDataService::OnMessage` returns, and the book then returned by
`GetData(productId)` carries the product, a bid stack that is a permutation of
the incoming bids in non-increasing price order, and an offer stack that is a
permutation of the incoming offers in non-decreasing price order. -/
theorem C31_stored_book_sorted (s : BondMarketDataService) (data : OrderBook)
    (hbook : StrMap.find s.orderBookMap data.product.GetProductId = none) :
    ∃ s2 log book,
      BondMarketDataService.OnMessage s data = .ok (s2, log) ∧
      BondMarketDataService.GetData s2 data.product.GetProductId = .ok book ∧
      book.product = data.product ∧
      book.bidStack.Perm data.bidStack ∧
      book.bidStack.Pairwise (fun a b => a.price ≥ b.price) ∧
      book.offerStack.Perm data.offerStack ∧
      book.offerStack.Pairwise (fun a b => a.price ≤ b.price) := by
  obtain ⟨s2, hrun, hmap, _⟩ := BondMarketDataService.OnMessage_new_book s data hbook
  have hfind : StrMap.find s2.orderBookMap data.product.GetProductId
      = some (BondMarketDataService.sortedBook data) := by
    rw [hmap]
    exact StrMap.find_emplace_new _ _ _ hbook
  refine ⟨s2, _, BondMarketDataService.sortedBook data, hrun, ?_, rfl,
    (sort_bids data.bidStack).1, (sort_bids data.bidStack).2,
    (sort_offers data.offerStack).1, (sort_offers data.offerStack).2⟩
  simp only [BondMarketDataService.GetData, hfind]

/-- C31 at the T3Y book with bids 99 x 100, 100 x 200 and offers 102 x 20,
101 x 10 fed to a service with empty stores and one listener. -/
theorem C31_stored_book_sorted_witness :
    ∃ s2 log book,
      BondMarketDataService.OnMessage ⟨[], [], 1⟩
          ⟨⟨"T3Y", "TICKER2", 0, (2025, 6, 15)⟩, [⟨99, 100, .BID⟩, ⟨100, 200, .BID⟩],
            [⟨102, 20, .OFFER⟩, ⟨101, 10, .OFFER⟩]⟩ = .ok (s2, log) ∧
      BondMarketDataService.GetData s2 "T3Y" = .ok book ∧
      book.product = ⟨"T3Y", "TICKER2", 0, (2025, 6, 15)⟩ ∧
      book.bidStack.Perm [⟨99, 100, .BID⟩, ⟨100, 200, .BID⟩] ∧
      book.bidStack.Pairwise (fun a b => a.price ≥ b.price) ∧
      book.offerStack.Perm [⟨102, 20, .OFFER⟩, ⟨101, 10, .OFFER⟩] ∧
      book.offerStack.Pairwise (fun a b => a.price ≤ b.price) :=
  C31_stored_book_sorted ⟨[], [], 1⟩
    ⟨⟨"T3Y", "TICKER2", 0, (2025, 6, 15)⟩, [⟨99, 100, .BID⟩, ⟨100, 200, .BID⟩],
      [⟨102, 20, .OFFER⟩, ⟨101, 10, .OFFER⟩]⟩ rfl

/-! ## Pricing into algo streaming into streaming -/

namespace BondAlgoStreamingService

theorem handle_ite (s : BondAlgoStreamingService) (c : Prop) [Decidable c] (price : Price) :
    handle s (if c then .ProcessAdd price else .ProcessUpdate price) = ProcessPrice s price := by
  split <;> rfl

theorem find_ProcessPrice_self (s : BondAlgoStreamingService) (price : Price) :
    (StrMap.find (ProcessPrice s price).1.algoStreamMap price.product.GetProductId).isNone
      = false := by
  simp only [ProcessPrice]
  rw [StrMap.find_modify_self]
  rfl

theorem find_ProcessPrice_ne (s : BondAlgoStreamingService) (price : Price) (productId : String)
    (hne : price.product.GetProductId ≠ productId) :
    StrMap.find (ProcessPrice s price).1.algoStreamMap productId
      = StrMap.find s.algoStreamMap productId := by
  simp only [ProcessPrice]
  rw [StrMap.find_modify_ne _ _ _ _ _ hne]
  split
  · rw [StrMap.find_emplace_ne _ _ _ _ hne]
  · rfl

theorem streamOf_product (s : BondAlgoStreamingService) (price : Price) :
    (streamOf s price).product = price.product := rfl

end BondAlgoStreamingService

namespace BondStreamingService

theorem handle_stream_ite (s : BondStreamingService) (c : Prop) [Decidable c] (ps : PriceStream) :
    handle s (if c then .ProcessAdd ps else .ProcessUpdate ps) = PublishPrice s ps := by
  split <;> rfl

theorem PublishPrice_log (s : BondStreamingService) (ps : PriceStream) :
    (PublishPrice s ps).2 =
      notifyAll s.listeners
        (if (StrMap.find s.priceStreamMap ps.product.GetProductId).isNone
          then .ProcessAdd ps else .ProcessUpdate ps) := rfl

theorem find_PublishPrice_self (s : BondStreamingService) (ps : PriceStream) :
    (StrMap.find (PublishPrice s ps).1.priceStreamMap ps.product.GetProductId).isNone
      = false := by
  simp only [PublishPrice, StrMap.find_emplace_self]
  rfl

theorem find_PublishPrice_ne (s : BondStreamingService) (ps : PriceStream) (productId : String)
    (hne : ps.product.GetProductId ≠ productId) :
    StrMap.find (PublishPrice s ps).1.priceStreamMap productId
      = StrMap.find s.priceStreamMap productId := by
  simp only [PublishPrice]
  exact StrMap.find_emplace_ne _ _ _ _ hne

end BondStreamingService

theorem streamingPipeline_cons (pricing : BondPricingService) (algo : BondAlgoStreamingService)
    (streaming : BondStreamingService) (i j : Nat) (price : Price) (rest : List Price)
    (hi : i < pricing.listeners) (hj : j < algo.listeners) :
    streamingPipeline pricing algo streaming i j (price :: rest) =
      ((BondAlgoStreamingService.ProcessPrice algo price).2 ++
          (streamingPipeline (BondPricingService.OnMessage pricing price).1
            (BondAlgoStreamingService.ProcessPrice algo price).1
            (BondStreamingService.PublishPrice streaming
              (BondAlgoStreamingService.streamOf algo price)).1 i j rest).1,
        (BondStreamingService.PublishPrice streaming
            (BondAlgoStreamingService.streamOf algo price)).2 ++
          (streamingPipeline (BondPricingService.OnMessage pricing price).1
            (BondAlgoStreamingService.ProcessPrice algo price).1
            (BondStreamingService.PublishPrice streaming
              (BondAlgoStreamingService.streamOf algo price)).1 i j rest).2) := by
  simp only [streamingPipeline, BondPricingService.feed, received_append,
    BondPricingService.OnMessage_log, received_notifyAll_of_lt _ _ _ hi, List.singleton_append,
    BondAlgoStreamingService.deliver, BondAlgoStreamingService.handle_ite,
    BondAlgoStreamingService.ProcessPrice_log, received_notifyAll_of_lt _ _ _ hj,
    BondStreamingService.deliver, BondStreamingService.handle_stream_ite]

theorem streamingPipeline_calls (prices : List Price) :
    ∀ (pricing : BondPricingService) (algo : BondAlgoStreamingService)
      (streaming : BondStreamingService) (seen : List String) (i j k : Nat),
      i < pricing.listeners → j < algo.listeners → k < streaming.listeners →
      (∀ productId, (StrMap.find algo.algoStreamMap productId).isNone
        = decide (productId ∉ seen)) →
      (∀ productId, (StrMap.find streaming.priceStreamMap productId).isNone
        = decide (productId ∉ seen)) →
      received k (streamingPipeline pricing algo streaming i j prices).2
        = received j (streamingPipeline pricing algo streaming i j prices).1 ∧
      (received k (streamingPipeline pricing algo streaming i j prices).2).map ListenerCall.isAdd
        = firstSeen seen (prices.map (fun p => p.product.GetProductId)) ∧
      (received k (streamingPipeline pricing algo streaming i j prices).2).map
          (fun c => c.data.product)
        = prices.map (fun p => p.product) := by
  induction prices with
  | nil =>
    intro pricing algo streaming seen i j k _ _ _ _ _
    exact ⟨rfl, rfl, rfl⟩
  | cons price rest ih =>
    intro pricing algo streaming seen i j k hi hj hk halgo hstr
    have hstr2 := hstr price.product.GetProductId
    have halgo2 := halgo price.product.GetProductId
    obtain ⟨h1, h2, h3⟩ := ih (BondPricingService.OnMessage pricing price).1
      (BondAlgoStreamingService.ProcessPrice algo price).1
      (BondStreamingService.PublishPrice streaming
        (BondAlgoStreamingService.streamOf algo price)).1
      (price.product.GetProductId :: seen) i j k
      (by rw [BondPricingService.OnMessage_listeners]; exact hi) hj hk
      (by
        intro productId
        by_cases hp : price.product.GetProductId = productId
        · subst hp
          rw [BondAlgoStreamingService.find_ProcessPrice_self]
          simp
        · rw [BondAlgoStreamingService.find_ProcessPrice_ne _ _ _ hp, halgo]
          have hp2 : ¬ productId = price.product.GetProductId := fun h => hp h.symm
          simp [hp2])
      (by
        intro productId
        by_cases hp : price.product.GetProductId = productId
        · subst hp
          rw [← BondAlgoStreamingService.streamOf_product algo price,
            BondStreamingService.find_PublishPrice_self]
          simp [BondAlgoStreamingService.streamOf_product]
        · rw [BondStreamingService.find_PublishPrice_ne _ _ _
            (by rw [BondAlgoStreamingService.streamOf_product]; exact hp), hstr]
          have hp2 : ¬ productId = price.product.GetProductId := fun h => hp h.symm
          simp [hp2])
    rw [streamingPipeline_cons _ _ _ _ _ _ _ hi hj]
    simp only [received_append, BondAlgoStreamingService.ProcessPrice_log,
      BondStreamingService.PublishPrice_log, received_notifyAll_of_lt _ _ _ hj,
      received_notifyAll_of_lt _ _ _ hk, BondAlgoStreamingService.streamOf_product,
      List.singleton_append, List.map_cons, hstr2, halgo2]
    refine ⟨?_, ?_, ?_⟩
    · rw [h1]
    · rw [h2]
      by_cases hs : price.product.GetProductId ∈ seen <;> simp [hs, ListenerCall.isAdd, firstSeen]
    · rw [h3]
      simp only [List.cons.injEq, and_true]
      split <;> rfl

/-- C32: with `BondStreamingService` registered as listener number `j` of
`BondAlgoStreamingService`, itself listener number `i` of `BondPricingService`,
all three as constructed, and any sequence of prices fed to
`BondPricingService::OnMessage`, each listener `k` of the streaming service
receives exactly the calls the algo streaming service made on the streaming
service: one PriceStream per price, of the product of that price, delivered as
ProcessAdd for the first price of a product and as ProcessUpdate afterwards;
two identical prices give two emissions with visible size 1,000,000 then
2,000,000. -/
theorem C32_streaming_passthrough (n1 n2 n3 : Nat) (connector : Bool) (i j k : Nat)
    (prices : List Price) (hi : i < n1) (hj : j < n2) (hk : k < n3) :
    received k (streamingPipeline (BondPricingService.init n1) (BondAlgoStreamingService.init n2)
        (BondStreamingService.init n3 connector) i j prices).2
      = received j (streamingPipeline (BondPricingService.init n1)
        (BondAlgoStreamingService.init n2) (BondStreamingService.init n3 connector) i j prices).1 ∧
    (received k (streamingPipeline (BondPricingService.init n1) (BondAlgoStreamingService.init n2)
        (BondStreamingService.init n3 connector) i j prices).2).length = prices.length ∧
    (received k (streamingPipeline (BondPricingService.init n1) (BondAlgoStreamingService.init n2)
        (BondStreamingService.init n3 connector) i j prices).2).map ListenerCall.isAdd
      = firstSeen [] (prices.map (fun p => p.product.GetProductId)) ∧
    (received k (streamingPipeline (BondPricingService.init n1) (BondAlgoStreamingService.init n2)
        (BondStreamingService.init n3 connector) i j prices).2).map (fun c => c.data.product)
      = prices.map (fun p => p.product) ∧
    (∀ p : Price,
      (received k (streamingPipeline (BondPricingService.init n1)
        (BondAlgoStreamingService.init n2) (BondStreamingService.init n3 connector) i j
        [p, p]).2).map
          (fun c => (c.isAdd, c.data.bidOrder.visibleQuantity, c.data.offerOrder.visibleQuantity))
        = [(true, 1000000, 1000000), (false, 2000000, 2000000)]) := by
  have hall := fun prices => streamingPipeline_calls prices (BondPricingService.init n1)
    (BondAlgoStreamingService.init n2) (BondStreamingService.init n3 connector) [] i j k hi hj hk
    (fun _ => rfl) (fun _ => rfl)
  obtain ⟨h1, h2, h3⟩ := hall prices
  refine ⟨h1, ?_, h2, h3, ?_⟩
  · have hlen := congrArg List.length h3
    simpa using hlen
  · intro p
    have hi2 : i < (BondPricingService.OnMessage (BondPricingService.init n1) p).1.listeners := by
      rw [BondPricingService.OnMessage_listeners]
      exact hi
    have ht1 : BondAlgoStreamingService.toggleOf (BondAlgoStreamingService.init n2)
        p.product.GetProductId = true := rfl
    have ht2 : BondAlgoStreamingService.toggleOf
        (BondAlgoStreamingService.ProcessPrice (BondAlgoStreamingService.init n2) p).1
        p.product.GetProductId = false := by
      rw [BondAlgoStreamingService.toggleOf_ProcessPrice_self, ht1]
      rfl
    have hn1 : (StrMap.find (BondStreamingService.init n3 connector).priceStreamMap
        p.product.GetProductId).isNone = true := rfl
    have hn2 : (StrMap.find (BondStreamingService.PublishPrice
        (BondStreamingService.init n3 connector)
        (BondAlgoStreamingService.streamOf (BondAlgoStreamingService.init n2) p)).1.priceStreamMap
        p.product.GetProductId).isNone = false := by
      rw [← BondAlgoStreamingService.streamOf_product (BondAlgoStreamingService.init n2) p]
      exact BondStreamingService.find_PublishPrice_self _ _
    rw [streamingPipeline_cons _ _ _ _ _ _ _ hi hj, streamingPipeline_cons _ _ _ _ _ _ _ hi2 hj]
    simp only [received_append, BondStreamingService.PublishPrice_log,
      BondAlgoStreamingService.streamOf_product, hn1, hn2, if_true]
    rw [received_notifyAll_of_lt _ _ _
        (show k < (BondStreamingService.init n3 connector).listeners from hk),
      received_notifyAll_of_lt _ _ _ (show k < (BondStreamingService.PublishPrice
        (BondStreamingService.init n3 connector)
        (BondAlgoStreamingService.streamOf (BondAlgoStreamingService.init n2) p)).1.listeners
        from hk)]
    simp [streamingPipeline, BondPricingService.feed, BondAlgoStreamingService.deliver,
      BondStreamingService.deliver, received, ListenerCall.isAdd, ListenerCall.data,
      BondAlgoStreamingService.streamOf, ht1, ht2]

/-- C32 for two identical T2Y prices, each service having one listener. -/
theorem C32_streaming_passthrough_witness :
    (received 0 (streamingPipeline (BondPricingService.init 1) (BondAlgoStreamingService.init 1)
        (BondStreamingService.init 1 false) 0 0
        [⟨⟨"T2Y", "TICKER1", 0, (2024, 12, 22)⟩, 100, 1 / 128⟩,
         ⟨⟨"T2Y", "TICKER1", 0, (2024, 12, 22)⟩, 100, 1 / 128⟩]).2).map
          (fun c => (c.isAdd, c.data.bidOrder.visibleQuantity, c.data.offerOrder.visibleQuantity))
      = [(true, 1000000, 1000000), (false, 2000000, 2000000)] :=
  (C32_streaming_passthrough 1 1 1 false 0 0 0 [] (by decide) (by decide) (by decide)).2.2.2.2
    ⟨⟨"T2Y", "TICKER1", 0, (2024, 12, 22)⟩, 100, 1 / 128⟩

/-! ## Market data into algo execution -/

theorem aggressPipeline_new_book (marketData : BondMarketDataService)
    (algo : BondAlgoExecutionService) (i : Nat) (data : OrderBook)
    (hi : i < marketData.listeners)
    (hbook : StrMap.find marketData.orderBookMap data.product.GetProductId = none) :
    aggressPipeline marketData algo i data
      = .ok (BondAlgoExecutionService.Execute algo data).2 := by
  obtain ⟨s2, hrun, _, _⟩ := BondMarketDataService.OnMessage_new_book marketData data hbook
  simp only [aggressPipeline, hrun, bind, Except.bind, pure, Except.pure,
    received_notifyAll_of_lt _ _ _ hi, BondAlgoExecutionService.deliver,
    BondAlgoExecutionService.handle, BondAlgoExecutionService.ProcessAdd, List.append_nil]

/-- C33 (the code departs from the claim): with `BondAlgoExecutionService`
registered as listener number `i` of `BondMarketDataService`, for every
OrderBook of a product not yet stored, with non-empty stacks, whose first bid
and first offer as received are within the spread bound, the ExecutionOrder
emitted carries the price and quantity of the first order of the aggressed
side's stack as received: `OnMessage` stores a sorted copy and hands the
listeners the book it received, and `Execute` reads `front()`. -/
theorem C33_aggress_reads_incoming_front (marketData : BondMarketDataService)
    (algo : BondAlgoExecutionService) (i : Nat) (product : Bond) (b o : Order)
    (bs os : List Order) (hi : i < marketData.listeners)
    (hbook : StrMap.find marketData.orderBookMap product.GetProductId = none)
    (htight : o.price - b.price ≤ 1 / 128 + 1 / 1000000000) :
    aggressPipeline marketData algo i ⟨product, b :: bs, o :: os⟩
      = .ok (notifyAll algo.listeners
          (.ProcessAdd (BondAlgoExecutionService.orderOf algo product b o))) ∧
    (BondAlgoExecutionService.orderOf algo product b o).price
      = (if algo.lastAggressBid then o.price else b.price) ∧
    (BondAlgoExecutionService.orderOf algo product b o).visibleQuantity
      = (if algo.lastAggressBid then (o.quantity : ℚ) else (b.quantity : ℚ)) := by
  refine ⟨?_, ?_, ?_⟩
  · rw [aggressPipeline_new_book marketData algo i _ hi hbook,
      BondAlgoExecutionService.Execute_of_aggresses algo product b o bs os htight]
  · cases h : algo.lastAggressBid <;> simp [BondAlgoExecutionService.orderOf, h]
  · cases h : algo.lastAggressBid <;> simp [BondAlgoExecutionService.orderOf, h]

/-- C33 at the failing input: the T3Y book with bids 100 - 1/256 x 1,000,000 and
100 x 2,000,000, in that order, and the offer 100 + 1/256 x 3,000,000 is fed to
a market data service with one listener, the algo execution service as
constructed.  The order emitted aggresses the bid at 100 - 1/256 for 1,000,000,
while the highest bid of the book is 100 for 2,000,000. -/
theorem C33_aggress_reads_incoming_front_witness :
    aggressPipeline ⟨[], [], 1⟩ (BondAlgoExecutionService.init 1) 0
        ⟨⟨"T3Y", "TICKER2", 0, (2025, 6, 15)⟩,
          [⟨100 - 1 / 256, 1000000, .BID⟩, ⟨100, 2000000, .BID⟩],
          [⟨100 + 1 / 256, 3000000, .OFFER⟩]⟩
      = .ok (notifyAll 1 (.ProcessAdd
          ⟨⟨"T3Y", "TICKER2", 0, (2025, 6, 15)⟩, .BID, "T3Y", .MARKET, 100 - 1 / 256,
            ((1000000 : Int) : ℚ), 0, "", false⟩)) ∧
    (100 - 1 / 256 : ℚ) < 100 :=
  ⟨(C33_aggress_reads_incoming_front ⟨[], [], 1⟩ (BondAlgoExecutionService.init 1) 0
      ⟨"T3Y", "TICKER2", 0, (2025, 6, 15)⟩ ⟨100 - 1 / 256, 1000000, .BID⟩
      ⟨100 + 1 / 256, 3000000, .OFFER⟩ [⟨100, 2000000, .BID⟩] [] (by decide) rfl
      (by norm_num)).1,
    by norm_num⟩

/-! ## Trade ids -/

theorem trade_prefix_injective (a b : String) (h : "TRADE_" ++ a = "TRADE_" ++ b) : a = b := by
  have h2 := congrArg String.data h
  simp only [String.data_append] at h2
  exact String.ext (List.append_cancel_left h2)

namespace BondExecutionService

theorem tradeId_of_received (s s2 : BondExecutionService) (order : ExecutionOrder)
    (market : Market) (log : CallLog Trade) (h : ExecuteOrder s order market = .ok (s2, log))
    (i : Nat) (c : ListenerCall Trade) (hc : c ∈ received i log) :
    c.data.tradeId = "TRADE_" ++ order.orderId := by
  rcases ExecuteOrder_cases s order market s2 log h with hnil | ⟨tradeBook, _, hlog | hlog⟩
  · rw [hnil] at hc
    simp [received] at hc
  · rw [hlog, received_notifyAll] at hc
    split at hc
    · rw [List.mem_singleton] at hc
      rw [hc]
      rfl
    · simp at hc
  · rw [hlog, received_notifyAll] at hc
    split at hc
    · rw [List.mem_singleton] at hc
      rw [hc]
      rfl
    · simp at hc

theorem ExecuteOrder_market (s : BondExecutionService) (hv : cursorValid s)
    (order : ExecutionOrder) (market : Market) (hchild : order.isChildOrder = false)
    (htype : order.orderType = .MARKET) :
    ∃ s2, ExecuteOrder s order market
        = .ok (s2, notifyAll s.listeners
            (.ProcessUpdate (tradeOf order (bookAt s.currentTradeBookIndex)))) ∧
      cursorValid s2 ∧ s2.listeners = s.listeners := by
  have hd := not_dropped_of_not_child s order hchild
  have hb := get?_of_cursorValid s hv
  have hrun := ExecuteOrder_fills s order market hd (Or.inl htype) _ hb
  rw [find_stored_of_not_child s order hchild] at hrun
  simp only [Bool.false_eq_true, if_false] at hrun
  obtain ⟨hs1, hs2, hs3⟩ := stored_cursor s order
  have hlen : s.tradeBooks.length = 3 := by rw [hv.1]; rfl
  refine ⟨_, hrun, ⟨?_, ?_⟩, hs3⟩
  · show (stored s order).tradeBooks = _
    rw [hs1]
    exact hv.1
  · show (s.currentTradeBookIndex + 1) % s.tradeBooks.length < 3
    rw [hlen]
    exact Nat.mod_lt _ (by decide)

end BondExecutionService

/-- C34 as stated fails: the algo execution service and the execution service
as constructed, each with one listener, receive the same tight T3Y book twice
(front bid 100 x 1,000,000, front offer 100 + 1/256 x 2,000,000).  Two
executions follow, and both trades carry the TradeId `TRADE_T3Y`. -/
theorem C34_same_trade_id_counterexample :
    ∃ first second : Trade,
      executionPipeline (BondAlgoExecutionService.init 1) (BondExecutionService.init 1) 0 0
          [.ProcessAdd ⟨⟨"T3Y", "TICKER2", 0, (2025, 6, 15)⟩, [⟨100, 1000000, .BID⟩],
              [⟨100 + 1 / 256, 2000000, .OFFER⟩]⟩,
           .ProcessUpdate ⟨⟨"T3Y", "TICKER2", 0, (2025, 6, 15)⟩, [⟨100, 1000000, .BID⟩],
              [⟨100 + 1 / 256, 2000000, .OFFER⟩]⟩]
        = .ok [first, second] ∧
      first.tradeId = "TRADE_T3Y" ∧ second.tradeId = "TRADE_T3Y" ∧
      first.book = "TRSY1" ∧ second.book = "TRSY2" ∧
      first.side = .BUY ∧ second.side = .SELL := by
  have horders : received 0 (BondAlgoExecutionService.deliver (BondAlgoExecutionService.init 1)
        [.ProcessAdd ⟨⟨"T3Y", "TICKER2", 0, (2025, 6, 15)⟩, [⟨100, 1000000, .BID⟩],
            [⟨100 + 1 / 256, 2000000, .OFFER⟩]⟩,
         .ProcessUpdate ⟨⟨"T3Y", "TICKER2", 0, (2025, 6, 15)⟩, [⟨100, 1000000, .BID⟩],
            [⟨100 + 1 / 256, 2000000, .OFFER⟩]⟩]).2
      = [.ProcessAdd
          ⟨⟨"T3Y", "TICKER2", 0, (2025, 6, 15)⟩, .BID, "T3Y", .MARKET, 100, 1000000, 0, "", false⟩,
         .ProcessAdd
          ⟨⟨"T3Y", "TICKER2", 0, (2025, 6, 15)⟩, .OFFER, "T3Y", .MARKET, 100 + 1 / 256, 2000000, 0,
            "", false⟩] := by
    simp only [BondAlgoExecutionService.deliver, BondAlgoExecutionService.handle,
      BondAlgoExecutionService.ProcessAdd, BondAlgoExecutionService.ProcessUpdate]
    rw [BondAlgoExecutionService.Execute_of_aggresses _ _ _ _ _ _ (by norm_num)]
    simp only []
    rw [BondAlgoExecutionService.Execute_of_aggresses _ _ _ _ _ _ (by norm_num)]
    simp only [received_append, List.append_nil]
    rw [received_notifyAll_of_lt _ _ _ (by decide), received_notifyAll_of_lt _ _ _ (by decide)]
    simp [BondAlgoExecutionService.orderOf, BondAlgoExecutionService.init, Bond.GetProductId]
  obtain ⟨s2, h1, hv2, hl2⟩ := BondExecutionService.ExecuteOrder_market
    (BondExecutionService.init 1) (BondExecutionService.cursorValid_init 1)
    ⟨⟨"T3Y", "TICKER2", 0, (2025, 6, 15)⟩, .BID, "T3Y", .MARKET, 100, 1000000, 0, "", false⟩
    .BROKERTEC rfl rfl
  obtain ⟨s3, h2, _, _⟩ := BondExecutionService.ExecuteOrder_market s2 hv2
    ⟨⟨"T3Y", "TICKER2", 0, (2025, 6, 15)⟩, .OFFER, "T3Y", .MARKET, 100 + 1 / 256, 2000000, 0,
      "", false⟩ .BROKERTEC rfl rfl
  have hc2 : s2.currentTradeBookIndex = 1 := by
    have hrun := BondExecutionService.ExecuteOrder_fills (BondExecutionService.init 1)
      ⟨⟨"T3Y", "TICKER2", 0, (2025, 6, 15)⟩, .BID, "T3Y", .MARKET, 100, 1000000, 0, "", false⟩
      .BROKERTEC (BondExecutionService.not_dropped_of_not_child _ _ rfl) (Or.inl rfl) "TRSY1" rfl
    rw [hrun] at h1
    injection h1 with h1
    injection h1 with h1 _
    rw [← h1]
    rfl
  refine ⟨BondExecutionService.tradeOf
      ⟨⟨"T3Y", "TICKER2", 0, (2025, 6, 15)⟩, .BID, "T3Y", .MARKET, 100, 1000000, 0, "", false⟩
      (BondExecutionService.bookAt 0),
    BondExecutionService.tradeOf
      ⟨⟨"T3Y", "TICKER2", 0, (2025, 6, 15)⟩, .OFFER, "T3Y", .MARKET, 100 + 1 / 256, 2000000, 0,
        "", false⟩ (BondExecutionService.bookAt 1), ?_, rfl, rfl, rfl, rfl, rfl, rfl⟩
  simp only [executionPipeline, horders, BondExecutionService.deliver,
    BondExecutionService.handle, BondExecutionService.ProcessAdd, h1, h2, bind, Except.bind,
    pure, Except.pure, received_append, hl2, hc2]
  rw [received_notifyAll_of_lt _ _ _ (by decide), received_notifyAll_of_lt _ _ _ (by decide)]
  rfl

/-- C34 (amended): every Trade emitted by `BondExecutionService::ExecuteOrder`
carries the TradeId `TRADE_` followed by the OrderId of the order executed;
hence the trades of executions of orders with distinct OrderIds carry distinct
TradeIds, and the trades of executions of orders with the same OrderId, such as
the orders `BondAlgoExecutionService` emits for one product, carry the same
TradeId. -/
theorem C34_trade_id_of_order_id (s1 s2 t1 t2 : BondExecutionService)
    (order1 order2 : ExecutionOrder) (market1 market2 : Market) (log1 log2 : CallLog Trade)
    (h1 : BondExecutionService.ExecuteOrder s1 order1 market1 = .ok (t1, log1))
    (h2 : BondExecutionService.ExecuteOrder s2 order2 market2 = .ok (t2, log2))
    (i1 i2 : Nat) (c1 c2 : ListenerCall Trade)
    (hc1 : c1 ∈ received i1 log1) (hc2 : c2 ∈ received i2 log2) :
    c1.data.tradeId = "TRADE_" ++ order1.orderId ∧
    c2.data.tradeId = "TRADE_" ++ order2.orderId ∧
    (order1.orderId ≠ order2.orderId → c1.data.tradeId ≠ c2.data.tradeId) ∧
    (order1.orderId = order2.orderId → c1.data.tradeId = c2.data.tradeId) := by
  have e1 := BondExecutionService.tradeId_of_received s1 t1 order1 market1 log1 h1 i1 c1 hc1
  have e2 := BondExecutionService.tradeId_of_received s2 t2 order2 market2 log2 h2 i2 c2 hc2
  refine ⟨e1, e2, ?_, ?_⟩
  · intro hne heq
    rw [e1, e2] at heq
    exact hne (trade_prefix_injective _ _ heq)
  · intro heq
    rw [e1, e2, heq]

/-- C34 (amended) at two MARKET orders with the OrderIds `A` and `B`, each
executed by a service as constructed with one listener: the trades carry
`TRADE_A` and `TRADE_B`. -/
theorem C34_trade_id_of_order_id_witness :
    (ListenerCall.ProcessUpdate (BondExecutionService.tradeOf
        ⟨⟨"T3Y", "TICKER2", 0, (2025, 6, 15)⟩, .BID, "A", .MARKET, 100, 1000000, 0, "", false⟩
        (BondExecutionService.bookAt 0))).data.tradeId = "TRADE_" ++ "A" ∧
    (ListenerCall.ProcessUpdate (BondExecutionService.tradeOf
        ⟨⟨"T3Y", "TICKER2", 0, (2025, 6, 15)⟩, .BID, "B", .MARKET, 100, 1000000, 0, "", false⟩
        (BondExecutionService.bookAt 0))).data.tradeId = "TRADE_" ++ "B" ∧
    ("A" ≠ "B" →
      (ListenerCall.ProcessUpdate (BondExecutionService.tradeOf
        ⟨⟨"T3Y", "TICKER2", 0, (2025, 6, 15)⟩, .BID, "A", .MARKET, 100, 1000000, 0, "", false⟩
        (BondExecutionService.bookAt 0))).data.tradeId ≠
      (ListenerCall.ProcessUpdate (BondExecutionService.tradeOf
        ⟨⟨"T3Y", "TICKER2", 0, (2025, 6, 15)⟩, .BID, "B", .MARKET, 100, 1000000, 0, "", false⟩
        (BondExecutionService.bookAt 0))).data.tradeId) ∧
    ("A" = "B" →
      (ListenerCall.ProcessUpdate (BondExecutionService.tradeOf
        ⟨⟨"T3Y", "TICKER2", 0, (2025, 6, 15)⟩, .BID, "A", .MARKET, 100, 1000000, 0, "", false⟩
        (BondExecutionService.bookAt 0))).data.tradeId =
      (ListenerCall.ProcessUpdate (BondExecutionService.tradeOf
        ⟨⟨"T3Y", "TICKER2", 0, (2025, 6, 15)⟩, .BID, "B", .MARKET, 100, 1000000, 0, "", false⟩
        (BondExecutionService.bookAt 0))).data.tradeId) := by
  obtain ⟨t1, h1, _, _⟩ := BondExecutionService.ExecuteOrder_market
    (BondExecutionService.init 1) (BondExecutionService.cursorValid_init 1)
    ⟨⟨"T3Y", "TICKER2", 0, (2025, 6, 15)⟩, .BID, "A", .MARKET, 100, 1000000, 0, "", false⟩
    .BROKERTEC rfl rfl
  obtain ⟨t2, h2, _, _⟩ := BondExecutionService.ExecuteOrder_market
    (BondExecutionService.init 1) (BondExecutionService.cursorValid_init 1)
    ⟨⟨"T3Y", "TICKER2", 0, (2025, 6, 15)⟩, .BID, "B", .MARKET, 100, 1000000, 0, "", false⟩
    .BROKERTEC rfl rfl
  exact C34_trade_id_of_order_id _ _ t1 t2 _ _ _ _ _ _ h1 h2 0 0 _ _
    (by
      rw [received_notifyAll_of_lt _ _ _ (by decide)]
      exact List.mem_singleton_self _)
    (by
      rw [received_notifyAll_of_lt _ _ _ (by decide)]
      exact List.mem_singleton_self _)

/-! ## Inquiry lines -/

namespace InquiryConnector

theorem takeWhile_token (tok rest : List Char) (h : ∀ c ∈ tok, isspace c = false) :
    (tok ++ ' ' :: rest).takeWhile (fun c => !isspace c) = tok := by
  induction tok with
  | nil => rfl
  | cons c cs ih =>
    have hc := h c (List.mem_cons_self c cs)
    simp only [List.cons_append, List.takeWhile_cons, hc, Bool.not_false, if_true]
    rw [ih (fun x hx => h x (List.mem_cons_of_mem c hx))]

theorem dropWhile_token (tok rest : List Char) (h : ∀ c ∈ tok, isspace c = false) :
    (tok ++ ' ' :: rest).dropWhile (fun c => !isspace c) = ' ' :: rest := by
  induction tok with
  | nil => rfl
  | cons c cs ih =>
    have hc := h c (List.mem_cons_self c cs)
    simp only [List.cons_append, List.dropWhile_cons, hc, Bool.not_false, if_true]
    exact ih (fun x hx => h x (List.mem_cons_of_mem c hx))

theorem dropWhile_isspace_token (tok rest : List Char) (hne : tok ≠ [])
    (h : ∀ c ∈ tok, isspace c = false) :
    (tok ++ rest).dropWhile isspace = tok ++ rest := by
  cases tok with
  | nil => exact absurd rfl hne
  | cons c cs =>
    have hc := h c (List.mem_cons_self c cs)
    simp only [List.cons_append, List.dropWhile_cons, hc]
    rfl

theorem extractString_blank (cs : List Char) : extractString (' ' :: cs) = extractString cs := by
  have h : (' ' :: cs).dropWhile isspace = cs.dropWhile isspace := by
    rw [List.dropWhile_cons]
    rfl
  simp only [extractString, h]

theorem extractString_token (tok rest : List Char) (hne : tok ≠ [])
    (h : ∀ c ∈ tok, isspace c = false) :
    extractString (tok ++ ' ' :: rest) = some (⟨tok⟩, ' ' :: rest) := by
  simp only [extractString, dropWhile_isspace_token tok _ hne h, takeWhile_token tok rest h,
    dropWhile_token tok rest h, hne, if_false]

theorem extractLong_blank_digits (n : Nat) (hmax : n ≤ 9223372036854775807) :
    extractLong (' ' :: Nat.toDigits 10 n) = some ((n : Int), []) := by
  have hspace : ∀ c ∈ decimalDigits, isspace c = false := by decide
  have hisd : ∀ c ∈ decimalDigits, c.isDigit = true := by decide
  have hminus : ∀ c ∈ decimalDigits, c ≠ '-' ∧ c ≠ '+' := by decide
  have hdig := toDigits_mem n
  have hval := digitsValue_toDigits n
  have hblank : (' ' :: Nat.toDigits 10 n).dropWhile isspace
      = (Nat.toDigits 10 n).dropWhile isspace := by
    rw [List.dropWhile_cons]
    rfl
  cases hdata : Nat.toDigits 10 n with
  | nil => exact absurd hdata (toDigits_ne_nil n)
  | cons c cs =>
    rw [hdata] at hdig hval hblank
    have hc := hdig c (List.mem_cons_self c cs)
    have hdrop : (c :: cs).dropWhile isspace = c :: cs := by
      simp [List.dropWhile, hspace c hc]
    have htake : (c :: cs).takeWhile Char.isDigit = c :: cs :=
      List.takeWhile_eq_self_iff.mpr (fun x hx => hisd x (hdig x hx))
    have hrest : (c :: cs).dropWhile Char.isDigit = [] :=
      List.dropWhile_eq_nil_iff.mpr (fun x hx => hisd x (hdig x hx))
    have hsign : (match c :: cs with
        | '-' :: r => (true, r)
        | '+' :: r => (false, r)
        | _ => (false, c :: cs)) = (false, c :: cs) := by
      obtain ⟨h1, h2⟩ := hminus c hc
      split
      · rename_i r heq
        injection heq with heq _
        exact absurd heq h1
      · rename_i r heq
        injection heq with heq _
        exact absurd heq h2
      · rfl
    simp only [extractLong, hblank, hdrop, hsign, htake, hrest, hval]
    simp
    omega

theorem extractFields_lineOf (inquiryId productId sideStr : String) (quantity : Nat)
    (hid : inquiryId.data ≠ [] ∧ ∀ c ∈ inquiryId.data, isspace c = false)
    (hpid : productId.data ≠ [] ∧ ∀ c ∈ productId.data, isspace c = false)
    (hside : sideStr.data ≠ [] ∧ ∀ c ∈ sideStr.data, isspace c = false)
    (hmax : quantity ≤ 9223372036854775807) :
    extractFields (lineOf inquiryId productId sideStr quantity)
      = some (inquiryId, productId, sideStr, (quantity : Int)) := by
  simp only [extractFields, lineOf, extractString_token _ _ hid.1 hid.2, extractString_blank,
    extractString_token _ _ hpid.1 hpid.2, extractString_token _ _ hside.1 hside.2,
    extractLong_blank_digits quantity hmax, bind, Option.bind, pure]

end InquiryConnector

/-- C35 (the code departs from the claim): for every inquiries line made of
inquiryId, productId, side and quantity separated by blanks, with side BUY or
SELL and a product of the catalog, the Inquiry that
`InquiryConnector::Subscribe` feeds to the service has that id, the product of
that id, that quantity, price 0 and state RECEIVED, and side BUY whatever the
line says: the local `side` takes the side of the line, and the constructor is
called with the literal `BUY`. -/
theorem C35_inquiry_side_always_buy (dflt : Bond) (products : BondProductService)
    (inquiryId productId sideStr : String) (quantity : Nat) (bond : Bond)
    (hid : inquiryId.data ≠ [] ∧ ∀ c ∈ inquiryId.data, isspace c = false)
    (hpid : productId.data ≠ [] ∧ ∀ c ∈ productId.data, isspace c = false)
    (hside : sideStr = "BUY" ∨ sideStr = "SELL")
    (hmax : quantity ≤ 9223372036854775807)
    (hbond : StrMap.find products.bondMap productId = some bond) :
    InquiryConnector.lineInquiry dflt products
        (InquiryConnector.lineOf inquiryId productId sideStr quantity)
      = some (products, (if sideStr = "BUY" then Side.BUY else Side.SELL),
          ⟨inquiryId, bond, .BUY, (quantity : Int), 0, .RECEIVED⟩) := by
  have hs : sideStr.data ≠ [] ∧ ∀ c ∈ sideStr.data, isspace c = false := by
    rcases hside with h | h <;> subst h <;> decide
  have hline : (InquiryConnector.lineOf inquiryId productId sideStr quantity).data ≠ [] := by
    obtain ⟨hne, _⟩ := hid
    simp only [InquiryConnector.lineOf]
    intro h
    exact hne (List.append_eq_nil.mp h).1
  simp only [InquiryConnector.lineInquiry, hline, if_false,
    InquiryConnector.extractFields_lineOf inquiryId productId sideStr quantity hid hpid hs hmax,
    BondProductService.GetData, hbond]

/-- C35 at the failing input: the line `INQ2 T2Y SELL 5000` read with a catalog
that holds T2Y; the local `side` is SELL and the Inquiry fed to the service has
side BUY. -/
theorem C35_inquiry_side_always_buy_witness :
    InquiryConnector.lineOf "INQ2" "T2Y" "SELL" 5000 = "INQ2 T2Y SELL 5000" ∧
    InquiryConnector.lineInquiry ⟨"", "", 0, (0, 0, 0)⟩
        (BondProductService.Add ⟨[]⟩ ⟨"T2Y", "TICKER1", 0, (2024, 12, 22)⟩)
        (InquiryConnector.lineOf "INQ2" "T2Y" "SELL" 5000)
      = some (BondProductService.Add ⟨[]⟩ ⟨"T2Y", "TICKER1", 0, (2024, 12, 22)⟩,
          (if "SELL" = "BUY" then Side.BUY else Side.SELL),
          ⟨"INQ2", ⟨"T2Y", "TICKER1", 0, (2024, 12, 22)⟩, .BUY, ((5000 : Nat) : Int), 0,
            .RECEIVED⟩) ∧
    (if "SELL" = "BUY" then Side.BUY else Side.SELL) = Side.SELL :=
  ⟨by decide,
    C35_inquiry_side_always_buy ⟨"", "", 0, (0, 0, 0)⟩
      (BondProductService.Add ⟨[]⟩ ⟨"T2Y", "TICKER1", 0, (2024, 12, 22)⟩)
      "INQ2" "T2Y" "SELL" 5000 ⟨"T2Y", "TICKER1", 0, (2024, 12, 22)⟩
      (by decide) (by decide) (Or.inr rfl) (by decide) (by decide),
    by decide⟩

/-! ## Risk: removal of a position -/

namespace BondRiskService

theorem ProcessRemove_erases (analytics : BondAnalytics) (pricingService : BondPricingService)
    (s : BondRiskService) (data : Position) (entry : PV01 Bond) (price : Price)
    (hentry : StrMap.find s.riskMap data.product.GetProductId = some entry)
    (hprice : pricingService.GetData data.product.GetProductId = .ok price)
    (hzero : entry.quantity - data.GetAggregatePosition = 0) :
    ProcessRemove analytics pricingService s data
      = .ok (⟨StrMap.erase s.riskMap data.product.GetProductId, s.listeners⟩, []) := by
  have hq : entry.quantity + -data.GetAggregatePosition = 0 := by omega
  simp only [ProcessRemove, hentry, hprice, bind, Except.bind, hq, if_true, pure, Except.pure]

theorem ProcessRemove_updates (analytics : BondAnalytics) (pricingService : BondPricingService)
    (s : BondRiskService) (data : Position) (entry : PV01 Bond) (price : Price)
    (hentry : StrMap.find s.riskMap data.product.GetProductId = some entry)
    (hprice : pricingService.GetData data.product.GetProductId = .ok price)
    (hne : entry.quantity - data.GetAggregatePosition ≠ 0) :
    ProcessRemove analytics pricingService s data
      = .ok (⟨StrMap.update s.riskMap data.product.GetProductId
            (fun _ => ⟨data.product,
              entry.pv01 - removalUnit analytics data.product price.mid *
                (data.GetAggregatePosition : ℚ),
              entry.quantity - data.GetAggregatePosition⟩), s.listeners⟩,
          notifyAll s.listeners (.ProcessUpdate ⟨data.product,
            entry.pv01 - removalUnit analytics data.product price.mid *
              (data.GetAggregatePosition : ℚ),
            entry.quantity - data.GetAggregatePosition⟩)) := by
  have hq : ¬ (entry.quantity + -data.GetAggregatePosition = 0) := by omega
  have hv : entry.pv01 + analytics.CalculateDuration data.product
        (analytics.ComputeYield data.product price.mid 2) 1000 2 * price.mid * (1 / 10000) *
        ((-data.GetAggregatePosition : Int) : ℚ)
      = entry.pv01 - removalUnit analytics data.product price.mid *
        (data.GetAggregatePosition : ℚ) := by
    simp only [removalUnit]
    push_cast
    ring
  have hqq : entry.quantity + -data.GetAggregatePosition
      = entry.quantity - data.GetAggregatePosition := by omega
  simp only [ProcessRemove, hentry, hprice, bind, Except.bind, hq, if_false, pure, Except.pure,
    hv, hqq, hne]

end BondRiskService

/-- C36: for a product whose risk entry is (pv01 `v`, quantity `q`) and whose
price is held by the PricingService, and a position of that product with
aggregate `a`, `BondRiskService::ProcessRemove` erases the entry and calls no
listener when `q - a = 0`, so that `GetData` then fails with key-not-found, and
otherwise replaces the entry by (`v - k*a`, `q - a`) and hands each listener one
ProcessUpdate carrying it, where `k` is the per-unit pv01 that `ProcessRemove`
computes at the current mid; in particular `AddPosition(p)` followed by
`ProcessRemove(p)` at an unchanged price makes `GetData` fail. -/
theorem C36_risk_remove (analytics : BondAnalytics) (pricingService : BondPricingService)
    (s : BondRiskService) (data : Position) (entry : PV01 Bond) (price : Price)
    (hentry : StrMap.find s.riskMap data.product.GetProductId = some entry)
    (hprice : pricingService.GetData data.product.GetProductId = .ok price) :
    (entry.quantity - data.GetAggregatePosition = 0 →
      ∃ s2, BondRiskService.ProcessRemove analytics pricingService s data = .ok (s2, []) ∧
        BondRiskService.GetData s2 data.product.GetProductId = .error .runtime_error) ∧
    (entry.quantity - data.GetAggregatePosition ≠ 0 →
      ∃ s2 log, BondRiskService.ProcessRemove analytics pricingService s data = .ok (s2, log) ∧
        BondRiskService.GetData s2 data.product.GetProductId
          = .ok ⟨data.product,
              entry.pv01 - BondRiskService.removalUnit analytics data.product price.mid *
                (data.GetAggregatePosition : ℚ),
              entry.quantity - data.GetAggregatePosition⟩ ∧
        ∀ i, i < s.listeners →
          received i log
            = [.ProcessUpdate ⟨data.product,
                entry.pv01 - BondRiskService.removalUnit analytics data.product price.mid *
                  (data.GetAggregatePosition : ℚ),
                entry.quantity - data.GetAggregatePosition⟩]) ∧
    (∀ s0 : BondRiskService,
      ∃ s1 log1 s2,
        BondRiskService.AddPosition analytics pricingService s0 data = .ok (s1, log1) ∧
        BondRiskService.ProcessRemove analytics pricingService s1 data = .ok (s2, []) ∧
        BondRiskService.GetData s2 data.product.GetProductId = .error .runtime_error) := by
  refine ⟨?_, ?_, ?_⟩
  · intro hzero
    refine ⟨_, BondRiskService.ProcessRemove_erases analytics pricingService s data entry price
      hentry hprice hzero, ?_⟩
    simp only [BondRiskService.GetData, StrMap.find_erase_self]
  · intro hne
    refine ⟨_, _, BondRiskService.ProcessRemove_updates analytics pricingService s data entry
      price hentry hprice hne, ?_, ?_⟩
    · simp only [BondRiskService.GetData, StrMap.find_update_self, hentry, Option.map_some']
    · intro i hi
      exact received_notifyAll_of_lt _ _ _ hi
  · intro s0
    obtain ⟨s1, log1, hadd, _, _, hfind⟩ :=
      BondRiskService.AddPosition_stored analytics pricingService s0 data price hprice
    refine ⟨s1, log1, _, hadd,
      BondRiskService.ProcessRemove_erases analytics pricingService s1 data _ price hfind hprice
        (by simp [BondRiskService.entryFor]), ?_⟩
    simp only [BondRiskService.GetData, StrMap.find_erase_self]

/-- C36 at a T2Y entry (pv01 5, quantity 1000) with mid 100 in the
PricingService and a position of 400 in T2Y, the duration being 2 for every
input: the entry becomes pv01 5 - (2 * 100 / 10000) * 400 = -3, quantity 600. -/
theorem C36_risk_remove_witness :
    ∃ s2 log,
      BondRiskService.ProcessRemove ⟨fun _ _ _ => 0, fun _ _ _ _ => 2, fun _ => 1000⟩
          ⟨[("T2Y", ⟨⟨"T2Y", "TICKER1", 0, (2024, 12, 22)⟩, 100, 1 / 128⟩)], 0⟩
          ⟨[("T2Y", ⟨⟨"T2Y", "TICKER1", 0, (2024, 12, 22)⟩, 5, 1000⟩)], 1⟩
          ⟨⟨"T2Y", "TICKER1", 0, (2024, 12, 22)⟩, [("TRSY1", 400)]⟩ = .ok (s2, log) ∧
      BondRiskService.GetData s2 "T2Y"
        = .ok ⟨⟨"T2Y", "TICKER1", 0, (2024, 12, 22)⟩, -3, 600⟩ ∧
      received 0 log = [.ProcessUpdate ⟨⟨"T2Y", "TICKER1", 0, (2024, 12, 22)⟩, -3, 600⟩] := by
  have h := (C36_risk_remove ⟨fun _ _ _ => 0, fun _ _ _ _ => 2, fun _ => 1000⟩
    ⟨[("T2Y", ⟨⟨"T2Y", "TICKER1", 0, (2024, 12, 22)⟩, 100, 1 / 128⟩)], 0⟩
    ⟨[("T2Y", ⟨⟨"T2Y", "TICKER1", 0, (2024, 12, 22)⟩, 5, 1000⟩)], 1⟩
    ⟨⟨"T2Y", "TICKER1", 0, (2024, 12, 22)⟩, [("TRSY1", 400)]⟩
    ⟨⟨"T2Y", "TICKER1", 0, (2024, 12, 22)⟩, 5, 1000⟩
    ⟨⟨"T2Y", "TICKER1", 0, (2024, 12, 22)⟩, 100, 1 / 128⟩ rfl rfl).2.1 (by decide)
  obtain ⟨s2, log, hrun, hget, hrec⟩ := h
  have hv : (5 : ℚ) - BondRiskService.removalUnit ⟨fun _ _ _ => 0, fun _ _ _ _ => 2, fun _ => 1000⟩
      ⟨"T2Y", "TICKER1", 0, (2024, 12, 22)⟩ 100 *
      ((Position.GetAggregatePosition
        ⟨⟨"T2Y", "TICKER1", 0, (2024, 12, 22)⟩, [("TRSY1", 400)]⟩ : Int) : ℚ) = -3 := by
    have ha : Position.GetAggregatePosition
        ⟨⟨"T2Y", "TICKER1", 0, (2024, 12, 22)⟩, [("TRSY1", 400)]⟩ = 400 := by decide
    rw [ha]
    simp only [BondRiskService.removalUnit]
    norm_num
  have hq : (1000 : Int) - Position.GetAggregatePosition
      ⟨⟨"T2Y", "TICKER1", 0, (2024, 12, 22)⟩, [("TRSY1", 400)]⟩ = 600 := by decide
  simp only [hv, hq] at hget hrec
  exact ⟨s2, log, hrun, hget, hrec 0 (by decide)⟩

/-! ## Trade booking into positions -/

namespace BondTradeBookingService

theorem OnMessage_calls (s : BondTradeBookingService) (data : Trade) :
    (OnMessage s data).2 =
      notifyAll s.listeners
        (if (StrMap.find s.tradeMap data.tradeId).isNone
          then .ProcessAdd data else .ProcessUpdate data) ∧
    (OnMessage s data).1.listeners = s.listeners ∧
    (StrMap.find (OnMessage s data).1.tradeMap data.tradeId).isNone = false := by
  refine ⟨?_, ?_, ?_⟩
  · simp only [OnMessage]
    split <;> rfl
  · simp only [OnMessage]
    split <;> rfl
  · have h : (OnMessage s data).1.tradeMap = StrMap.emplace s.tradeMap data.tradeId data := by
      simp only [OnMessage]
      split <;> rfl
    rw [h, StrMap.find_emplace_self]
    rfl

end BondTradeBookingService

/-- C37: with `BondPositionService` registered as listener number `i` of
`BondTradeBookingService`, feeding the same trade twice to
`BondTradeBookingService::OnMessage` changes the position of the trade's
product in the trade's book by twice the trade's signed quantity, and leaves
every other book and product as it was: the second delivery reaches the
listeners as a ProcessUpdate, which the position service applies through
`AddTrade` like the first. -/
theorem C37_replayed_trade_counts_twice (booking : BondTradeBookingService)
    (position : BondPositionService) (i : Nat) (trade : Trade) (productId book : String)
    (hi : i < booking.listeners) :
    BondPositionService.quantityOf (bookingPipeline booking position i [trade, trade]).2
        productId book =
      BondPositionService.quantityOf position productId book +
        (if productId = trade.product.GetProductId ∧ book = trade.book
          then 2 * trade.signedQuantity else 0) ∧
    received i (BondTradeBookingService.OnMessage
        (BondTradeBookingService.OnMessage booking trade).1 trade).2
      = [.ProcessUpdate trade] ∧
    BondPositionService.ProcessUpdate position trade = BondPositionService.AddTrade position trade
    := by
  obtain ⟨hlog1, hl1, hknown⟩ := BondTradeBookingService.OnMessage_calls booking trade
  obtain ⟨hlog2, _, _⟩ := BondTradeBookingService.OnMessage_calls
    (BondTradeBookingService.OnMessage booking trade).1 trade
  have hi2 : i < (BondTradeBookingService.OnMessage booking trade).1.listeners := by
    rw [hl1]
    exact hi
  have hd : ∀ (s : BondPositionService) (c : Prop) [Decidable c],
      (BondPositionService.deliver s
        [if c then ListenerCall.ProcessAdd trade else ListenerCall.ProcessUpdate trade]).1
        = (BondPositionService.AddTrade s trade).1 := by
    intro s c _
    split <;> rfl
  refine ⟨?_, ?_, rfl⟩
  · simp only [bookingPipeline, hlog1, hlog2, received_notifyAll_of_lt _ _ _ hi,
      received_notifyAll_of_lt _ _ _ hi2, hd, BondPositionService.quantityOf_AddTrade]
    by_cases hc : productId = trade.product.GetProductId ∧ book = trade.book
    · simp only [hc, and_self, if_true]
      ring
    · simp only [hc, if_false]
      ring
  · rw [hlog2, received_notifyAll_of_lt _ _ _ hi2, hknown]
    rfl

/-- C37 at the trade TR1 (T5Y, BUY 1000 in TRSY1) fed twice to a trade booking
service with one listener, the position service starting empty: the position
of T5Y in TRSY1 is 2000. -/
theorem C37_replayed_trade_counts_twice_witness :
    BondPositionService.quantityOf
        (bookingPipeline ⟨[], 1⟩ ⟨[], 0⟩ 0
          [⟨⟨"T5Y", "TICKER3", 0, (2027, 9, 30)⟩, "TR1", 100, "TRSY1", 1000, .BUY⟩,
           ⟨⟨"T5Y", "TICKER3", 0, (2027, 9, 30)⟩, "TR1", 100, "TRSY1", 1000, .BUY⟩]).2
        "T5Y" "TRSY1" = 2000 := by
  have h := (C37_replayed_trade_counts_twice ⟨[], 1⟩ ⟨[], 0⟩ 0
    ⟨⟨"T5Y", "TICKER3", 0, (2027, 9, 30)⟩, "TR1", 100, "TRSY1", 1000, .BUY⟩ "T5Y" "TRSY1"
    (by decide)).1
  rw [h]
  decide

/-! ## Execution: the book cursor -/

namespace BondExecutionService

theorem deliver_cursorValid (calls : List (ListenerCall ExecutionOrder)) :
    ∀ s : BondExecutionService, cursorValid s →
      ∃ s2 log, deliver s calls = .ok (s2, log) ∧ cursorValid s2 := by
  induction calls with
  | nil =>
    intro s hv
    exact ⟨s, [], rfl, hv⟩
  | cons call rest ih =>
    intro s hv
    obtain ⟨s1, log1, h1, hv1, _, _⟩ := handle_step s call hv
    obtain ⟨s2, log2, h2, hv2⟩ := ih s1 hv1
    refine ⟨s2, log1 ++ log2, ?_, hv2⟩
    simp only [deliver, h1, h2, bind, Except.bind, pure, Except.pure]

theorem ExecuteOrder_cursor (s : BondExecutionService) (order : ExecutionOrder) (market : Market)
    (hv : cursorValid s) :
    (dropped s order ∨ ¬ fills order →
      ∃ s2, ExecuteOrder s order market = .ok (s2, []) ∧
        s2.currentTradeBookIndex = s.currentTradeBookIndex ∧ cursorValid s2) ∧
    (¬ dropped s order ∧ fills order →
      ∃ s2 c, ExecuteOrder s order market = .ok (s2, notifyAll s.listeners c) ∧
        c.data = tradeOf order (bookAt s.currentTradeBookIndex) ∧
        s2.currentTradeBookIndex = (s.currentTradeBookIndex + 1) % 3 ∧ cursorValid s2) := by
  obtain ⟨hs1, hs2, hs3⟩ := stored_cursor s order
  have hlen : s.tradeBooks.length = 3 := by rw [hv.1]; rfl
  constructor
  · intro h
    by_cases hd : dropped s order
    · exact ⟨s, ExecuteOrder_dropped s order market hd, rfl, hv⟩
    · have hf : ¬ fills order := h.resolve_left hd
      refine ⟨stored s order, ExecuteOrder_not_fills s order market hd hf, hs2, ?_⟩
      exact ⟨by rw [hs1]; exact hv.1, by rw [hs2]; exact hv.2⟩
  · intro h
    obtain ⟨hd, hf⟩ := h
    have hb := get?_of_cursorValid s hv
    refine ⟨_, _, ExecuteOrder_fills s order market hd hf _ hb, ?_, ?_, ?_, ?_⟩
    · rw [ListenerCall.data_ite]
    · show (s.currentTradeBookIndex + 1) % s.tradeBooks.length = _
      rw [hlen]
    · show (stored s order).tradeBooks = _
      rw [hs1]
      exact hv.1
    · show (s.currentTradeBookIndex + 1) % s.tradeBooks.length < 3
      rw [hlen]
      exact Nat.mod_lt _ (by decide)

end BondExecutionService

/-- C38: in every state that `BondExecutionService` reaches from construction
through any sequence of ProcessAdd, ProcessUpdate and ProcessRemove calls (each
of which returns), the service holds its three books and the cursor
`currentTradeBookIndex` is below 3, so that `tradeBooks[currentTradeBookIndex]`
is one of the books.  In such a state `ExecuteOrder` advances the cursor by one
modulo 3 when the order is executed (a Trade is built and handed to the
listeners) and keeps it when the order is a dropped child order or is not
executed (cancelled, or rejected in all markets); `ProcessRemove` keeps it. -/
theorem C38_cursor_in_range (listeners : Nat) (calls : List (ListenerCall ExecutionOrder)) :
    (∃ s2 log,
      BondExecutionService.deliver (BondExecutionService.init listeners) calls = .ok (s2, log) ∧
      s2.tradeBooks = ["TRSY1", "TRSY2", "TRSY3"] ∧ s2.currentTradeBookIndex < 3 ∧
      s2.tradeBooks.get? s2.currentTradeBookIndex
        = some (BondExecutionService.bookAt s2.currentTradeBookIndex)) ∧
    (∀ (s : BondExecutionService) (order : ExecutionOrder) (market : Market),
      BondExecutionService.cursorValid s →
      (BondExecutionService.dropped s order ∨ ¬ BondExecutionService.fills order →
        ∃ s2, BondExecutionService.ExecuteOrder s order market = .ok (s2, []) ∧
          s2.currentTradeBookIndex = s.currentTradeBookIndex ∧
          BondExecutionService.cursorValid s2) ∧
      (¬ BondExecutionService.dropped s order ∧ BondExecutionService.fills order →
        ∃ s2 c, BondExecutionService.ExecuteOrder s order market
            = .ok (s2, notifyAll s.listeners c) ∧
          c.data = BondExecutionService.tradeOf order
            (BondExecutionService.bookAt s.currentTradeBookIndex) ∧
          s2.currentTradeBookIndex = (s.currentTradeBookIndex + 1) % 3 ∧
          BondExecutionService.cursorValid s2)) ∧
    (∀ (s : BondExecutionService) (data : ExecutionOrder),
      ∃ s2, BondExecutionService.ProcessRemove s data = .ok (s2, []) ∧
        s2.currentTradeBookIndex = s.currentTradeBookIndex ∧ s2.tradeBooks = s.tradeBooks) := by
  refine ⟨?_, ?_, ?_⟩
  · obtain ⟨s2, log, hrun, hv⟩ := BondExecutionService.deliver_cursorValid calls
      (BondExecutionService.init listeners) (BondExecutionService.cursorValid_init listeners)
    exact ⟨s2, log, hrun, hv.1, hv.2, BondExecutionService.get?_of_cursorValid s2 hv⟩
  · intro s order market hv
    exact BondExecutionService.ExecuteOrder_cursor s order market hv
  · intro s data
    simp only [BondExecutionService.ProcessRemove]
    split
    · exact ⟨_, rfl, rfl, rfl⟩
    · exact ⟨_, rfl, rfl, rfl⟩

/-! ## Execution: fill-or-kill orders -/

namespace BondExecutionService

theorem fills_fok_iff (order : ExecutionOrder) (htype : order.orderType = .FOK) :
    fills order ↔ ¬ (order.GetVisibleQuantity ≤ 0 ∧ order.GetHiddenQuantity < order.GetVisibleQuantity)
    := by
  simp only [fills, htype, effectiveQuantity, false_or, true_and]
  have h1 : ¬ (OrderType.FOK = OrderType.MARKET) := by decide
  have h2 : ¬ (OrderType.FOK = OrderType.IOC) := by decide
  simp only [h1, h2, false_and, false_or]
  by_cases hv : order.GetVisibleQuantity > 0
  · simp only [hv, if_true]
    omega
  · simp only [hv, if_false]
    omega

end BondExecutionService

/-- C39: every non-child FOK order whose visible quantity (the `long` returned by
`GetVisibleQuantity`) is positive is EXECUTED by
`BondExecutionService::ExecuteOrder`, in a state whose cursor points into the
books, whatever its hidden quantity and price: the market loop is left with
EXECUTED in the first market and one Trade is handed to every listener.  A FOK
order is CANCELLED exactly when its visible quantity is not positive and its
hidden quantity is below it, and is EXECUTED otherwise. -/
theorem C39_fok_with_visible_executes (s : BondExecutionService) (order : ExecutionOrder)
    (market : Market) (hchild : order.isChildOrder = false) (htype : order.orderType = .FOK)
    (hv : BondExecutionService.cursorValid s) :
    (order.GetVisibleQuantity > 0 →
      BondExecutionService.routeMarkets order (BondExecutionService.effectiveQuantity order)
          [.BROKERTEC, .ESPEED, .CME] .REJECTED = ⟨false, .EXECUTED, []⟩ ∧
      ∃ s2 c, BondExecutionService.ExecuteOrder s order market
          = .ok (s2, notifyAll s.listeners c) ∧
        c.data = BondExecutionService.tradeOf order
          (BondExecutionService.bookAt s.currentTradeBookIndex)) ∧
    ((BondExecutionService.routeMarkets order (BondExecutionService.effectiveQuantity order)
          [.BROKERTEC, .ESPEED, .CME] .REJECTED).executionState = .CANCELLED ↔
      (order.GetVisibleQuantity ≤ 0 ∧ order.GetHiddenQuantity < order.GetVisibleQuantity)) ∧
    ((BondExecutionService.routeMarkets order (BondExecutionService.effectiveQuantity order)
          [.BROKERTEC, .ESPEED, .CME] .REJECTED).executionState = .EXECUTED ↔
      ¬ (order.GetVisibleQuantity ≤ 0 ∧ order.GetHiddenQuantity < order.GetVisibleQuantity)) := by
  have hiff := BondExecutionService.fills_fok_iff order htype
  have hd := BondExecutionService.not_dropped_of_not_child s order hchild
  refine ⟨?_, ?_, ?_⟩
  · intro hvis
    have hf : BondExecutionService.fills order := hiff.mpr (by omega)
    refine ⟨BondExecutionService.routeMarkets_of_fills order hf, ?_⟩
    obtain ⟨s2, c, hrun, hc, _, _⟩ :=
      (BondExecutionService.ExecuteOrder_cursor s order market hv).2 ⟨hd, hf⟩
    exact ⟨s2, c, hrun, hc⟩
  · by_cases hf : BondExecutionService.fills order
    · rw [BondExecutionService.routeMarkets_of_fills order hf]
      have := hiff.mp hf
      constructor
      · intro h
        exact absurd h (by decide)
      · intro h
        exact absurd h this
    · rw [BondExecutionService.routeMarkets_of_not_fills order hf]
      simp only [htype, true_or, if_true, true_iff]
      by_contra hcon
      exact hf (hiff.mpr hcon)
  · by_cases hf : BondExecutionService.fills order
    · rw [BondExecutionService.routeMarkets_of_fills order hf]
      simp only [true_iff]
      exact hiff.mp hf
    · rw [BondExecutionService.routeMarkets_of_not_fills order hf]
      simp only [htype, true_or, if_true]
      constructor
      · intro h
        exact absurd h (by decide)
      · intro h
        exact absurd (hiff.mpr h) hf

/-- C39 at the FOK order `F1` on T3Y with visible quantity 1,000,000 and hidden
quantity -5 at price 0, executed by the service as constructed with one
listener. -/
theorem C39_fok_with_visible_executes_witness :
    ∃ s2 c, BondExecutionService.ExecuteOrder (BondExecutionService.init 1)
        ⟨⟨"T3Y", "TICKER2", 0, (2025, 6, 15)⟩, .BID, "F1", .FOK, 0, ((1000000 : Int) : ℚ),
          ((-5 : Int) : ℚ), "", false⟩ .BROKERTEC
        = .ok (s2, notifyAll 1 c) ∧
      c.data = BondExecutionService.tradeOf
        ⟨⟨"T3Y", "TICKER2", 0, (2025, 6, 15)⟩, .BID, "F1", .FOK, 0, ((1000000 : Int) : ℚ),
          ((-5 : Int) : ℚ), "", false⟩ (BondExecutionService.bookAt 0) :=
  ((C39_fok_with_visible_executes (BondExecutionService.init 1)
    ⟨⟨"T3Y", "TICKER2", 0, (2025, 6, 15)⟩, .BID, "F1", .FOK, 0, ((1000000 : Int) : ℚ),
      ((-5 : Int) : ℚ), "", false⟩ .BROKERTEC rfl rfl
    (BondExecutionService.cursorValid_init 1)).1
    (by
      show truncate ((1000000 : Int) : ℚ) > 0
      rw [truncate_intCast]
      decide)).2

/-! ## Inquiries: termination of the re-entrant call -/

namespace BondInquiryService

theorem OnMessage_of_not_received (fuel : Nat) (s : BondInquiryService) (data : Inquiry)
    (h : data.state ≠ .RECEIVED) :
    OnMessage (fuel + 1) s data =
      .ok (⟨StrMap.emplace s.inquiryMap data.inquiryId data, s.listeners⟩,
        notifyAll s.listeners
          (if (StrMap.find s.inquiryMap data.inquiryId).isNone
            then .ProcessAdd (if data.state = .QUOTED then { data with state := .DONE } else data)
            else .ProcessUpdate
              (if data.state = .QUOTED then { data with state := .DONE } else data))) := by
  by_cases hq : data.state = .QUOTED
  · simp [OnMessage, h, hq, bind, Except.bind, pure, Except.pure]
  · simp [OnMessage, h, hq, bind, Except.bind, pure, Except.pure]

theorem OnMessage_of_received (fuel : Nat) (s : BondInquiryService) (data : Inquiry)
    (h : data.state = .RECEIVED) :
    OnMessage (fuel + 2) s data =
      .ok (⟨StrMap.emplace s.inquiryMap data.inquiryId data, s.listeners⟩,
        (notifyAll s.listeners
            (.ProcessUpdate ⟨data.inquiryId,
              ((StrMap.find s.inquiryMap data.inquiryId).getD data).product,
              ((StrMap.find s.inquiryMap data.inquiryId).getD data).side,
              ((StrMap.find s.inquiryMap data.inquiryId).getD data).quantity, 100, .DONE⟩) ++
          notifyAll s.listeners
            (.ProcessUpdate ⟨data.inquiryId,
              ((StrMap.find s.inquiryMap data.inquiryId).getD data).product,
              ((StrMap.find s.inquiryMap data.inquiryId).getD data).side,
              ((StrMap.find s.inquiryMap data.inquiryId).getD data).quantity, 100, .DONE⟩)) ++
          notifyAll s.listeners
            (if (StrMap.find s.inquiryMap data.inquiryId).isNone
              then .ProcessAdd data else .ProcessUpdate data)) := by
  have hfind := StrMap.find_emplace_self s.inquiryMap data.inquiryId data
  have hsame : ∀ v : Inquiry,
      StrMap.emplace (StrMap.emplace s.inquiryMap data.inquiryId data) data.inquiryId v
        = StrMap.emplace s.inquiryMap data.inquiryId data := by
    intro v
    exact StrMap.emplace_of_some _ _ _ _ hfind
  have hq : ∀ (t : BondInquiryService) (q : Inquiry), q.state = .QUOTED →
      OnMessage (fuel + 1) t q = .ok (⟨StrMap.emplace t.inquiryMap q.inquiryId q, t.listeners⟩,
        notifyAll t.listeners
          (if (StrMap.find t.inquiryMap q.inquiryId).isNone
            then .ProcessAdd { q with state := .DONE }
            else .ProcessUpdate { q with state := .DONE })) := by
    intro t q hs
    rw [OnMessage_of_not_received fuel t q (by rw [hs]; decide)]
    simp only [hs, if_true]
  have hd : ∀ (t : BondInquiryService) (q : Inquiry), q.state = .DONE →
      OnMessage (fuel + 1) t q = .ok (⟨StrMap.emplace t.inquiryMap q.inquiryId q, t.listeners⟩,
        notifyAll t.listeners
          (if (StrMap.find t.inquiryMap q.inquiryId).isNone
            then .ProcessAdd q else .ProcessUpdate q)) := by
    intro t q hs
    rw [OnMessage_of_not_received fuel t q (by rw [hs]; decide)]
    have hne : ¬ (q.state = .QUOTED) := by rw [hs]; decide
    simp only [hne, if_false]
  rw [OnMessage]
  simp only [h, if_true, SendQuoteWith, StrMap.at, hfind, bind, Except.bind]
  rw [hq _ _ rfl]
  simp only [hsame, hfind]
  rw [hd _ _ rfl]
  simp only [hsame, hfind, pure, Except.pure, Option.isNone_some, Bool.false_eq_true,
    if_false]

end BondInquiryService

/-- C40: for every inquiry, in any state and for any store, the re-entrant
`BondInquiryService::OnMessage` terminates and returns: two levels of nesting
are enough, the result being the same for every larger bound, since the calls
made through `SendQuote` carry a QUOTED and a DONE inquiry, which make no
further call; each listener receives three calls when the inquiry is RECEIVED
and one call otherwise, hence at most three. -/
theorem C40_inquiry_terminates (fuel : Nat) (s : BondInquiryService) (data : Inquiry) :
    ∃ s2 log,
      BondInquiryService.OnMessage 2 s data = .ok (s2, log) ∧
      BondInquiryService.OnMessage (fuel + 2) s data = .ok (s2, log) ∧
      (data.state ≠ .RECEIVED → BondInquiryService.OnMessage 1 s data = .ok (s2, log)) ∧
      (∀ i, (received i log).length ≤ 3) ∧
      (∀ i, i < s.listeners →
        (received i log).length = (if data.state = .RECEIVED then 3 else 1)) := by
  by_cases h : data.state = .RECEIVED
  · refine ⟨_, _, BondInquiryService.OnMessage_of_received 0 s data h,
      BondInquiryService.OnMessage_of_received fuel s data h, fun hne => absurd h hne, ?_, ?_⟩
    · intro i
      simp only [received_append, received_notifyAll, List.length_append]
      by_cases hi : i < s.listeners <;> simp [hi]
    · intro i hi
      simp only [received_append, received_notifyAll, List.length_append, hi, if_true, h,
        List.length_singleton]
  · refine ⟨_, _, BondInquiryService.OnMessage_of_not_received 1 s data h,
      BondInquiryService.OnMessage_of_not_received (fuel + 1) s data h,
      fun _ => BondInquiryService.OnMessage_of_not_received 0 s data h, ?_, ?_⟩
    · intro i
      simp only [received_notifyAll]
      by_cases hi : i < s.listeners <;> simp [hi]
    · intro i hi
      simp only [received_notifyAll, hi, if_true, h, if_false, List.length_singleton]

end BondTrading
